import Mathlib

/-!
# CS300 course planner: the hash-table catalog and its load / validate pipeline

A shallow embedding of `src/src/ProjectTwo.cpp`.

* A `std::string` is the list of its bytes (`List Nat`, every byte below 256).
* `unsigned int` is 32 bits wide: arithmetic on it is taken modulo `2 ^ 32`.
  A `size_t` is a natural number, and its conversion to `unsigned int` is the
  remainder modulo `2 ^ 32`. `int` is 32 bits wide in two's complement: a value
  of type `int` is an integer, and an increment that leaves the range
  `-2 ^ 31 .. 2 ^ 31 - 1` wraps around (`wrapInt`), as the compiled code does.
* A bucket chain (`Node*` linked list) is the list of its courses, head first.
* Operations that evaluate `HashString(key) % static_cast<unsigned int>(bucketCount)`
  return `Option`: `none` stands for the undefined behaviour of a remainder by zero.
* `cout` is the list of the lines written to it, one constructor of `Out` per
  output statement of the source.
* A file is `none` when it cannot be opened, and otherwise the list of its lines.
* A round of the loop of `main` takes what it reads from outside as a `Turn`: the
  value returned by `ReadMenuChoice`, the next line of `cin`, and the file that
  the name given by that line opens.
-/

namespace CoursePlanner

/-! ## Data model -/

/-- The record `struct Course`. -/
structure Course where
  courseNumber : List Nat
  courseTitle : List Nat
  prerequisites : List (List Nat)
  sourceLine : Int
deriving DecidableEq, Repr

/-- The `int` that an `int` computation with the mathematical result `x` leaves:
`x` reduced to the range `-2 ^ 31 .. 2 ^ 31 - 1` modulo `2 ^ 32`. -/
def wrapInt (x : Int) : Int :=
  (x + 2147483648) % 4294967296 - 2147483648

/-- The members of `class HashTable`: `bucketCount` and the vector `buckets`,
each bucket holding its chain, head first. -/
structure HashTable where
  bucketCount : Nat
  buckets : List (List Course)
deriving DecidableEq, Repr

/-- The constructor `HashTable(bucketCountIn)`: `bucketCountIn` empty chains. -/
def HashTable.new (bucketCountIn : Nat) : HashTable :=
  ⟨bucketCountIn, List.replicate bucketCountIn []⟩

/-! ## Keyed store -/

/-- `HashTable::HashString`: polynomial rolling hash with multiplier 31 in
32-bit unsigned arithmetic. -/
def HashString (key : List Nat) : Nat :=
  key.foldl (fun h ch => (h * 31 + ch) % 2 ^ 32) 0

/-- `HashTable::IndexForKey`: the hash reduced modulo the bucket count converted
to `unsigned int`; `none` when that divisor is zero. -/
def IndexForKey (t : HashTable) (key : List Nat) : Option Nat :=
  if t.bucketCount % 2 ^ 32 = 0 then none
  else some (HashString key % (t.bucketCount % 2 ^ 32))

/-- The chain `buckets[idx]`. -/
def bucketAt (t : HashTable) (idx : Nat) : List Course :=
  t.buckets.getD idx []

/-- The body of the loop of `HashTable::Clear` for bucket `i`: every node of
the chain is deleted and the bucket is reset to the null pointer. -/
def clearBucket (buckets : List (List Course)) (i : Nat) : List (List Course) :=
  buckets.set i []

/-- `HashTable::Clear`. -/
def Clear (t : HashTable) : HashTable :=
  { t with buckets := (List.range t.bucketCount).foldl clearBucket t.buckets }

/-- The chain walk of `HashTable::Insert`: the first node whose `courseNumber`
equals that of `c` is overwritten by `c`; `none` when the walk reaches the end
of the chain without a match. -/
def overwriteInChain (c : Course) : List Course → Option (List Course)
  | [] => none
  | cur :: rest =>
    if cur.courseNumber = c.courseNumber then some (c :: rest)
    else
      match overwriteInChain c rest with
      | some rest' => some (cur :: rest')
      | none => none

/-- `HashTable::Insert`: overwrite a node with the same key in the chain of the
key's bucket, otherwise prepend a new node to that chain. -/
def Insert (t : HashTable) (c : Course) : Option HashTable :=
  match IndexForKey t c.courseNumber with
  | none => none
  | some idx =>
    match overwriteInChain c (bucketAt t idx) with
    | some chain => some { t with buckets := t.buckets.set idx chain }
    | none => some { t with buckets := t.buckets.set idx (c :: bucketAt t idx) }

/-- The chain walk of `HashTable::Search`. -/
def searchChain (courseNumber : List Nat) : List Course → Option Course
  | [] => none
  | cur :: rest =>
    if cur.courseNumber = courseNumber then some cur else searchChain courseNumber rest

/-- `HashTable::Search`: the outer `Option` is `none` when the index is
undefined; the inner one is the returned pointer (`none` for `nullptr`). -/
def Search (t : HashTable) (courseNumber : List Nat) : Option (Option Course) :=
  match IndexForKey t courseNumber with
  | none => none
  | some idx => some (searchChain courseNumber (bucketAt t idx))

/-- `HashTable::GetAllCourses`: the chains of buckets `0 .. bucketCount - 1`,
each in chain order, pushed onto one vector. -/
def GetAllCourses (t : HashTable) : List Course :=
  (List.range t.bucketCount).foldl (fun courses i => courses ++ bucketAt t i) []

/-- One public mutating operation of the store. -/
inductive StoreOp where
  | insert (c : Course)
  | clear
deriving DecidableEq, Repr

/-- Run one store operation. -/
def applyOp (t : HashTable) : StoreOp → Option HashTable
  | .insert c => Insert t c
  | .clear => some (Clear t)

/-- Run a sequence of store operations, left to right. -/
def runOps (t : HashTable) : List StoreOp → Option HashTable
  | [] => some t
  | op :: ops =>
    match applyOp t op with
    | none => none
    | some t' => runOps t' ops

/-- A store state: one that a freshly constructed `HashTable` reaches by a
sequence of `Insert` and `Clear` calls. -/
def Reachable (t : HashTable) : Prop :=
  ∃ (n : Nat) (ops : List StoreOp), runOps (HashTable.new n) ops = some t

/-! ### The representation invariant -/

/-- The representation invariant of a store: the vector has `bucketCount`
buckets, every record sits in the bucket of its key, and no chain holds a key
twice. -/
structure Inv (t : HashTable) : Prop where
  size_eq : t.buckets.length = t.bucketCount
  hashed : ∀ i c, c ∈ bucketAt t i → IndexForKey t c.courseNumber = some i
  nodup : ∀ i, ((bucketAt t i).map Course.courseNumber).Nodup

/-- The chain of the key's bucket after `Insert`. -/
def chainAfterInsert (c : Course) (chain : List Course) : List Course :=
  match overwriteInChain c chain with
  | some chain' => chain'
  | none => c :: chain

/-- Replace a record carrying the key of `c` by `c`. -/
def replaceKey (c : Course) (x : Course) : Course :=
  if x.courseNumber = c.courseNumber then c else x

/-! ## String helpers -/

/-- The constant `whitespace = " \t\n\r"` of `Trim`. -/
def whitespace : List Nat := [32, 9, 10, 13]

/-- `str.find_first_not_of(ws)`: the index of the first byte that is not in
`ws`; `none` is `string::npos`. -/
def find_first_not_of (ws : List Nat) : List Nat → Option Nat
  | [] => none
  | ch :: rest =>
    if ch ∈ ws then
      match find_first_not_of ws rest with
      | some i => some (i + 1)
      | none => none
    else some 0

/-- `str.find_last_not_of(ws)`: the index of the last byte that is not in `ws`;
`none` is `string::npos`. -/
def find_last_not_of (ws : List Nat) : List Nat → Option Nat
  | [] => none
  | ch :: rest =>
    match find_last_not_of ws rest with
    | some i => some (i + 1)
    | none => if ch ∈ ws then none else some 0

/-- `str.substr(pos, len)` for `pos ≤ str.size()`. -/
def substr (str : List Nat) (pos len : Nat) : List Nat :=
  (str.drop pos).take len

/-- `Trim`: the bytes from the first to the last non-whitespace byte. The branch
for `last = npos` after a successful `find_first_not_of` is never taken
(`find_last_not_of_isSome`). -/
def Trim (str : List Nat) : List Nat :=
  match find_first_not_of whitespace str with
  | none => []
  | some first =>
    match find_last_not_of whitespace str with
    | some last => substr str first (last - first + 1)
    | none => str.drop first

/-- `toupper` in the default "C" locale, on an `unsigned char` value. -/
def toupper (ch : Nat) : Nat :=
  if 97 ≤ ch ∧ ch ≤ 122 then ch - 32 else ch

/-- `ToUpper`. -/
def ToUpper (str : List Nat) : List Nat :=
  str.map toupper

/-- `StripBOM`: drops the three bytes EF BB BF when the string starts with them. -/
def StripBOM (str : List Nat) : List Nat :=
  match str with
  | b0 :: b1 :: b2 :: rest => if b0 = 0xEF ∧ b1 = 0xBB ∧ b2 = 0xBF then rest else str
  | _ => str

/-- The loop `while (getline(ss, token, delimiter)) tokens.push_back(token)` of
`Split`, on the unread bytes of the stream; `token` holds the bytes extracted so
far by the running `getline`. A `getline` that meets the end of the stream
without having extracted anything fails and ends the loop. -/
def splitLoop (delimiter : Nat) : List Nat → List Nat → List (List Nat)
  | [], token => if token = [] then [] else [token]
  | ch :: rest, token =>
    if ch = delimiter then token :: splitLoop delimiter rest []
    else splitLoop delimiter rest (token ++ [ch])

/-- `Split`. -/
def Split (line : List Nat) (delimiter : Nat) : List (List Nat) :=
  splitLoop delimiter line []

/-- `NormalizeId`. -/
def NormalizeId (raw : List Nat) : List Nat :=
  ToUpper (Trim raw)

/-! ## Line parser -/

/-- What `ParseLineToCourse` hands back: the returned `bool` and the two
out-parameters. -/
structure ParseResult where
  ok : Bool
  outCourse : Course
  err : String
deriving DecidableEq, Repr

/-- The loop over `tokens[2 ..]` of `ParseLineToCourse`: each token is
normalized and pushed onto `prerequisites` unless it is empty. -/
def pushPrerequisites : List (List Nat) → List (List Nat) → List (List Nat)
  | [], prerequisites => prerequisites
  | token :: rest, prerequisites =>
    if NormalizeId token = [] then pushPrerequisites rest prerequisites
    else pushPrerequisites rest (prerequisites ++ [NormalizeId token])

/-- `ParseLineToCourse`; the comma is byte 44. The record of the result is
`outCourse` as the function leaves it, also when it returns `false`. -/
def ParseLineToCourse (line : List Nat) (lineNumber : Int) (isFirstDataLine : Bool) :
    ParseResult :=
  let trimmedLine := Trim line
  if trimmedLine = [] then ⟨false, ⟨[], [], [], lineNumber⟩, "blank line"⟩
  else
    let tokens := Split trimmedLine 44
    if tokens.length < 2 then
      ⟨false, ⟨[], [], [], lineNumber⟩, "invalid course number or title"⟩
    else
      let tokens := tokens.map Trim
      let tokens := if isFirstDataLine then tokens.set 0 (StripBOM (tokens.getD 0 [])) else tokens
      let courseNumber := NormalizeId (tokens.getD 0 [])
      let courseTitle := Trim (tokens.getD 1 [])
      if courseNumber = [] ∨ courseTitle = [] then
        ⟨false, ⟨courseNumber, courseTitle, [], lineNumber⟩, "invalid course number or title"⟩
      else
        ⟨true, ⟨courseNumber, courseTitle, pushPrerequisites (tokens.drop 2) [], lineNumber⟩, ""⟩

/-! ## Output -/

/-- One output statement on `cout`: a line, or a prompt without line end. -/
inductive Out where
  /-- `"Error line " << sourceLine << ": " << courseNumber << " missing prerequisite " << prereq` -/
  | missingPrerequisite (sourceLine : Int) (courseNumber prereq : List Nat)
  /-- `"Format error line " << lineNumber << ": " << err` -/
  | formatError (lineNumber : Int) (err : String)
  /-- `"Could not open file: " << fileName` -/
  | couldNotOpen (fileName : List Nat)
  /-- `"No valid courses loaded."` -/
  | noValidCourses
  /-- `"Here is a sample schedule:"` -/
  | scheduleHeader
  /-- `courseNumber << ", " << courseTitle` -/
  | courseLine (courseNumber courseTitle : List Nat)
  /-- `"Course " << id << " not found."` -/
  | courseNotFound (id : List Nat)
  /-- `"Prerequisites: None"` -/
  | prerequisitesNone
  /-- `"Prerequisites: "` followed by `listing`, the bytes written by the loop over
  the prerequisites -/
  | prerequisites (listing : List Nat)
  /-- `"Welcome to the course planner."` -/
  | welcome
  /-- The four lines of `PrintMenu` -/
  | menu
  /-- A prompt: `"What would you like to do? "`, `"Enter the file name: "` or
  `"What course do you want to know about? "` -/
  | prompt (text : String)
  /-- `"Please load data first."` -/
  | pleaseLoadFirst
  /-- `raw << " is not a valid option."` -/
  | invalidOption (raw : List Nat)
  /-- `"Thank you for using the course planner!"` -/
  | goodbye
deriving DecidableEq, Repr

/-! ## Integrity validator -/

/-- The inner loop of `ValidatePrerequisites` over the prerequisites of `c`,
threading the lines written so far and the `int errorCount`. -/
def validatePrereqs (t : HashTable) (c : Course) :
    List (List Nat) → List Out × Int → Option (List Out × Int)
  | [], st => some st
  | prereq :: rest, st =>
    match Search t prereq with
    | none => none
    | some none =>
      validatePrereqs t c rest
        (st.1 ++ [Out.missingPrerequisite c.sourceLine c.courseNumber prereq],
          wrapInt (st.2 + 1))
    | some (some _) => validatePrereqs t c rest st

/-- The outer loop of `ValidatePrerequisites` over `courses`. -/
def validateCourses (t : HashTable) :
    List Course → List Out × Int → Option (List Out × Int)
  | [], st => some st
  | c :: rest, st =>
    match validatePrereqs t c c.prerequisites st with
    | none => none
    | some st' => validateCourses t rest st'

/-- `ValidatePrerequisites`: the lines written and the returned `errorCount`. -/
def ValidatePrerequisites (t : HashTable) : Option (List Out × Int) :=
  validateCourses t (GetAllCourses t) ([], 0)

/-! ## Query layer -/

/-- `operator<` on `std::string`: lexicographic on unsigned bytes, a proper
prefix being smaller. -/
def stringLess : List Nat → List Nat → Bool
  | _, [] => false
  | [], _ :: _ => true
  | a :: as, b :: bs =>
    if a < b then true else if b < a then false else stringLess as bs

/-- The comparator handed to `std::sort` in `PrintCourseListSorted`. -/
def courseLess (a b : Course) : Bool :=
  stringLess a.courseNumber b.courseNumber

/-- Insertion of `x` into a list ordered by `comp`. -/
def orderedInsert (comp : Course → Course → Bool) (x : Course) : List Course → List Course
  | [] => [x]
  | y :: ys => if comp x y then x :: y :: ys else y :: orderedInsert comp x ys

/-- `std::sort(first, last, comp)` of the standard library, whose contract is a
rearrangement ascending by `comp`; taken here as insertion sort. The standard
leaves the relative order of elements equivalent under `comp` open. -/
def stdSort (comp : Course → Course → Bool) : List Course → List Course
  | [] => []
  | x :: xs => orderedInsert comp x (stdSort comp xs)

/-- The vector `courses` of `PrintCourseListSorted` after the call of `std::sort`. -/
def sortedCourses (t : HashTable) : List Course :=
  stdSort courseLess (GetAllCourses t)

/-- `PrintCourseListSorted`: the lines written. -/
def PrintCourseListSorted (t : HashTable) : List Out :=
  Out.scheduleHeader :: (sortedCourses t).map (fun c => Out.courseLine c.courseNumber c.courseTitle)

/-- The loop of `PrintSingleCourse` over `i = 0 .. size - 1`: `prerequisites[i]`
is written, followed by `", "` (bytes 44, 32) when `i + 1 < size`. -/
def printPrerequisites (prerequisites : List (List Nat)) : List Nat :=
  (List.range prerequisites.length).foldl
    (fun listing i =>
      listing ++ prerequisites.getD i [] ++
        (if i + 1 < prerequisites.length then [44, 32] else []))
    []

/-- `PrintSingleCourse`: the lines written; `none` when `Search` has no defined
result. -/
def PrintSingleCourse (t : HashTable) (rawId : List Nat) : Option (List Out) :=
  match Search t (NormalizeId rawId) with
  | none => none
  | some none => some [Out.courseNotFound (NormalizeId rawId)]
  | some (some c) =>
    if c.prerequisites = [] then
      some [Out.courseLine c.courseNumber c.courseTitle, Out.prerequisitesNone]
    else
      some [Out.courseLine c.courseNumber c.courseTitle,
        Out.prerequisites (printPrerequisites c.prerequisites)]

/-! ## Catalog loader -/

/-- The variables of the read loop of `LoadCoursesFromFile`. -/
structure LoadState where
  table : HashTable
  lineNumber : Int
  isFirstNonEmptyLine : Bool
  out : List Out
deriving DecidableEq, Repr

/-- One round of the loop `while (getline(file, line))`; `++lineNumber` is an
`int` increment. -/
def loadLine (st : LoadState) (line : List Nat) : Option LoadState :=
  let lineNumber := wrapInt (st.lineNumber + 1)
  if Trim line = [] then some ⟨st.table, lineNumber, st.isFirstNonEmptyLine, st.out⟩
  else
    let res := ParseLineToCourse line lineNumber st.isFirstNonEmptyLine
    if res.ok = false then
      if res.err ≠ "blank line" then
        some ⟨st.table, lineNumber, false, st.out ++ [Out.formatError lineNumber res.err]⟩
      else some ⟨st.table, lineNumber, false, st.out⟩
    else
      match Insert st.table res.outCourse with
      | none => none
      | some table => some ⟨table, lineNumber, false, st.out⟩

/-- The read loop over the lines of the file. -/
def loadLines (st : LoadState) : List (List Nat) → Option LoadState
  | [] => some st
  | line :: rest =>
    match loadLine st line with
    | none => none
    | some st' => loadLines st' rest

/-- What `LoadCoursesFromFile` leaves: the returned `bool`, the table and the
lines written. -/
structure LoadResult where
  ok : Bool
  table : HashTable
  out : List Out
deriving DecidableEq, Repr

/-- `LoadCoursesFromFile`. The file is `none` when it cannot be opened, and
otherwise the sequence of lines that `getline` reads from it. -/
def LoadCoursesFromFile (fileName : List Nat) (file : Option (List (List Nat)))
    (table : HashTable) : Option LoadResult :=
  match file with
  | none => some ⟨false, table, [Out.couldNotOpen fileName]⟩
  | some lines =>
    match loadLines ⟨Clear table, 0, true, []⟩ lines with
    | none => none
    | some st =>
      match ValidatePrerequisites st.table with
      | none => none
      | some v =>
        if GetAllCourses st.table = [] then
          some ⟨false, st.table, st.out ++ v.1 ++ [Out.noValidCourses]⟩
        else some ⟨true, st.table, st.out ++ v.1⟩

/-! ## Command loop -/

/-- The record `struct MenuInput` that `ReadMenuChoice` returns. -/
structure MenuInput where
  parsed : Bool
  choice : Int
  raw : List Nat
deriving DecidableEq, Repr

/-- What one round of the loop of `main` takes from outside: the value returned
by `ReadMenuChoice`, the line that the next `getline(cin, ...)` reads when the
chosen branch asks for a file name or a course id, and what opening the named
file gives. -/
structure Turn where
  mi : MenuInput
  line : List Nat
  file : Option (List (List Nat))
deriving DecidableEq, Repr

/-- The variables of `main`: the table and the flag `loaded`. -/
structure Session where
  table : HashTable
  loaded : Bool
deriving DecidableEq, Repr

/-- What one round of the loop of `main` leaves: the variables, what the round
wrote, and whether the loop goes on (`false` after `break`). -/
structure TurnResult where
  session : Session
  out : List Out
  continues : Bool
deriving DecidableEq, Repr

/-- One round of the loop `while (true)` of `main`. -/
def mainTurn (s : Session) (turn : Turn) : Option TurnResult :=
  if turn.mi.parsed = true ∧ turn.mi.choice = 1 then
    match LoadCoursesFromFile (Trim turn.line) turn.file s.table with
    | none => none
    | some res =>
      some ⟨⟨res.table, res.ok⟩,
        [Out.menu, Out.prompt "What would you like to do? ", Out.prompt "Enter the file name: "]
          ++ res.out, true⟩
  else if turn.mi.parsed = true ∧ turn.mi.choice = 2 then
    if s.loaded = false then
      some ⟨s, [Out.menu, Out.prompt "What would you like to do? ", Out.pleaseLoadFirst], true⟩
    else
      some ⟨s, [Out.menu, Out.prompt "What would you like to do? "]
        ++ PrintCourseListSorted s.table, true⟩
  else if turn.mi.parsed = true ∧ turn.mi.choice = 3 then
    if s.loaded = false then
      some ⟨s, [Out.menu, Out.prompt "What would you like to do? ", Out.pleaseLoadFirst], true⟩
    else
      match PrintSingleCourse s.table turn.line with
      | none => none
      | some printed =>
        some ⟨s, [Out.menu, Out.prompt "What would you like to do? ",
          Out.prompt "What course do you want to know about? "] ++ printed, true⟩
  else if turn.mi.parsed = true ∧ turn.mi.choice = 9 then
    some ⟨s, [Out.menu, Out.prompt "What would you like to do? ", Out.goodbye], false⟩
  else if turn.mi.raw ≠ [] then
    some ⟨s, [Out.menu, Out.prompt "What would you like to do? ",
      Out.invalidOption turn.mi.raw], true⟩
  else some ⟨s, [Out.menu, Out.prompt "What would you like to do? "], true⟩

/-- The loop of `main` over the given rounds; it stops at the first round that
breaks. The result holds the variables after the last round run and everything
that was written. -/
def mainLoop (s : Session) (out : List Out) : List Turn → Option (Session × List Out)
  | [] => some (s, out)
  | turn :: rest =>
    match mainTurn s turn with
    | none => none
    | some r =>
      if r.continues = true then mainLoop r.session (out ++ r.out) rest
      else some (r.session, out ++ r.out)

/-- `main`, run for the given rounds: `HashTable table(179)`, `loaded = false`. -/
def main (turns : List Turn) : Option (Session × List Out) :=
  mainLoop ⟨HashTable.new 179, false⟩ [Out.welcome] turns

/-! ## Vocabulary of the claims -/

/-- The bytes of an ASCII string literal. -/
def ascii (s : String) : List Nat :=
  s.toList.map Char.toNat

/-- Membership in the constant `whitespace`, as a test on one byte. -/
def isWhitespace (ch : Nat) : Bool :=
  decide (ch ∈ whitespace)

/-- The shape of a stored record: a non-empty normalized id, a non-empty trimmed
title, and only non-empty normalized prerequisite ids. -/
def WellFormedRecord (c : Course) : Prop :=
  c.courseNumber ≠ [] ∧ NormalizeId c.courseNumber = c.courseNumber ∧
    c.courseTitle ≠ [] ∧ Trim c.courseTitle = c.courseTitle ∧
    ∀ p ∈ c.prerequisites, p ≠ [] ∧ NormalizeId p = p

/-- The header of a non-blank line is invalid: the comma-split trimmed line has
fewer than two fields, or its first field (after BOM stripping when the flag is
set) normalizes to the empty string, or its second field trims to the empty
string. -/
def InvalidHeader (line : List Nat) (isFirstDataLine : Bool) : Prop :=
  (Split (Trim line) 44).length < 2 ∨
    NormalizeId (if isFirstDataLine then StripBOM ((Split (Trim line) 44).getD 0 [])
      else (Split (Trim line) 44).getD 0 []) = [] ∨
    Trim ((Split (Trim line) 44).getD 1 []) = []

/-- The call of `ParseLineToCourse` that the loader makes for the line at
0-based index `i`: the `int lineNumber` after `i + 1` increments, and the
first-data-line flag set when every earlier line is blank. -/
def parseAt (lines : List (List Nat)) (i : Nat) : ParseResult :=
  ParseLineToCourse (lines.getD i []) (wrapInt ((i : Int) + 1))
    ((lines.take i).all (fun l => decide (Trim l = [])))

/-- Line `i` of the input is accepted with id `k`. -/
def AcceptsAt (lines : List (List Nat)) (i : Nat) (k : List Nat) : Prop :=
  i < lines.length ∧ (parseAt lines i).ok = true ∧ (parseAt lines i).outCourse.courseNumber = k

/-- The record `r` comes from the last line of the input that is accepted with
id `k`. -/
def LastAccepted (lines : List (List Nat)) (k : List Nat) (r : Course) : Prop :=
  ∃ i, AcceptsAt lines i k ∧ (parseAt lines i).outCourse = r ∧
    ∀ j, i < j → ¬ AcceptsAt lines j k

/-- The pairs (stored record `c`, prerequisite occurrence `p` of `c`) for which
`Search(p)` returns the null pointer, in enumeration order; a prerequisite listed
twice appears twice. -/
def unresolvedPairs (t : HashTable) : List (Course × List Nat) :=
  (GetAllCourses t).flatMap (fun c =>
    (c.prerequisites.filter (fun p => decide (Search t p = some none))).map (fun p => (c, p)))

/-- The line that `ValidatePrerequisites` writes for an unresolved pair. -/
def missingLine (cp : Course × List Nat) : Out :=
  Out.missingPrerequisite cp.1.sourceLine cp.1.courseNumber cp.2

/-- The byte `a` is the byte `b` up to the case of an ASCII letter. -/
def SameLetter (a b : Nat) : Prop :=
  a = b ∨ (65 ≤ a ∧ a ≤ 90 ∧ b = a + 32) ∨ (65 ≤ b ∧ b ≤ 90 ∧ a = b + 32)

/-- The string `t` differs from `s` only in the case of ASCII letters. -/
def SameUpToCase (t s : List Nat) : Prop :=
  List.Forall₂ SameLetter t s

/-- The records of the accepted lines of the input, in input order. -/
def acceptedRecords (lines : List (List Nat)) : List Course :=
  (List.range lines.length).filterMap (fun i =>
    if (parseAt lines i).ok = true then some (parseAt lines i).outCourse else none)

/-- The format-error lines for the input when the line at 0-based index `i` is
given the number `num i`: one for every line that is not blank and is rejected, in
input order, with the reason of the rejection. -/
def formatErrors (num : Nat → Int) (lines : List (List Nat)) : List Out :=
  (List.range lines.length).filterMap (fun i =>
    if Trim (lines.getD i []) ≠ [] ∧ (parseAt lines i).ok = false then
      some (Out.formatError (num i) (parseAt lines i).err)
    else none)

/-- The turn is a load command (menu choice 1). -/
def Turn.isLoad (turn : Turn) : Prop :=
  turn.mi.parsed = true ∧ turn.mi.choice = 1

/-- The turn is a print-all or print-one command (menu choice 2 or 3). -/
def Turn.isPrint (turn : Turn) : Prop :=
  turn.mi.parsed = true ∧ (turn.mi.choice = 2 ∨ turn.mi.choice = 3)

/-- The turn is the exit command (menu choice 9). -/
def Turn.isExit (turn : Turn) : Prop :=
  turn.mi.parsed = true ∧ turn.mi.choice = 9

/-! ## The store: representation lemmas -/

theorem foldl_clearBucket (n : Nat) (l : List (List Course)) (h : n ≤ l.length) :
    (List.range n).foldl clearBucket l = List.replicate n [] ++ l.drop n := by
  induction n with
  | zero => simp
  | succ k ih =>
    have hk : k < l.length := h
    rw [List.range_succ, List.foldl_append, ih (Nat.le_of_lt hk)]
    simp only [List.foldl_cons, List.foldl_nil, clearBucket]
    rw [List.set_eq_take_cons_drop _ (by simp; omega)]
    rw [List.take_append_of_le_length (by simp), List.take_of_length_le (by simp)]
    rw [List.drop_append_eq_append_drop]
    simp [List.replicate_succ', Nat.add_comm]

theorem Clear_eq (t : HashTable) (h : t.buckets.length = t.bucketCount) :
    Clear t = HashTable.new t.bucketCount := by
  unfold Clear HashTable.new
  rw [foldl_clearBucket _ _ (Nat.le_of_eq h.symm), ← h]
  simp

theorem foldl_append_bucketAt (t : HashTable) (n : Nat) (acc : List Course) :
    (List.range n).foldl (fun courses i => courses ++ bucketAt t i) acc
      = acc ++ (t.buckets.take n).flatten := by
  induction n with
  | zero => simp
  | succ k ih =>
    rw [List.range_succ, List.foldl_append, ih]
    simp only [List.foldl_cons, List.foldl_nil, bucketAt, List.take_succ, List.flatten_append,
      List.append_assoc, List.getD_eq_getElem?_getD]
    cases t.buckets[k]? <;> simp

theorem GetAllCourses_eq (t : HashTable) (h : t.buckets.length = t.bucketCount) :
    GetAllCourses t = t.buckets.flatten := by
  unfold GetAllCourses
  rw [foldl_append_bucketAt, ← h]
  simp


theorem IndexForKey_lt {t : HashTable} {k : List Nat} {i : Nat}
    (h : IndexForKey t k = some i) : i < t.bucketCount := by
  unfold IndexForKey at h
  split at h
  · cases h
  · rename_i hm
    injection h with h
    have h1 : HashString k % (t.bucketCount % 2 ^ 32) < t.bucketCount % 2 ^ 32 :=
      Nat.mod_lt _ (Nat.pos_of_ne_zero hm)
    have h2 : t.bucketCount % 2 ^ 32 ≤ t.bucketCount := Nat.mod_le _ _
    omega

theorem IndexForKey_congr {t t' : HashTable} (h : t'.bucketCount = t.bucketCount)
    (k : List Nat) : IndexForKey t' k = IndexForKey t k := by
  unfold IndexForKey; rw [h]

theorem IndexForKey_mk (t : HashTable) (b : List (List Course)) (k : List Nat) :
    IndexForKey ⟨t.bucketCount, b⟩ k = IndexForKey t k := rfl

theorem IndexForKey_isSome {t : HashTable} (h : t.bucketCount % 2 ^ 32 ≠ 0) (k : List Nat) :
    IndexForKey t k = some (HashString k % (t.bucketCount % 2 ^ 32)) := by
  unfold IndexForKey; rw [if_neg h]

theorem usable_of_IndexForKey {t : HashTable} {k : List Nat} {i : Nat}
    (h : IndexForKey t k = some i) : t.bucketCount % 2 ^ 32 ≠ 0 := by
  intro h0
  unfold IndexForKey at h
  rw [if_pos h0] at h
  cases h

theorem Insert_eq {t : HashTable} {c : Course} {idx : Nat}
    (h : IndexForKey t c.courseNumber = some idx) :
    Insert t c
      = some ⟨t.bucketCount, t.buckets.set idx (chainAfterInsert c (bucketAt t idx))⟩ := by
  simp only [Insert, chainAfterInsert, h]
  cases overwriteInChain c (bucketAt t idx) <;> rfl

theorem Insert_isSome_iff (t : HashTable) (c : Course) :
    (∃ t', Insert t c = some t') ↔ t.bucketCount % 2 ^ 32 ≠ 0 := by
  constructor
  · rintro ⟨t', h⟩
    unfold Insert at h
    cases hi : IndexForKey t c.courseNumber with
    | none => rw [hi] at h; cases h
    | some i => exact usable_of_IndexForKey hi
  · intro h
    exact ⟨_, Insert_eq (IndexForKey_isSome h _)⟩

theorem Insert_bucketCount {t t' : HashTable} {c : Course} (h : Insert t c = some t') :
    t'.bucketCount = t.bucketCount := by
  cases hi : IndexForKey t c.courseNumber with
  | none => unfold Insert at h; rw [hi] at h; cases h
  | some i =>
    rw [Insert_eq hi] at h
    injection h with h
    rw [← h]

theorem overwriteInChain_eq_none {c : Course} {l : List Course} :
    overwriteInChain c l = none ↔ ∀ x ∈ l, x.courseNumber ≠ c.courseNumber := by
  induction l with
  | nil => simp [overwriteInChain]
  | cons a l ih =>
    unfold overwriteInChain
    by_cases ha : a.courseNumber = c.courseNumber
    · simp [ha]
    · simp only [if_neg ha, List.mem_cons, forall_eq_or_imp, ne_eq, ha, not_false_eq_true,
        true_and]
      rw [← ih]
      cases overwriteInChain c l <;> simp

theorem overwriteInChain_eq_some {c : Course} {l l' : List Course}
    (h : overwriteInChain c l = some l')
    (hnd : (l.map Course.courseNumber).Nodup) :
    l' = l.map (replaceKey c) := by
  induction l generalizing l' with
  | nil => simp [overwriteInChain] at h
  | cons a l ih =>
    unfold overwriteInChain at h
    have hnd' := List.nodup_cons.mp hnd
    by_cases ha : a.courseNumber = c.courseNumber
    · rw [if_pos ha] at h
      injection h with h
      subst h
      simp only [List.map_cons, replaceKey, if_pos ha, List.cons.injEq, true_and]
      conv_lhs => rw [← List.map_id l]
      apply List.map_congr_left
      intro x hx
      have : x.courseNumber ≠ c.courseNumber := by
        intro hxc
        apply hnd'.1
        rw [ha, ← hxc]
        exact List.mem_map_of_mem _ hx
      simp [replaceKey, this]
    · rw [if_neg ha] at h
      cases ho : overwriteInChain c l with
      | none => rw [ho] at h; cases h
      | some r =>
        rw [ho] at h
        injection h with h
        subst h
        simp [replaceKey, ha, ih ho hnd'.2]

theorem searchChain_chainAfterInsert (c : Course) (k : List Nat) (l : List Course) :
    searchChain k (chainAfterInsert c l)
      = if c.courseNumber = k then some c else searchChain k l := by
  induction l with
  | nil => simp [chainAfterInsert, overwriteInChain, searchChain]
  | cons a l ih =>
    unfold chainAfterInsert at ih ⊢
    unfold overwriteInChain
    by_cases ha : a.courseNumber = c.courseNumber
    · simp only [if_pos ha, searchChain]
      by_cases hk : c.courseNumber = k
      · simp [hk]
      · simp [hk, ha]
    · simp only [if_neg ha]
      cases ho : overwriteInChain c l with
      | none =>
        simp only [searchChain]
      | some r =>
        rw [ho] at ih
        simp only at ih
        simp only [searchChain, ih]
        by_cases hk : c.courseNumber = k
        · have : a.courseNumber ≠ k := hk ▸ ha
          simp [hk, this]
        · simp [hk]

theorem Search_Insert {t t' : HashTable} {c : Course}
    (hs : t.buckets.length = t.bucketCount) (h : Insert t c = some t') (k : List Nat) :
    Search t' k = if c.courseNumber = k then some (some c) else Search t k := by
  have hu : t.bucketCount % 2 ^ 32 ≠ 0 := (Insert_isSome_iff t c).mp ⟨t', h⟩
  have hi := IndexForKey_isSome hu c.courseNumber
  have hj := IndexForKey_isSome hu k
  have hlt := IndexForKey_lt hi
  rw [Insert_eq hi] at h
  injection h with h
  subst h
  have hj' : ∀ b, IndexForKey ⟨t.bucketCount, b⟩ k
      = some (HashString k % (t.bucketCount % 2 ^ 32)) := fun b => by
    rw [IndexForKey_mk]; exact hj
  unfold Search
  rw [hj', hj]
  simp only [bucketAt, List.getD_eq_getElem?_getD, List.getElem?_set]
  by_cases hij : HashString c.courseNumber % (t.bucketCount % 2 ^ 32)
      = HashString k % (t.bucketCount % 2 ^ 32)
  · rw [if_pos hij, if_pos (by rw [hs]; exact hlt)]
    simp only [Option.getD_some]
    rw [← hij]
    have := searchChain_chainAfterInsert c k
      (t.buckets[HashString c.courseNumber % (t.bucketCount % 2 ^ 32)]?.getD [])
    rw [this]
    split <;> rfl
  · rw [if_neg hij]
    have hne : c.courseNumber ≠ k := fun e => hij (by rw [e])
    rw [if_neg hne]


theorem bucketAt_set (bc : Nat) (l : List (List Course)) (i j : Nat) (x : List Course) :
    bucketAt ⟨bc, l.set i x⟩ j
      = if i = j ∧ i < l.length then x else bucketAt ⟨bc, l⟩ j := by
  simp only [bucketAt, List.getD_eq_getElem?_getD, List.getElem?_set]
  by_cases hij : i = j
  · subst hij
    by_cases hl : i < l.length
    · simp [hl]
    · have : l[i]? = none := List.getElem?_eq_none (Nat.le_of_not_lt hl)
      simp [hl, this]
  · simp [hij]

theorem mem_chainAfterInsert {c x : Course} {l : List Course}
    (h : x ∈ chainAfterInsert c l) : x = c ∨ x ∈ l := by
  induction l with
  | nil => simpa [chainAfterInsert, overwriteInChain] using h
  | cons a l ih =>
    unfold chainAfterInsert at h ih
    unfold overwriteInChain at h
    by_cases ha : a.courseNumber = c.courseNumber
    · simp only [if_pos ha, List.mem_cons] at h
      rcases h with h | h
      · exact Or.inl h
      · exact Or.inr (List.mem_cons_of_mem _ h)
    · simp only [if_neg ha] at h
      cases ho : overwriteInChain c l with
      | none =>
        rw [ho] at h
        simp only [List.mem_cons] at h
        rcases h with h | h | h
        · exact Or.inl h
        · exact Or.inr (h ▸ List.mem_cons_self _ _)
        · exact Or.inr (List.mem_cons_of_mem _ h)
      | some r =>
        rw [ho] at h ih
        simp only [List.mem_cons] at h
        rcases h with h | h
        · exact Or.inr (h ▸ List.mem_cons_self _ _)
        · rcases ih h with h | h
          · exact Or.inl h
          · exact Or.inr (List.mem_cons_of_mem _ h)

theorem overwriteInChain_keys {c : Course} {l l' : List Course}
    (h : overwriteInChain c l = some l') :
    l'.map Course.courseNumber = l.map Course.courseNumber := by
  induction l generalizing l' with
  | nil => simp [overwriteInChain] at h
  | cons a l ih =>
    unfold overwriteInChain at h
    by_cases ha : a.courseNumber = c.courseNumber
    · rw [if_pos ha] at h
      injection h with h
      subst h
      simp [ha]
    · rw [if_neg ha] at h
      cases ho : overwriteInChain c l with
      | none => rw [ho] at h; cases h
      | some r =>
        rw [ho] at h
        injection h with h
        subst h
        simp [ih ho]

theorem nodup_chainAfterInsert {c : Course} {l : List Course}
    (h : (l.map Course.courseNumber).Nodup) :
    ((chainAfterInsert c l).map Course.courseNumber).Nodup := by
  unfold chainAfterInsert
  cases ho : overwriteInChain c l with
  | none =>
    simp only [List.map_cons, List.nodup_cons]
    refine ⟨?_, h⟩
    intro hm
    obtain ⟨x, hx, hxc⟩ := List.mem_map.mp hm
    exact overwriteInChain_eq_none.mp ho x hx hxc
  | some r =>
    simp only
    rw [overwriteInChain_keys ho]
    exact h

theorem Inv_new (n : Nat) : Inv (HashTable.new n) := by
  refine ⟨by simp [HashTable.new], ?_, ?_⟩
  · intro i c hc
    simp [bucketAt, HashTable.new, List.getD_eq_getElem?_getD, List.getElem?_replicate] at hc
    split at hc <;> simp at hc
  · intro i
    simp only [bucketAt, HashTable.new, List.getD_eq_getElem?_getD, List.getElem?_replicate]
    split <;> simp

theorem Inv_Clear {t : HashTable} (h : Inv t) : Inv (Clear t) := by
  rw [Clear_eq t h.size_eq]
  exact Inv_new _

theorem Inv_Insert {t t' : HashTable} {c : Course} (hinv : Inv t) (h : Insert t c = some t') :
    Inv t' := by
  have hu : t.bucketCount % 2 ^ 32 ≠ 0 := (Insert_isSome_iff t c).mp ⟨t', h⟩
  have hi := IndexForKey_isSome hu c.courseNumber
  have hlt := IndexForKey_lt hi
  rw [Insert_eq hi] at h
  injection h with h
  subst h
  have hlen : HashString c.courseNumber % (t.bucketCount % 2 ^ 32) < t.buckets.length := by
    rw [hinv.size_eq]; exact hlt
  refine ⟨by simpa using hinv.size_eq, ?_, ?_⟩
  · intro j x hx
    rw [IndexForKey_mk]
    rw [bucketAt_set] at hx
    split at hx
    · rename_i hij
      rcases mem_chainAfterInsert hx with hxc | hxc
      · rw [hxc, hi, hij.1]
      · rw [← hij.1]; exact hinv.hashed _ x hxc
    · exact hinv.hashed j x hx
  · intro j
    rw [bucketAt_set]
    split
    · exact nodup_chainAfterInsert (hinv.nodup _)
    · exact hinv.nodup j

theorem Inv_applyOp {t t' : HashTable} {op : StoreOp} (hinv : Inv t)
    (h : applyOp t op = some t') : Inv t' := by
  cases op with
  | insert c => exact Inv_Insert hinv h
  | clear =>
    simp only [applyOp, Option.some.injEq] at h
    exact h ▸ Inv_Clear hinv

theorem Inv_runOps {t t' : HashTable} {ops : List StoreOp} (hinv : Inv t)
    (h : runOps t ops = some t') : Inv t' := by
  induction ops generalizing t with
  | nil =>
    simp only [runOps, Option.some.injEq] at h
    exact h ▸ hinv
  | cons op ops ih =>
    unfold runOps at h
    cases ha : applyOp t op with
    | none => rw [ha] at h; cases h
    | some t1 =>
      rw [ha] at h
      exact ih (Inv_applyOp hinv ha) h

theorem Reachable.inv {t : HashTable} (h : Reachable t) : Inv t := by
  obtain ⟨n, ops, h⟩ := h
  exact Inv_runOps (Inv_new n) h

theorem Reachable.new (n : Nat) : Reachable (HashTable.new n) := ⟨n, [], rfl⟩

theorem runOps_append {t t1 : HashTable} {ops1 ops2 : List StoreOp}
    (h : runOps t ops1 = some t1) : runOps t (ops1 ++ ops2) = runOps t1 ops2 := by
  induction ops1 generalizing t with
  | nil =>
    simp only [runOps, Option.some.injEq] at h
    simp [h]
  | cons op ops ih =>
    unfold runOps at h
    rw [List.cons_append]
    conv_lhs => unfold runOps
    cases ha : applyOp t op with
    | none => rw [ha] at h; cases h
    | some t2 =>
      rw [ha] at h
      exact ih h

theorem Reachable.step {t t' : HashTable} {op : StoreOp} (h : Reachable t)
    (ha : applyOp t op = some t') : Reachable t' := by
  obtain ⟨n, ops, h⟩ := h
  refine ⟨n, ops ++ [op], ?_⟩
  rw [runOps_append h]
  simp [runOps, ha]

theorem Reachable.insert {t t' : HashTable} {c : Course} (h : Reachable t)
    (ha : Insert t c = some t') : Reachable t' :=
  Reachable.step h (show applyOp t (.insert c) = some t' from ha)

theorem Reachable.clear {t : HashTable} (h : Reachable t) : Reachable (Clear t) :=
  Reachable.step h (show applyOp t .clear = some (Clear t) from rfl)


theorem bucketAt_of_lt {t : HashTable} {j : Nat} (h : j < t.buckets.length) :
    bucketAt t j = t.buckets[j] := by
  simp [bucketAt, List.getD_eq_getElem?_getD, List.getElem?_eq_getElem h]

theorem mem_GetAllCourses_iff {t : HashTable} (hs : t.buckets.length = t.bucketCount)
    (x : Course) : x ∈ GetAllCourses t ↔ ∃ j, x ∈ bucketAt t j := by
  rw [GetAllCourses_eq t hs, List.mem_flatten]
  constructor
  · rintro ⟨l, hl, hx⟩
    obtain ⟨j, hj, rfl⟩ := List.getElem_of_mem hl
    exact ⟨j, by rw [bucketAt_of_lt hj]; exact hx⟩
  · rintro ⟨j, hx⟩
    by_cases hj : j < t.buckets.length
    · rw [bucketAt_of_lt hj] at hx
      exact ⟨_, List.getElem_mem hj, hx⟩
    · simp [bucketAt, List.getD_eq_getElem?_getD,
        List.getElem?_eq_none (Nat.le_of_not_lt hj)] at hx

theorem searchChain_eq_some {k : List Nat} {l : List Course} {r : Course}
    (h : searchChain k l = some r) : r ∈ l ∧ r.courseNumber = k := by
  induction l with
  | nil => simp [searchChain] at h
  | cons a l ih =>
    unfold searchChain at h
    by_cases ha : a.courseNumber = k
    · rw [if_pos ha] at h
      injection h with h
      subst h
      exact ⟨List.mem_cons_self _ _, ha⟩
    · rw [if_neg ha] at h
      exact ⟨List.mem_cons_of_mem _ (ih h).1, (ih h).2⟩

theorem searchChain_of_mem {l : List Course} {r : Course}
    (hnd : (l.map Course.courseNumber).Nodup) (h : r ∈ l) :
    searchChain r.courseNumber l = some r := by
  induction l with
  | nil => cases h
  | cons a l ih =>
    have hnd' := List.nodup_cons.mp hnd
    unfold searchChain
    rcases List.mem_cons.mp h with h | h
    · simp [h]
    · have : a.courseNumber ≠ r.courseNumber := fun e =>
        hnd'.1 (e ▸ List.mem_map_of_mem _ h)
      rw [if_neg this]
      exact ih hnd'.2 h

theorem searchChain_eq_none {k : List Nat} {l : List Course} :
    searchChain k l = none ↔ ∀ x ∈ l, x.courseNumber ≠ k := by
  induction l with
  | nil => simp [searchChain]
  | cons a l ih =>
    unfold searchChain
    by_cases ha : a.courseNumber = k
    · simp [ha]
    · simp [ha, ih]

theorem Search_eq_some_iff {t : HashTable} (hinv : Inv t) (hu : t.bucketCount % 2 ^ 32 ≠ 0)
    (k : List Nat) (r : Course) :
    Search t k = some (some r) ↔ r ∈ GetAllCourses t ∧ r.courseNumber = k := by
  unfold Search
  rw [IndexForKey_isSome hu k, mem_GetAllCourses_iff hinv.size_eq]
  simp only [Option.some.injEq]
  constructor
  · intro h
    have := searchChain_eq_some h
    exact ⟨⟨_, this.1⟩, this.2⟩
  · rintro ⟨⟨j, hj⟩, rfl⟩
    have hidx := hinv.hashed j r hj
    rw [IndexForKey_isSome hu] at hidx
    injection hidx with hidx
    rw [hidx]
    exact searchChain_of_mem (hinv.nodup j) hj

theorem Search_eq_none_iff {t : HashTable} (hinv : Inv t) (hu : t.bucketCount % 2 ^ 32 ≠ 0)
    (k : List Nat) :
    Search t k = some none ↔ ∀ x ∈ GetAllCourses t, x.courseNumber ≠ k := by
  unfold Search
  rw [IndexForKey_isSome hu k]
  simp only [Option.some.injEq]
  rw [searchChain_eq_none]
  constructor
  · intro h x hx hxk
    obtain ⟨j, hj⟩ := (mem_GetAllCourses_iff hinv.size_eq x).mp hx
    have hidx := hinv.hashed j x hj
    rw [IndexForKey_isSome hu, hxk] at hidx
    injection hidx with hidx
    rw [← hidx] at hj
    exact h x hj hxk
  · intro h x hx
    exact h x ((mem_GetAllCourses_iff hinv.size_eq x).mpr ⟨_, hx⟩)

theorem Search_isSome {t : HashTable} (hu : t.bucketCount % 2 ^ 32 ≠ 0) (k : List Nat) :
    ∃ r, Search t k = some r := by
  unfold Search
  rw [IndexForKey_isSome hu k]
  exact ⟨_, rfl⟩

theorem nodup_keys {t : HashTable} (hinv : Inv t) :
    ((GetAllCourses t).map Course.courseNumber).Nodup := by
  rw [GetAllCourses_eq t hinv.size_eq, List.map_flatten, List.nodup_flatten]
  constructor
  · intro l hl
    obtain ⟨b, hb, rfl⟩ := List.mem_map.mp hl
    obtain ⟨j, hj, rfl⟩ := List.getElem_of_mem hb
    rw [← bucketAt_of_lt hj]
    exact hinv.nodup j
  · rw [List.pairwise_iff_getElem]
    intro i j hi hj hij
    simp only [List.getElem_map]
    intro k hk1 hk2
    simp only [List.length_map] at hi hj
    obtain ⟨x, hx, hxk⟩ := List.mem_map.mp hk1
    obtain ⟨y, hy, hyk⟩ := List.mem_map.mp hk2
    rw [← bucketAt_of_lt hi] at hx
    rw [← bucketAt_of_lt hj] at hy
    have h1 := hinv.hashed i x hx
    have h2 := hinv.hashed j y hy
    rw [hxk] at h1
    rw [hyk, h1] at h2
    injection h2 with h2
    omega

theorem mem_GetAllCourses_Insert {t t' : HashTable} {c : Course} (hinv : Inv t)
    (h : Insert t c = some t') (x : Course) :
    x ∈ GetAllCourses t'
      ↔ x = c ∨ (x ∈ GetAllCourses t ∧ x.courseNumber ≠ c.courseNumber) := by
  have hu : t.bucketCount % 2 ^ 32 ≠ 0 := (Insert_isSome_iff t c).mp ⟨t', h⟩
  have hu' : t'.bucketCount % 2 ^ 32 ≠ 0 := by rw [Insert_bucketCount h]; exact hu
  have hinv' := Inv_Insert hinv h
  have h1 := Search_eq_some_iff hinv' hu' x.courseNumber x
  have h2 := Search_eq_some_iff hinv hu x.courseNumber x
  rw [Search_Insert hinv.size_eq h] at h1
  simp only [and_true] at h1 h2
  rw [← h1]
  by_cases hc : c.courseNumber = x.courseNumber
  · rw [if_pos hc]
    constructor
    · intro e
      injection e with e
      injection e with e
      exact Or.inl e.symm
    · rintro (e | ⟨_, e⟩)
      · rw [e]
      · exact absurd hc.symm e
  · rw [if_neg hc, h2]
    constructor
    · intro hx
      exact Or.inr ⟨hx, fun e => hc e.symm⟩
    · rintro (e | ⟨hx, _⟩)
      · exact absurd (e ▸ rfl) hc
      · exact hx


theorem chainAfterInsert_of_mem {c x : Course} {l : List Course}
    (hnd : (l.map Course.courseNumber).Nodup) (hx : x ∈ l)
    (hk : x.courseNumber = c.courseNumber) :
    chainAfterInsert c l = l.map (replaceKey c) := by
  unfold chainAfterInsert
  cases ho : overwriteInChain c l with
  | none => exact absurd hk (overwriteInChain_eq_none.mp ho x hx)
  | some r => exact overwriteInChain_eq_some ho hnd

theorem GetAllCourses_Insert_of_mem {t t' : HashTable} {c x : Course} (hinv : Inv t)
    (h : Insert t c = some t') (hx : x ∈ GetAllCourses t)
    (hk : x.courseNumber = c.courseNumber) :
    GetAllCourses t' = (GetAllCourses t).map (replaceKey c) := by
  have hu : t.bucketCount % 2 ^ 32 ≠ 0 := (Insert_isSome_iff t c).mp ⟨t', h⟩
  have hi := IndexForKey_isSome hu c.courseNumber
  have hlen : HashString c.courseNumber % (t.bucketCount % 2 ^ 32) < t.buckets.length := by
    rw [hinv.size_eq]; exact IndexForKey_lt hi
  have hinv' := Inv_Insert hinv h
  rw [GetAllCourses_eq t' hinv'.size_eq, GetAllCourses_eq t hinv.size_eq, List.map_flatten]
  rw [Insert_eq hi] at h
  injection h with h
  subst h
  congr 1
  obtain ⟨j, hj⟩ := (mem_GetAllCourses_iff hinv.size_eq x).mp hx
  have hji := hinv.hashed j x hj
  rw [hk, hi] at hji
  injection hji with hji
  rw [← hji] at hj
  apply List.ext_getElem
  · simp
  · intro n h1 h2
    simp only [List.getElem_set, List.getElem_map]
    simp only [List.length_map] at h2
    split
    · rename_i hn
      subst hn
      rw [chainAfterInsert_of_mem (hinv.nodup _) hj hk, bucketAt_of_lt hlen]
    · rename_i hn
      conv_lhs => rw [← List.map_id t.buckets[n]]
      apply List.map_congr_left
      intro y hy
      rw [← bucketAt_of_lt h2] at hy
      have hy' := hinv.hashed n y hy
      have : y.courseNumber ≠ c.courseNumber := by
        intro e
        rw [e, hi] at hy'
        injection hy' with hy'
        exact hn hy'
      simp [replaceKey, this]

theorem filter_key_eq_singleton {l : List Course} {x : Course}
    (hnd : (l.map Course.courseNumber).Nodup) (hx : x ∈ l) :
    l.filter (fun y => decide (y.courseNumber = x.courseNumber)) = [x] := by
  induction l with
  | nil => cases hx
  | cons a l ih =>
    have hnd' := List.nodup_cons.mp hnd
    rcases List.mem_cons.mp hx with e | hx'
    · subst e
      rw [List.filter_cons_of_pos (by simp)]
      congr 1
      rw [List.filter_eq_nil_iff]
      intro y hy
      simp only [decide_eq_true_eq]
      intro e
      exact hnd'.1 (e ▸ List.mem_map_of_mem _ hy)
    · have : a.courseNumber ≠ x.courseNumber := fun e =>
        hnd'.1 (e ▸ List.mem_map_of_mem _ hx')
      rw [List.filter_cons_of_neg (by simpa using this)]
      exact ih hnd'.2 hx'

theorem filter_key_ne_map_replaceKey (c : Course) (l : List Course) :
    (l.map (replaceKey c)).filter (fun y => decide (y.courseNumber ≠ c.courseNumber))
      = l.filter (fun y => decide (y.courseNumber ≠ c.courseNumber)) := by
  induction l with
  | nil => rfl
  | cons a l ih =>
    simp only [decide_not] at ih ⊢
    by_cases ha : a.courseNumber = c.courseNumber
    · simp [replaceKey, ha, List.filter_cons, ih]
    · simp [replaceKey, ha, List.filter_cons, ih]

/-! ## Claims about the keyed store -/

/-- C1 (as amended): for every store whose bucket count, converted to `unsigned int`,
is not zero, and every record `r`, `Insert(r)` succeeds and immediately afterwards
`Search(r.courseNumber)` finds a record equal to `r` in every field, whatever the
store held before. -/
theorem C1_insert_then_search (t : HashTable) (r : Course) (ht : Reachable t)
    (hb : t.bucketCount % 2 ^ 32 ≠ 0) :
    ∃ t', Insert t r = some t' ∧ Search t' r.courseNumber = some (some r) := by
  obtain ⟨t', h⟩ := (Insert_isSome_iff t r).mpr hb
  refine ⟨t', h, ?_⟩
  rw [Search_Insert ht.inv.size_eq h, if_pos rfl]

/-- C1 (witness): on the 179-bucket table of `main` the inserted record is found. -/
theorem C1_insert_then_search_witness :
    Reachable (HashTable.new 179) ∧ (HashTable.new 179).bucketCount % 2 ^ 32 ≠ 0 ∧
      ∃ t', Insert (HashTable.new 179) ⟨ascii "CSCI101", ascii "Intro", [], 1⟩ = some t' ∧
        Search t' (ascii "CSCI101") = some (some ⟨ascii "CSCI101", ascii "Intro", [], 1⟩) :=
  ⟨Reachable.new 179, by decide,
    C1_insert_then_search (HashTable.new 179) ⟨ascii "CSCI101", ascii "Intro", [], 1⟩
      (Reachable.new 179) (by decide)⟩

/-- C1 (as stated, refuted): a freshly constructed table with `2 ^ 32` buckets has a
positive bucket count, yet `Insert` has no defined result on it, because
`static_cast<unsigned int>(bucketCount)` is zero and `IndexForKey` takes a
remainder by zero; so no state after `Insert(r)` exists in which `Search` finds `r`. -/
theorem C1_positive_bucket_count_not_enough :
    Reachable (HashTable.new 4294967296) ∧ 0 < (HashTable.new 4294967296).bucketCount ∧
      IndexForKey (HashTable.new 4294967296) [67, 83] = none ∧
      Insert (HashTable.new 4294967296) ⟨[67, 83], [65], [], 1⟩ = none ∧
      ¬ ∃ t', Insert (HashTable.new 4294967296) ⟨[67, 83], [65], [], 1⟩ = some t' ∧
        Search t' [67, 83] = some (some ⟨[67, 83], [65], [], 1⟩) := by
  have h : Insert (HashTable.new 4294967296) ⟨[67, 83], [65], [], 1⟩ = none := by decide
  refine ⟨Reachable.new _, by decide, by decide, h, ?_⟩
  rintro ⟨t', h', _⟩
  rw [h] at h'
  cases h'

/-- C2 (as amended): for every store whose bucket count, converted to `unsigned int`,
is not zero, and every two records `r1`, `r2` with the same `courseNumber`, both
inserts succeed and after `Insert(r1)` then `Insert(r2)` only the second is retained:
`GetAllCourses` is as long as after `Insert(r1)` alone, `r2` is its only record with
that id, and the records with a different id are the same, in the same order, as
before the second insert. -/
theorem C2_overwrite_keeps_second (t : HashTable) (r1 r2 : Course) (ht : Reachable t)
    (hb : t.bucketCount % 2 ^ 32 ≠ 0) (hk : r1.courseNumber = r2.courseNumber) :
    ∃ t1 t2, Insert t r1 = some t1 ∧ Insert t1 r2 = some t2 ∧
      (GetAllCourses t2).length = (GetAllCourses t1).length ∧
      (GetAllCourses t2).filter (fun x => decide (x.courseNumber = r2.courseNumber)) = [r2] ∧
      (GetAllCourses t2).filter (fun x => decide (x.courseNumber ≠ r2.courseNumber))
        = (GetAllCourses t1).filter (fun x => decide (x.courseNumber ≠ r2.courseNumber)) := by
  obtain ⟨t1, h1⟩ := (Insert_isSome_iff t r1).mpr hb
  have hb1 : t1.bucketCount % 2 ^ 32 ≠ 0 := by rw [Insert_bucketCount h1]; exact hb
  obtain ⟨t2, h2⟩ := (Insert_isSome_iff t1 r2).mpr hb1
  have hinv1 := Inv_Insert ht.inv h1
  have hinv2 := Inv_Insert hinv1 h2
  have hr1 : r1 ∈ GetAllCourses t1 := (mem_GetAllCourses_Insert ht.inv h1 r1).mpr (Or.inl rfl)
  have hr2 : r2 ∈ GetAllCourses t2 := (mem_GetAllCourses_Insert hinv1 h2 r2).mpr (Or.inl rfl)
  have hall := GetAllCourses_Insert_of_mem hinv1 h2 hr1 hk
  refine ⟨t1, t2, h1, h2, ?_, ?_, ?_⟩
  · rw [hall, List.length_map]
  · exact filter_key_eq_singleton (nodup_keys hinv2) hr2
  · rw [hall]
    exact filter_key_ne_map_replaceKey r2 _

/-- C2 (witness): two inserts under the key `CS` into a 3-bucket table that holds `MA`. -/
theorem C2_overwrite_keeps_second_witness :
    Reachable ⟨3, [[], [⟨[77, 65], [77], [], 1⟩], []]⟩ ∧
      ∃ t1 t2, Insert ⟨3, [[], [⟨[77, 65], [77], [], 1⟩], []]⟩ ⟨[67, 83], [65], [], 2⟩ = some t1 ∧
        Insert t1 ⟨[67, 83], [66], [[77, 65]], 3⟩ = some t2 ∧
        (GetAllCourses t2).length = (GetAllCourses t1).length ∧
        (GetAllCourses t2).filter (fun x => decide (x.courseNumber = [67, 83]))
          = [⟨[67, 83], [66], [[77, 65]], 3⟩] ∧
        (GetAllCourses t2).filter (fun x => decide (x.courseNumber ≠ [67, 83]))
          = (GetAllCourses t1).filter (fun x => decide (x.courseNumber ≠ [67, 83])) :=
  ⟨⟨3, [.insert ⟨[77, 65], [77], [], 1⟩], by decide⟩,
    C2_overwrite_keeps_second ⟨3, [[], [⟨[77, 65], [77], [], 1⟩], []]⟩
      ⟨[67, 83], [65], [], 2⟩ ⟨[67, 83], [66], [[77, 65]], 3⟩
      ⟨3, [.insert ⟨[77, 65], [77], [], 1⟩], by decide⟩ (by decide) rfl⟩

/-- C2 (as stated, refuted): a freshly constructed table without buckets is a store,
yet `Insert` has no defined result on it (`IndexForKey` takes a remainder by zero);
so no state after `Insert(r1)` then `Insert(r2)` exists in which `r2` is retained. -/
theorem C2_no_insert_without_buckets :
    Reachable (HashTable.new 0) ∧
      Insert (HashTable.new 0) ⟨[67, 83], [65], [], 1⟩ = none ∧
      ¬ ∃ t1 t2, Insert (HashTable.new 0) ⟨[67, 83], [65], [], 1⟩ = some t1 ∧
        Insert t1 ⟨[67, 83], [66], [], 2⟩ = some t2 ∧
        (GetAllCourses t2).filter (fun x => decide (x.courseNumber = [67, 83]))
          = [⟨[67, 83], [66], [], 2⟩] := by
  have h : Insert (HashTable.new 0) ⟨[67, 83], [65], [], 1⟩ = none := by decide
  refine ⟨Reachable.new _, h, ?_⟩
  rintro ⟨t1, t2, h', _⟩
  rw [h] at h'
  cases h'

/-- C3: in every store state reached from a freshly constructed `HashTable` (of a
positive or any other bucket count) by a sequence of `Insert` and `Clear`
operations, `GetAllCourses` holds no two records with the same `courseNumber`. -/
theorem C3_one_record_per_id (n : Nat) (ops : List StoreOp) (t : HashTable)
    (h : runOps (HashTable.new n) ops = some t) :
    ((GetAllCourses t).map Course.courseNumber).Nodup :=
  nodup_keys (Inv_runOps (Inv_new n) h)

/-- C3 (witness): inserts with a repeated key around a `Clear` on a 3-bucket table. -/
theorem C3_one_record_per_id_witness :
    runOps (HashTable.new 3)
        [.insert ⟨[67, 83], [65], [], 1⟩, .insert ⟨[67, 83], [66], [], 2⟩, .clear,
          .insert ⟨[77], [67], [], 3⟩, .insert ⟨[67, 83], [68], [], 4⟩,
          .insert ⟨[77], [69], [], 5⟩]
        = some ⟨3, [[⟨[67, 83], [68], [], 4⟩], [], [⟨[77], [69], [], 5⟩]]⟩ ∧
      ((GetAllCourses ⟨3, [[⟨[67, 83], [68], [], 4⟩], [], [⟨[77], [69], [], 5⟩]]⟩).map
        Course.courseNumber).Nodup :=
  have h : runOps (HashTable.new 3)
      [.insert ⟨[67, 83], [65], [], 1⟩, .insert ⟨[67, 83], [66], [], 2⟩, .clear,
        .insert ⟨[77], [67], [], 3⟩, .insert ⟨[67, 83], [68], [], 4⟩,
        .insert ⟨[77], [69], [], 5⟩]
      = some ⟨3, [[⟨[67, 83], [68], [], 4⟩], [], [⟨[77], [69], [], 5⟩]]⟩ := by decide
  ⟨h, C3_one_record_per_id 3 _ _ h⟩

/-! ## Strings: `Trim`, `ToUpper`, `NormalizeId` -/

theorem rdropWhile_cons (p : Nat → Bool) (c : Nat) (s : List Nat) :
    List.rdropWhile p (c :: s)
      = if List.rdropWhile p s = [] then (if p c then [] else [c])
        else c :: List.rdropWhile p s := by
  induction s using List.reverseRecOn with
  | nil =>
    have : List.rdropWhile p [c] = if p c then [] else [c] := by
      have := List.rdropWhile_concat p [] c
      simpa using this
    simp [this]
  | append_singleton s x ih =>
    rw [← List.cons_append, List.rdropWhile_concat, List.rdropWhile_concat]
    by_cases hx : p x = true
    · simp only [hx, if_true]
      exact ih
    · simp [hx]

theorem find_last_not_of_spec (s : List Nat) :
    match find_last_not_of whitespace s with
    | some j => s.take (j + 1) = List.rdropWhile isWhitespace s
    | none => List.rdropWhile isWhitespace s = [] := by
  induction s with
  | nil => simp [find_last_not_of]
  | cons c s ih =>
    unfold find_last_not_of
    rw [rdropWhile_cons]
    cases h : find_last_not_of whitespace s with
    | some j =>
      rw [h] at ih
      simp only at ih ⊢
      have hne : List.rdropWhile isWhitespace s ≠ [] := by
        rw [← ih]; simp
        intro hs; subst hs; simp [find_last_not_of] at h
      rw [if_neg hne, List.take_succ_cons, ih]
    | none =>
      rw [h] at ih
      simp only at ih ⊢
      rw [if_pos ih]
      by_cases hc : c ∈ whitespace
      · simp [hc, isWhitespace]
      · simp [hc, isWhitespace]

theorem find_last_not_of_isSome {s : List Nat} {i : Nat}
    (h : find_first_not_of whitespace s = some i) :
    ∃ j, find_last_not_of whitespace s = some j := by
  induction s generalizing i with
  | nil => simp [find_first_not_of] at h
  | cons c s ih =>
    unfold find_first_not_of at h
    unfold find_last_not_of
    by_cases hc : c ∈ whitespace
    · rw [if_pos hc] at h
      cases hf : find_first_not_of whitespace s with
      | none => rw [hf] at h; cases h
      | some i' =>
        obtain ⟨j, hj⟩ := ih hf
        rw [hj]
        exact ⟨_, rfl⟩
    · cases find_last_not_of whitespace s with
      | none => simp [hc]
      | some j => exact ⟨_, rfl⟩

theorem Trim_cons_of_whitespace {c : Nat} (hc : c ∈ whitespace) (s : List Nat) :
    Trim (c :: s) = Trim s := by
  unfold Trim
  simp only [find_first_not_of, find_last_not_of, if_pos hc]
  cases hf : find_first_not_of whitespace s with
  | none => rfl
  | some i =>
    cases hl : find_last_not_of whitespace s with
    | none => simp
    | some j =>
      simp only [substr, List.drop_succ_cons]
      congr 1
      omega

theorem Trim_cons_of_not_whitespace {c : Nat} (hc : c ∉ whitespace) (s : List Nat) :
    Trim (c :: s) = c :: List.rdropWhile isWhitespace s := by
  unfold Trim
  simp only [find_first_not_of, find_last_not_of, if_neg hc]
  have := find_last_not_of_spec s
  cases hl : find_last_not_of whitespace s with
  | none =>
    rw [hl] at this
    simp only at this
    simp [substr, this]
  | some j =>
    rw [hl] at this
    simp only at this
    simp [substr, this]

/-- `Trim` drops the leading and the trailing whitespace. -/
theorem Trim_eq (s : List Nat) :
    Trim s = List.rdropWhile isWhitespace (List.dropWhile isWhitespace s) := by
  induction s with
  | nil => rfl
  | cons c s ih =>
    by_cases hc : c ∈ whitespace
    · rw [Trim_cons_of_whitespace hc, ih, List.dropWhile_cons]
      simp [isWhitespace, hc]
    · have hw : isWhitespace c = false := by simp [isWhitespace, hc]
      rw [Trim_cons_of_not_whitespace hc, List.dropWhile_cons]
      simp only [hw, Bool.false_eq_true, if_false]
      rw [rdropWhile_cons]
      simp only [hw, Bool.false_eq_true, if_false]
      split
      · rename_i h; rw [h]
      · rfl

theorem Trim_eq_nil_iff (s : List Nat) : Trim s = [] ↔ ∀ c ∈ s, isWhitespace c = true := by
  rw [Trim_eq, List.rdropWhile_eq_nil_iff]
  constructor
  · intro h
    by_contra hne
    have hd : List.dropWhile isWhitespace s ≠ [] := by
      rw [Ne, List.dropWhile_eq_nil_iff]; exact hne
    have h1 := List.head_dropWhile_not isWhitespace s hd
    have h2 := h _ (List.head_mem hd)
    rw [h1] at h2
    cases h2
  · intro h x hx
    exact h x ((List.dropWhile_suffix isWhitespace).subset hx)

theorem dropWhile_rdropWhile_comm (p : Nat → Bool) (l : List Nat) :
    List.dropWhile p (List.rdropWhile p l) = List.rdropWhile p (List.dropWhile p l) := by
  induction l with
  | nil => simp
  | cons c s ih =>
    rw [rdropWhile_cons, List.dropWhile_cons]
    by_cases hc : p c = true
    · simp only [hc, if_true]
      by_cases hs : List.rdropWhile p s = []
      · rw [if_pos hs]
        have hall := List.rdropWhile_eq_nil_iff.mp hs
        rw [List.dropWhile_eq_nil_iff.mpr hall]
        simp
      · rw [if_neg hs, List.dropWhile_cons, if_pos hc, ih]
    · have hc' : p c = false := by simpa using hc
      simp only [hc', Bool.false_eq_true, if_false]
      rw [rdropWhile_cons]
      simp only [hc', Bool.false_eq_true, if_false]
      split <;> simp [List.dropWhile_cons, hc']

theorem Trim_eq' (s : List Nat) :
    Trim s = List.dropWhile isWhitespace (List.rdropWhile isWhitespace s) := by
  rw [Trim_eq, dropWhile_rdropWhile_comm]

theorem Trim_idem (s : List Nat) : Trim (Trim s) = Trim s := by
  conv_lhs => rw [Trim_eq (Trim s)]
  conv_lhs => rw [Trim_eq' s, List.dropWhile_idempotent, ← Trim_eq' s]
  rw [Trim_eq s, List.rdropWhile_idempotent]

theorem Trim_rdropWhile (s : List Nat) : Trim (List.rdropWhile isWhitespace s) = Trim s := by
  rw [Trim_eq', List.rdropWhile_idempotent, ← Trim_eq']

theorem Trim_dropWhile (s : List Nat) : Trim (List.dropWhile isWhitespace s) = Trim s := by
  rw [Trim_eq, List.dropWhile_idempotent, ← Trim_eq]

theorem isWhitespace_toupper (c : Nat) : isWhitespace (toupper c) = isWhitespace c := by
  unfold isWhitespace toupper whitespace
  split
  · rename_i h
    have h1 : c - 32 ≠ 32 := by omega
    have h2 : c - 32 ≠ 9 := by omega
    have h3 : c - 32 ≠ 10 := by omega
    have h4 : c - 32 ≠ 13 := by omega
    have h5 : c ≠ 32 := by omega
    have h6 : c ≠ 9 := by omega
    have h7 : c ≠ 10 := by omega
    have h8 : c ≠ 13 := by omega
    simp [h1, h2, h3, h4, h5, h6, h7, h8]
  · rfl

theorem toupper_idem (c : Nat) : toupper (toupper c) = toupper c := by
  unfold toupper
  split
  · rename_i h
    rw [if_neg (by omega)]
  · rfl

theorem ToUpper_idem (s : List Nat) : ToUpper (ToUpper s) = ToUpper s := by
  simp [ToUpper, toupper_idem]

theorem rdropWhile_map (f : Nat → Nat) (p : Nat → Bool) (l : List Nat) :
    List.rdropWhile p (l.map f) = (List.rdropWhile (p ∘ f) l).map f := by
  simp only [List.rdropWhile, ← List.map_reverse, List.dropWhile_map]

theorem isWhitespace_comp_toupper : isWhitespace ∘ toupper = isWhitespace := by
  funext c
  exact isWhitespace_toupper c

theorem Trim_ToUpper (s : List Nat) : Trim (ToUpper s) = ToUpper (Trim s) := by
  rw [Trim_eq, Trim_eq]
  unfold ToUpper
  rw [List.dropWhile_map, rdropWhile_map, isWhitespace_comp_toupper]

theorem Trim_NormalizeId (s : List Nat) : Trim (NormalizeId s) = NormalizeId s := by
  unfold NormalizeId
  rw [Trim_ToUpper, Trim_idem]

theorem NormalizeId_idem (s : List Nat) : NormalizeId (NormalizeId s) = NormalizeId s := by
  unfold NormalizeId
  rw [Trim_ToUpper, Trim_idem, ToUpper_idem]

theorem NormalizeId_Trim (s : List Nat) : NormalizeId (Trim s) = NormalizeId s := by
  unfold NormalizeId
  rw [Trim_idem]

theorem NormalizeId_eq_nil_iff (s : List Nat) : NormalizeId s = [] ↔ Trim s = [] := by
  simp [NormalizeId, ToUpper]

/-! ## The line parser -/

theorem StripBOM_bom (r : List Nat) : StripBOM (239 :: 187 :: 191 :: r) = r := by
  simp [StripBOM]

theorem StripBOM_eq_self {x : List Nat} (h : ∀ r, x ≠ 239 :: 187 :: 191 :: r) :
    StripBOM x = x := by
  unfold StripBOM
  split
  · rename_i b0 b1 b2 rest
    split
    · rename_i hb
      obtain ⟨h0, h1, h2⟩ := hb
      subst h0 h1 h2
      exact absurd rfl (h rest)
    · rfl
  · rfl

theorem rdropWhile_cons_of_neg {p : Nat → Bool} {c : Nat} (hc : p c = false) (s : List Nat) :
    List.rdropWhile p (c :: s) = c :: List.rdropWhile p s := by
  rw [rdropWhile_cons]
  simp only [hc, Bool.false_eq_true, if_false]
  split
  · rename_i h; rw [h]
  · rfl

/-- On a field without leading whitespace, trimming before the BOM is stripped
does not change the normalized id. -/
theorem NormalizeId_StripBOM_Trim {f : List Nat} (hf : List.dropWhile isWhitespace f = f) :
    NormalizeId (StripBOM (Trim f)) = NormalizeId (StripBOM f) := by
  have hT : Trim f = List.rdropWhile isWhitespace f := by rw [Trim_eq, hf]
  by_cases hb : ∃ r, f = 239 :: 187 :: 191 :: r
  · obtain ⟨r, rfl⟩ := hb
    rw [hT, rdropWhile_cons_of_neg (by decide), rdropWhile_cons_of_neg (by decide),
      rdropWhile_cons_of_neg (by decide), StripBOM_bom, StripBOM_bom]
    unfold NormalizeId
    rw [Trim_rdropWhile]
  · have h1 : ∀ r, f ≠ 239 :: 187 :: 191 :: r := fun r e => hb ⟨r, e⟩
    have h2 : ∀ r, Trim f ≠ 239 :: 187 :: 191 :: r := by
      intro r e
      obtain ⟨u, hu⟩ := List.rdropWhile_prefix isWhitespace f
      rw [← hT, e] at hu
      exact h1 (r ++ u) (by rw [← hu]; rfl)
    rw [StripBOM_eq_self h1, StripBOM_eq_self h2, NormalizeId_Trim]

theorem head?_splitLoop (d : Nat) (s token : List Nat) :
    (splitLoop d s token).head?
      = if s = [] ∧ token = [] then none else some (token ++ s.takeWhile (fun ch => decide (ch ≠ d))) := by
  induction s generalizing token with
  | nil =>
    unfold splitLoop
    by_cases ht : token = []
    · simp [ht]
    · simp [ht]
  | cons c s ih =>
    unfold splitLoop
    by_cases hc : c = d
    · simp [hc]
    · rw [if_neg hc, ih]
      simp [hc]

theorem head?_Split {s : List Nat} (hs : s ≠ []) (d : Nat) :
    (Split s d).head? = some (s.takeWhile (fun ch => decide (ch ≠ d))) := by
  unfold Split
  rw [head?_splitLoop]
  simp [hs]

theorem dropWhile_Trim (s : List Nat) : List.dropWhile isWhitespace (Trim s) = Trim s := by
  rw [Trim_eq', List.dropWhile_idempotent]

/-- The first field of a trimmed line has no leading whitespace. -/
theorem dropWhile_first_field {line f0 : List Nat} {rest : List (List Nat)}
    (h : Split (Trim line) 44 = f0 :: rest) : List.dropWhile isWhitespace f0 = f0 := by
  have hne : Trim line ≠ [] := by
    intro e
    rw [e] at h
    simp [Split, splitLoop] at h
  have hh := head?_Split hne 44
  rw [h] at hh
  simp only [List.head?_cons, Option.some.injEq] at hh
  have hd := dropWhile_Trim line
  cases hT : Trim line with
  | nil => exact absurd hT hne
  | cons c t =>
    rw [hT] at hh hd
    rw [hh]
    rw [List.dropWhile_cons] at hd
    have hc : isWhitespace c = false := by
      by_contra hc
      simp only [Bool.not_eq_false] at hc
      rw [if_pos hc] at hd
      have := (List.dropWhile_suffix isWhitespace (l := t)).length_le
      rw [hd] at this
      simp at this
    rw [List.takeWhile_cons]
    split
    · rw [List.dropWhile_cons, hc]; simp
    · simp

theorem pushPrerequisites_eq (l acc : List (List Nat)) :
    pushPrerequisites l acc = acc ++ (l.map NormalizeId).filter (fun p => decide (p ≠ [])) := by
  induction l generalizing acc with
  | nil => simp [pushPrerequisites]
  | cons x l ih =>
    unfold pushPrerequisites
    by_cases hx : NormalizeId x = []
    · rw [if_pos hx, ih]
      simp [List.filter_cons, hx]
    · rw [if_neg hx, ih]
      simp [List.filter_cons, hx]

theorem ParseLineToCourse_blank {line : List Nat} (h : Trim line = []) (n : Int) (flag : Bool) :
    ParseLineToCourse line n flag = ⟨false, ⟨[], [], [], n⟩, "blank line"⟩ := by
  simp [ParseLineToCourse, h]

theorem ParseLineToCourse_short {line : List Nat} (h : Trim line ≠ [])
    (hl : (Split (Trim line) 44).length < 2) (n : Int) (flag : Bool) :
    ParseLineToCourse line n flag
      = ⟨false, ⟨[], [], [], n⟩, "invalid course number or title"⟩ := by
  simp [ParseLineToCourse, h, hl]

theorem ParseLineToCourse_fields {line f0 f1 : List Nat} {rest : List (List Nat)}
    (hs : Split (Trim line) 44 = f0 :: f1 :: rest) (n : Int) (flag : Bool) :
    ParseLineToCourse line n flag
      = if NormalizeId (if flag then StripBOM f0 else f0) = [] ∨ Trim f1 = [] then
          ⟨false, ⟨NormalizeId (if flag then StripBOM f0 else f0), Trim f1, [], n⟩,
            "invalid course number or title"⟩
        else
          ⟨true, ⟨NormalizeId (if flag then StripBOM f0 else f0), Trim f1,
            (rest.map NormalizeId).filter (fun p => decide (p ≠ [])), n⟩, ""⟩ := by
  have hne : Trim line ≠ [] := by
    intro e
    rw [e] at hs
    simp [Split, splitLoop] at hs
  have hf0 := dropWhile_first_field hs
  have hcn : NormalizeId ((if flag = true then
        (List.map Trim (f0 :: f1 :: rest)).set 0
          (StripBOM ((List.map Trim (f0 :: f1 :: rest)).getD 0 []))
      else List.map Trim (f0 :: f1 :: rest)).getD 0 [])
      = NormalizeId (if flag then StripBOM f0 else f0) := by
    cases flag
    · simp [NormalizeId_Trim]
    · simp [NormalizeId_StripBOM_Trim hf0]
  have hti : Trim ((if flag = true then
        (List.map Trim (f0 :: f1 :: rest)).set 0
          (StripBOM ((List.map Trim (f0 :: f1 :: rest)).getD 0 []))
      else List.map Trim (f0 :: f1 :: rest)).getD 1 []) = Trim f1 := by
    cases flag <;> simp [Trim_idem]
  have hpr : pushPrerequisites ((if flag = true then
        (List.map Trim (f0 :: f1 :: rest)).set 0
          (StripBOM ((List.map Trim (f0 :: f1 :: rest)).getD 0 []))
      else List.map Trim (f0 :: f1 :: rest)).drop 2) []
      = (rest.map NormalizeId).filter (fun p => decide (p ≠ [])) := by
    rw [pushPrerequisites_eq]
    have : (List.map NormalizeId (List.map Trim rest)) = List.map NormalizeId rest := by
      rw [List.map_map]
      apply List.map_congr_left
      intro x _
      exact NormalizeId_Trim x
    cases flag <;> simp [this]
  unfold ParseLineToCourse
  simp only [hne, if_false, hs, List.length_cons]
  rw [if_neg (by omega)]
  simp only [hcn, hti, hpr]

theorem ParseLineToCourse_ok {line : List Nat} {n : Int} {flag : Bool}
    (h : (ParseLineToCourse line n flag).ok = true) :
    ∃ f0 f1 rest, Split (Trim line) 44 = f0 :: f1 :: rest ∧
      NormalizeId (if flag then StripBOM f0 else f0) ≠ [] ∧ Trim f1 ≠ [] ∧
      ParseLineToCourse line n flag
        = ⟨true, ⟨NormalizeId (if flag then StripBOM f0 else f0), Trim f1,
            (rest.map NormalizeId).filter (fun p => decide (p ≠ [])), n⟩, ""⟩ := by
  by_cases hb : Trim line = []
  · rw [ParseLineToCourse_blank hb] at h
    cases h
  · cases hs : Split (Trim line) 44 with
    | nil =>
      rw [ParseLineToCourse_short hb (by rw [hs]; decide)] at h
      cases h
    | cons f0 l =>
      cases l with
      | nil =>
        rw [ParseLineToCourse_short hb (by rw [hs]; simp)] at h
        cases h
      | cons f1 rest =>
        rw [ParseLineToCourse_fields hs] at h ⊢
        by_cases hc : NormalizeId (if flag then StripBOM f0 else f0) = [] ∨ Trim f1 = []
        · rw [if_pos hc] at h
          cases h
        · rw [if_neg hc]
          exact ⟨f0, f1, rest, rfl, fun e => hc (Or.inl e), fun e => hc (Or.inr e), rfl⟩

theorem ParseLineToCourse_wellFormed {line : List Nat} {n : Int} {flag : Bool}
    (h : (ParseLineToCourse line n flag).ok = true) :
    WellFormedRecord (ParseLineToCourse line n flag).outCourse := by
  obtain ⟨f0, f1, rest, _, hcn, hti, heq⟩ := ParseLineToCourse_ok h
  rw [heq]
  refine ⟨hcn, NormalizeId_idem _, hti, Trim_idem _, ?_⟩
  intro p hp
  simp only [List.mem_filter, List.mem_map, decide_eq_true_eq] at hp
  obtain ⟨⟨x, _, hx⟩, hne⟩ := hp
  exact ⟨hne, by rw [← hx, NormalizeId_idem]⟩

/-! ## Claims about the line parser -/

/-- C5: `ParseLineToCourse` fails with the reason "blank line" exactly when the line
is empty after trimming; it fails with the reason "invalid course number or title"
exactly when the line is non-blank and its header is invalid (fewer than two
comma-separated fields, or an empty normalized first field after BOM stripping
when the flag is set, or an empty trimmed second field); it succeeds in every
other case. -/
theorem C5_classification (line : List Nat) (lineNumber : Int) (isFirstDataLine : Bool) :
    (((ParseLineToCourse line lineNumber isFirstDataLine).ok = false ∧
        (ParseLineToCourse line lineNumber isFirstDataLine).err = "blank line")
      ↔ Trim line = []) ∧
    (((ParseLineToCourse line lineNumber isFirstDataLine).ok = false ∧
        (ParseLineToCourse line lineNumber isFirstDataLine).err
          = "invalid course number or title")
      ↔ Trim line ≠ [] ∧ InvalidHeader line isFirstDataLine) ∧
    ((ParseLineToCourse line lineNumber isFirstDataLine).ok = true
      ↔ Trim line ≠ [] ∧ ¬ InvalidHeader line isFirstDataLine) := by
  unfold InvalidHeader
  by_cases hb : Trim line = []
  · rw [ParseLineToCourse_blank hb]
    simp [hb]
  · cases hs : Split (Trim line) 44 with
    | nil =>
      rw [ParseLineToCourse_short hb (by rw [hs]; decide)]
      simp [hb]
    | cons f0 l =>
      cases l with
      | nil =>
        rw [ParseLineToCourse_short hb (by rw [hs]; simp)]
        simp [hb]
      | cons f1 rest =>
        rw [ParseLineToCourse_fields hs]
        by_cases hc : NormalizeId (if isFirstDataLine then StripBOM f0 else f0) = [] ∨ Trim f1 = []
        · rw [if_pos hc]
          simp [hb, hc]
        · rw [if_neg hc]
          simp [hb, hc]

/-- C7: for every line that `ParseLineToCourse` accepts, the prerequisites of the
record are the fields at index 2 and above of the comma-split trimmed line, in
input order, each passed through `NormalizeId`, with those that normalize to the
empty string deleted; nothing else is removed or reordered. -/
theorem C7_prerequisites (line : List Nat) (lineNumber : Int) (isFirstDataLine : Bool)
    (h : (ParseLineToCourse line lineNumber isFirstDataLine).ok = true) :
    (ParseLineToCourse line lineNumber isFirstDataLine).outCourse.prerequisites
      = (((Split (Trim line) 44).drop 2).map NormalizeId).filter (fun p => decide (p ≠ [])) := by
  obtain ⟨f0, f1, rest, hs, _, _, heq⟩ := ParseLineToCourse_ok h
  rw [heq, hs]
  rfl

/-- C7 (witness): on ` cs1 , Title, cs1 ,, ma1,  ,MA1 ` the empty fields are dropped,
the prerequisite equal to the record's own id and the duplicate are kept. -/
theorem C7_prerequisites_witness :
    (ParseLineToCourse (ascii " cs1 , Title, cs1 ,, ma1,  ,MA1 ") 7 false).ok = true ∧
      (ParseLineToCourse (ascii " cs1 , Title, cs1 ,, ma1,  ,MA1 ") 7 false).outCourse
        = ⟨ascii "CS1", ascii "Title", [ascii "CS1", ascii "MA1", ascii "MA1"], 7⟩ ∧
      (ParseLineToCourse (ascii " cs1 , Title, cs1 ,, ma1,  ,MA1 ") 7 false).outCourse.prerequisites
        = (((Split (Trim (ascii " cs1 , Title, cs1 ,, ma1,  ,MA1 ")) 44).drop 2).map
            NormalizeId).filter (fun p => decide (p ≠ [])) :=
  ⟨by decide, by decide,
    C7_prerequisites (ascii " cs1 , Title, cs1 ,, ma1,  ,MA1 ") 7 false (by decide)⟩

/-! ## The loader -/

theorem ParseLineToCourse_ok_not_blank {line : List Nat} {n : Int} {flag : Bool}
    (h : (ParseLineToCourse line n flag).ok = true) : Trim line ≠ [] := by
  intro e
  rw [ParseLineToCourse_blank e] at h
  cases h

theorem loadLine_of_ok {st : LoadState} {line : List Nat}
    (h : (ParseLineToCourse line (wrapInt (st.lineNumber + 1)) st.isFirstNonEmptyLine).ok = true) :
    loadLine st line
      = match Insert st.table
          (ParseLineToCourse line (wrapInt (st.lineNumber + 1)) st.isFirstNonEmptyLine).outCourse with
        | none => none
        | some table => some ⟨table, wrapInt (st.lineNumber + 1), false, st.out⟩ := by
  unfold loadLine
  simp only [ParseLineToCourse_ok_not_blank h, if_false, h]
  simp

theorem loadLine_of_not_ok {st : LoadState} {line : List Nat}
    (h : (ParseLineToCourse line (wrapInt (st.lineNumber + 1)) st.isFirstNonEmptyLine).ok = false) :
    ∃ out, loadLine st line
      = some ⟨st.table, wrapInt (st.lineNumber + 1),
          st.isFirstNonEmptyLine && decide (Trim line = []), out⟩ ∧
      ∀ o ∈ out, o ∈ st.out ∨ ∃ n e, o = Out.formatError n e := by
  unfold loadLine
  by_cases hb : Trim line = []
  · simp only [hb, if_true]
    exact ⟨st.out, by simp, fun o ho => Or.inl ho⟩
  · simp only [hb, if_false, h, if_true]
    split
    · refine ⟨st.out ++ [Out.formatError (wrapInt (st.lineNumber + 1))
        (ParseLineToCourse line (wrapInt (st.lineNumber + 1)) st.isFirstNonEmptyLine).err], by simp [hb], ?_⟩
      intro o ho
      rcases List.mem_append.mp ho with ho | ho
      · exact Or.inl ho
      · exact Or.inr ⟨_, _, List.mem_singleton.mp ho⟩
    · exact ⟨st.out, by simp, fun o ho => Or.inl ho⟩

theorem loadLines_snoc (st : LoadState) (ls : List (List Nat)) (l : List Nat) :
    loadLines st (ls ++ [l])
      = match loadLines st ls with
        | none => none
        | some s => loadLine s l := by
  induction ls generalizing st with
  | nil =>
    simp only [List.nil_append, loadLines]
    cases loadLine st l <;> rfl
  | cons a ls ih =>
    simp only [List.cons_append, loadLines]
    cases loadLine st a with
    | none => rfl
    | some s => exact ih s

theorem wrapInt_add_wrapInt (x y : Int) : wrapInt (wrapInt x + y) = wrapInt (x + y) := by
  unfold wrapInt
  omega

theorem wrapInt_wrapInt (x : Int) : wrapInt (wrapInt x) = wrapInt x := by
  unfold wrapInt
  omega

theorem wrapInt_of_lt {x : Int} (h0 : 0 ≤ x) (h1 : x < 2147483648) : wrapInt x = x := by
  unfold wrapInt
  omega

theorem wrapInt_zero : wrapInt 0 = 0 := by
  unfold wrapInt
  omega

theorem parseAt_append_lt {lines : List (List Nat)} {i : Nat} (h : i < lines.length)
    (m : List (List Nat)) : parseAt (lines ++ m) i = parseAt lines i := by
  unfold parseAt
  rw [List.getD_append _ _ _ _ h, List.take_append_of_le_length (Nat.le_of_lt h)]

theorem parseAt_length (lines : List (List Nat)) (l : List Nat) :
    parseAt (lines ++ [l]) lines.length
      = ParseLineToCourse l (wrapInt ((lines.length : Int) + 1))
          (lines.all (fun l => decide (Trim l = []))) := by
  unfold parseAt
  rw [List.getD_append_right _ _ _ _ (Nat.le_refl _)]
  simp

theorem acceptsAt_snoc (lines : List (List Nat)) (l : List Nat) (i : Nat) (k : List Nat) :
    AcceptsAt (lines ++ [l]) i k
      ↔ AcceptsAt lines i k ∨ (i = lines.length ∧ AcceptsAt (lines ++ [l]) lines.length k) := by
  unfold AcceptsAt
  constructor
  · rintro ⟨hi, hok, hk⟩
    simp only [List.length_append, List.length_singleton] at hi
    by_cases hlt : i < lines.length
    · rw [parseAt_append_lt hlt] at hok hk
      exact Or.inl ⟨hlt, hok, hk⟩
    · have : i = lines.length := by omega
      subst this
      exact Or.inr ⟨rfl, by simp, hok, hk⟩
  · rintro (⟨hi, hok, hk⟩ | ⟨rfl, h⟩)
    · rw [← parseAt_append_lt hi [l]] at hok hk
      exact ⟨by simp; omega, hok, hk⟩
    · exact h

theorem lastAccepted_snoc (lines : List (List Nat)) (l : List Nat) (k : List Nat) (r : Course) :
    LastAccepted (lines ++ [l]) k r
      ↔ (AcceptsAt (lines ++ [l]) lines.length k
            ∧ (parseAt (lines ++ [l]) lines.length).outCourse = r)
          ∨ (¬ AcceptsAt (lines ++ [l]) lines.length k ∧ LastAccepted lines k r) := by
  unfold LastAccepted
  constructor
  · rintro ⟨i, hacc, hr, hlast⟩
    rcases (acceptsAt_snoc lines l i k).mp hacc with h | ⟨rfl, h⟩
    · have hi : i < lines.length := h.1
      refine Or.inr ⟨hlast _ hi, i, h, ?_, ?_⟩
      · rw [← parseAt_append_lt hi [l]]; exact hr
      · intro j hj hacc'
        exact hlast j hj ((acceptsAt_snoc lines l j k).mpr (Or.inl hacc'))
    · exact Or.inl ⟨h, hr⟩
  · rintro (⟨hacc, hr⟩ | ⟨hn, i, hacc, hr, hlast⟩)
    · refine ⟨lines.length, hacc, hr, ?_⟩
      intro j hj hacc'
      have := hacc'.1
      simp only [List.length_append, List.length_singleton] at this
      omega
    · have hi : i < lines.length := hacc.1
      refine ⟨i, (acceptsAt_snoc lines l i k).mpr (Or.inl hacc), ?_, ?_⟩
      · rw [parseAt_append_lt hi]; exact hr
      · intro j hj hacc'
        rcases (acceptsAt_snoc lines l j k).mp hacc' with h | ⟨_, h⟩
        · exact hlast j hj h
        · exact hn h

theorem GetAllCourses_new (n : Nat) : GetAllCourses (HashTable.new n) = [] := by
  rw [GetAllCourses_eq _ (Inv_new n).size_eq]
  simp [HashTable.new]

theorem Clear_bucketCount (t : HashTable) : (Clear t).bucketCount = t.bucketCount := rfl

theorem GetAllCourses_Clear {t : HashTable} (hs : t.buckets.length = t.bucketCount) :
    GetAllCourses (Clear t) = [] := by
  rw [Clear_eq t hs, GetAllCourses_new]

theorem Search_Clear {t : HashTable} (hs : t.buckets.length = t.bucketCount)
    (hu : t.bucketCount % 2 ^ 32 ≠ 0) (k : List Nat) : Search (Clear t) k = some none := by
  have hinv : Inv (Clear t) := by rw [Clear_eq t hs]; exact Inv_new _
  rw [Search_eq_none_iff hinv (by rw [Clear_bucketCount]; exact hu), GetAllCourses_Clear hs]
  intro x hx
  cases hx

theorem acceptsAt_length_iff (lines : List (List Nat)) (l : List Nat) (k : List Nat) :
    AcceptsAt (lines ++ [l]) lines.length k
      ↔ (parseAt (lines ++ [l]) lines.length).ok = true
        ∧ (parseAt (lines ++ [l]) lines.length).outCourse.courseNumber = k := by
  unfold AcceptsAt
  simp

/-- The loop invariant of the read loop, started on the cleared table: after the
lines `lines` the table answers `Search` with the last accepted record of each id. -/
theorem loadLines_inv (t0 : HashTable) (ht : Reachable t0) (hu : t0.bucketCount % 2 ^ 32 ≠ 0)
    (lines : List (List Nat)) :
    ∃ st, loadLines ⟨Clear t0, 0, true, []⟩ lines = some st ∧
      Reachable st.table ∧ st.table.bucketCount = t0.bucketCount ∧
      st.lineNumber = wrapInt (lines.length : Int) ∧
      st.isFirstNonEmptyLine = lines.all (fun l => decide (Trim l = [])) ∧
      (∀ k r, Search st.table k = some (some r) ↔ LastAccepted lines k r) ∧
      (∀ k, Search st.table k = some none ↔ ∀ i, ¬ AcceptsAt lines i k) ∧
      (∀ o ∈ st.out, ∃ n e, o = Out.formatError n e) := by
  induction lines using List.reverseRecOn with
  | nil =>
    refine ⟨⟨Clear t0, 0, true, []⟩, rfl, ht.clear, rfl, wrapInt_zero.symm, rfl, ?_, ?_, ?_⟩
    · intro k r
      simp only [Search_Clear ht.inv.size_eq hu]
      constructor
      · intro h; cases h
      · rintro ⟨i, hacc, _⟩
        exact absurd hacc.1 (by simp)
    · intro k
      simp only [Search_Clear ht.inv.size_eq hu, true_iff]
      intro i hacc
      exact absurd hacc.1 (by simp)
    · intro o ho
      cases ho
  | append_singleton lines l ih =>
    obtain ⟨st, hst, hreach, hbc, hln, hfirst, hsome, hnone, hout⟩ := ih
    rw [loadLines_snoc, hst]
    simp only
    have hres : ParseLineToCourse l (wrapInt (st.lineNumber + 1)) st.isFirstNonEmptyLine
        = parseAt (lines ++ [l]) lines.length := by
      rw [parseAt_length, hln, hfirst, wrapInt_add_wrapInt]
    have hu' : st.table.bucketCount % 2 ^ 32 ≠ 0 := by rw [hbc]; exact hu
    cases hok : (parseAt (lines ++ [l]) lines.length).ok with
    | true =>
      have hok' : (ParseLineToCourse l (wrapInt (st.lineNumber + 1)) st.isFirstNonEmptyLine).ok = true := by
        rw [hres]; exact hok
      obtain ⟨t', hins⟩ := (Insert_isSome_iff st.table
        (ParseLineToCourse l (wrapInt (st.lineNumber + 1)) st.isFirstNonEmptyLine).outCourse).mpr hu'
      rw [loadLine_of_ok hok', hins]
      simp only
      have hS := Search_Insert hreach.inv.size_eq hins
      rw [hres] at hS hins
      refine ⟨_, rfl, hreach.insert hins, ?_, ?_, ?_, ?_, ?_, hout⟩
      · simp only
        rw [Insert_bucketCount hins, hbc]
      · simp only
        rw [hln, wrapInt_add_wrapInt]
        simp
      · have hnb := ParseLineToCourse_ok_not_blank hok'
        simp [hnb]
      · intro k r
        simp only
        rw [hS k, lastAccepted_snoc, acceptsAt_length_iff]
        by_cases hk : (parseAt (lines ++ [l]) lines.length).outCourse.courseNumber = k
        · simp [hk, hok]
        · simp [hk, hsome]
      · intro k
        simp only
        rw [hS k]
        by_cases hk : (parseAt (lines ++ [l]) lines.length).outCourse.courseNumber = k
        · rw [if_pos hk]
          constructor
          · intro h; cases h
          · intro h
            exact absurd ((acceptsAt_length_iff lines l k).mpr ⟨hok, hk⟩) (h _)
        · rw [if_neg hk, hnone]
          constructor
          · intro h i hacc
            rcases (acceptsAt_snoc lines l i k).mp hacc with h' | ⟨_, h'⟩
            · exact h i h'
            · exact hk ((acceptsAt_length_iff lines l k).mp h').2
          · intro h i hacc
            exact h i ((acceptsAt_snoc lines l i k).mpr (Or.inl hacc))
    | false =>
      have hok' : (ParseLineToCourse l (wrapInt (st.lineNumber + 1)) st.isFirstNonEmptyLine).ok = false := by
        rw [hres]; exact hok
      obtain ⟨out, hl, hout'⟩ := loadLine_of_not_ok hok'
      rw [hl]
      have hnacc : ∀ k, ¬ AcceptsAt (lines ++ [l]) lines.length k := by
        intro k h
        have := ((acceptsAt_length_iff lines l k).mp h).1
        rw [hok] at this
        cases this
      refine ⟨_, rfl, hreach, hbc, ?_, ?_, ?_, ?_, ?_⟩
      · simp only
        rw [hln, wrapInt_add_wrapInt]
        simp
      · simp only
        rw [hfirst]
        simp
      · intro k r
        simp only
        rw [hsome, lastAccepted_snoc]
        simp [hnacc k]
      · intro k
        simp only
        rw [hnone]
        constructor
        · intro h i hacc
          rcases (acceptsAt_snoc lines l i k).mp hacc with h' | ⟨_, h'⟩
          · exact h i h'
          · exact hnacc k h'
        · intro h i hacc
          exact h i ((acceptsAt_snoc lines l i k).mpr (Or.inl hacc))
      · intro o ho
        rcases hout' o ho with h | h
        · exact hout o h
        · exact h

/-! ## The integrity validator -/

theorem validatePrereqs_eq {t : HashTable} (hu : t.bucketCount % 2 ^ 32 ≠ 0) (c : Course)
    (ps : List (List Nat)) (st : List Out × Int) (hw : wrapInt st.2 = st.2) :
    validatePrereqs t c ps st
      = some (st.1 ++ ((ps.filter (fun p => decide (Search t p = some none))).map
                (fun p => (c, p))).map missingLine,
              wrapInt (st.2 + (((ps.filter (fun p => decide (Search t p = some none))).map
                (fun p => (c, p))).length : Int))) := by
  induction ps generalizing st with
  | nil => simp [validatePrereqs, hw]
  | cons p ps ih =>
    unfold validatePrereqs
    obtain ⟨r, hr⟩ := Search_isSome hu p
    rw [hr]
    cases r with
    | none =>
      simp only
      rw [ih _ (wrapInt_wrapInt _)]
      simp only [List.filter_cons, hr, decide_True, if_true, List.map_cons, List.length_cons,
        missingLine, List.append_assoc, List.singleton_append, wrapInt_add_wrapInt]
      congr 3
      push_cast
      ring
    | some x =>
      simp only
      rw [ih _ hw]
      have : decide (some (some x) = some (none : Option Course)) = false := by simp
      simp only [List.filter_cons, hr, this]
      simp

theorem validateCourses_eq {t : HashTable} (hu : t.bucketCount % 2 ^ 32 ≠ 0)
    (cs : List Course) (st : List Out × Int) (hw : wrapInt st.2 = st.2) :
    validateCourses t cs st
      = some (st.1 ++ (cs.flatMap (fun c =>
                (c.prerequisites.filter (fun p => decide (Search t p = some none))).map
                  (fun p => (c, p)))).map missingLine,
              wrapInt (st.2 + ((cs.flatMap (fun c =>
                (c.prerequisites.filter (fun p => decide (Search t p = some none))).map
                  (fun p => (c, p)))).length : Int))) := by
  induction cs generalizing st with
  | nil => simp [validateCourses, hw]
  | cons c cs ih =>
    unfold validateCourses
    rw [validatePrereqs_eq hu _ _ _ hw]
    simp only
    rw [ih _ (wrapInt_wrapInt _)]
    simp only [List.flatMap_cons, List.map_append, List.length_append, List.append_assoc,
      wrapInt_add_wrapInt]
    congr 3
    push_cast
    ring

theorem GetAllCourses_of_unusable {t : HashTable} (hinv : Inv t)
    (hu : t.bucketCount % 2 ^ 32 = 0) : GetAllCourses t = [] := by
  rw [List.eq_nil_iff_forall_not_mem]
  intro x hx
  obtain ⟨j, hj⟩ := (mem_GetAllCourses_iff hinv.size_eq x).mp hx
  exact usable_of_IndexForKey (hinv.hashed j x hj) hu

theorem ValidatePrerequisites_eq {t : HashTable} (hinv : Inv t) :
    ValidatePrerequisites t
      = some ((unresolvedPairs t).map missingLine,
          wrapInt ((unresolvedPairs t).length : Int)) := by
  unfold ValidatePrerequisites unresolvedPairs
  by_cases hu : t.bucketCount % 2 ^ 32 = 0
  · rw [GetAllCourses_of_unusable hinv hu]
    simp [validateCourses, wrapInt_zero]
  · rw [validateCourses_eq hu _ _ wrapInt_zero]
    simp

/-- C8 (as amended): for every store, `ValidatePrerequisites` writes one line per pair
(stored record `c`, prerequisite occurrence of `c`) whose `Search` is not-found,
naming `c.sourceLine`, `c.courseNumber` and the missing id, each occurrence giving
its own line; and when there are fewer than `2 ^ 31` such pairs, it returns their
number. -/
theorem C8_validate_counts_unresolved (t : HashTable) (ht : Reachable t) :
    ∃ v, ValidatePrerequisites t = some v ∧
      v.1 = (unresolvedPairs t).map
        (fun cp => Out.missingPrerequisite cp.1.sourceLine cp.1.courseNumber cp.2) ∧
      ((unresolvedPairs t).length < 2147483648 → v.2 = ((unresolvedPairs t).length : Int)) := by
  refine ⟨_, ValidatePrerequisites_eq ht.inv, rfl, ?_⟩
  intro hn
  exact wrapInt_of_lt (by omega) (by omega)

set_option maxRecDepth 20000 in
/-- C8 (witness): loading the single line `CSCI101,Intro,MATH999` into the 179-bucket
table of `main` stores one record, and validation reports exactly one violation:
line 1, `CSCI101` missing `MATH999`. -/
theorem C8_validate_counts_unresolved_witness :
    LoadCoursesFromFile [] (some [ascii "CSCI101,Intro,MATH999"]) (HashTable.new 179)
        = some ⟨true,
            ⟨179, (List.replicate 179 []).set 63
              [⟨ascii "CSCI101", ascii "Intro", [ascii "MATH999"], 1⟩]⟩,
            [Out.missingPrerequisite 1 (ascii "CSCI101") (ascii "MATH999")]⟩ ∧
      unresolvedPairs ⟨179, (List.replicate 179 []).set 63
          [⟨ascii "CSCI101", ascii "Intro", [ascii "MATH999"], 1⟩]⟩
        = [(⟨ascii "CSCI101", ascii "Intro", [ascii "MATH999"], 1⟩, ascii "MATH999")] ∧
      ValidatePrerequisites ⟨179, (List.replicate 179 []).set 63
          [⟨ascii "CSCI101", ascii "Intro", [ascii "MATH999"], 1⟩]⟩
        = some ([Out.missingPrerequisite 1 (ascii "CSCI101") (ascii "MATH999")], 1) ∧
      ∃ v, ValidatePrerequisites ⟨179, (List.replicate 179 []).set 63
          [⟨ascii "CSCI101", ascii "Intro", [ascii "MATH999"], 1⟩]⟩ = some v ∧
        v.1 = (unresolvedPairs ⟨179, (List.replicate 179 []).set 63
              [⟨ascii "CSCI101", ascii "Intro", [ascii "MATH999"], 1⟩]⟩).map
                (fun cp => Out.missingPrerequisite cp.1.sourceLine cp.1.courseNumber cp.2) ∧
        ((unresolvedPairs ⟨179, (List.replicate 179 []).set 63
              [⟨ascii "CSCI101", ascii "Intro", [ascii "MATH999"], 1⟩]⟩).length < 2147483648 →
          v.2 = ((unresolvedPairs ⟨179, (List.replicate 179 []).set 63
              [⟨ascii "CSCI101", ascii "Intro", [ascii "MATH999"], 1⟩]⟩).length : Int)) :=
  ⟨by decide, by decide, by decide,
    C8_validate_counts_unresolved _
      ⟨179, [.insert ⟨ascii "CSCI101", ascii "Intro", [ascii "MATH999"], 1⟩], by decide⟩⟩

theorem runOps_insert_new_one (c : Course) :
    runOps (HashTable.new 1) [.insert c] = some ⟨1, [[c]]⟩ := by
  simp [runOps, applyOp, Insert, IndexForKey, HashTable.new, bucketAt, overwriteInChain,
    Nat.mod_one]

theorem unresolvedPairs_repeated (n : Nat) :
    unresolvedPairs ⟨1, [[⟨[65], [66], List.replicate n [67], 1⟩]]⟩
      = List.replicate n (⟨[65], [66], List.replicate n [67], 1⟩, [67]) := by
  have hs : Search ⟨1, [[⟨[65], [66], List.replicate n [67], 1⟩]]⟩ [67] = some none := by
    simp [Search, IndexForKey, bucketAt, searchChain]
  have hg : GetAllCourses ⟨1, [[⟨[65], [66], List.replicate n [67], 1⟩]]⟩
      = [⟨[65], [66], List.replicate n [67], 1⟩] := rfl
  unfold unresolvedPairs
  rw [hg]
  simp only [List.flatMap_cons, List.flatMap_nil, List.append_nil]
  rw [List.filter_replicate_of_pos (by simp [hs]), List.map_replicate]

/-- A one-bucket store whose only record lists the absent id `C` `n` times: `n`
unresolved occurrences, and the returned `int` is `n` wrapped. -/
theorem ValidatePrerequisites_repeated (n : Nat) (m : Int) (hm : wrapInt (n : Int) = m) :
    Reachable ⟨1, [[⟨[65], [66], List.replicate n [67], 1⟩]]⟩ ∧
      (unresolvedPairs ⟨1, [[⟨[65], [66], List.replicate n [67], 1⟩]]⟩).length = n ∧
      (ValidatePrerequisites ⟨1, [[⟨[65], [66], List.replicate n [67], 1⟩]]⟩).map Prod.snd
        = some m := by
  have hr : Reachable ⟨1, [[⟨[65], [66], List.replicate n [67], 1⟩]]⟩ :=
    ⟨1, _, runOps_insert_new_one _⟩
  have hl : (unresolvedPairs ⟨1, [[⟨[65], [66], List.replicate n [67], 1⟩]]⟩).length = n := by
    rw [unresolvedPairs_repeated, List.length_replicate]
  refine ⟨hr, hl, ?_⟩
  rw [ValidatePrerequisites_eq hr.inv, hl, hm]
  rfl

/-- C8 (as stated, refuted): a one-bucket store whose only record lists the absent
prerequisite `C` `2 ^ 31` times: there are `2 ^ 31` unresolved occurrences, and the
`int errorCount` that `ValidatePrerequisites` returns is `-2 ^ 31`. -/
theorem C8_count_wraps :
    Reachable ⟨1, [[⟨[65], [66], List.replicate 2147483648 [67], 1⟩]]⟩ ∧
      (unresolvedPairs ⟨1, [[⟨[65], [66], List.replicate 2147483648 [67], 1⟩]]⟩).length
        = 2147483648 ∧
      (ValidatePrerequisites
          ⟨1, [[⟨[65], [66], List.replicate 2147483648 [67], 1⟩]]⟩).map Prod.snd
        = some (-2147483648) :=
  ValidatePrerequisites_repeated 2147483648 (-2147483648) (by decide)

/-! ## Claims about loading -/

theorem mem_unresolvedPairs (t : HashTable) (c : Course) (p : List Nat) :
    (c, p) ∈ unresolvedPairs t
      ↔ c ∈ GetAllCourses t ∧ p ∈ c.prerequisites ∧ Search t p = some none := by
  unfold unresolvedPairs
  simp only [List.mem_flatMap, List.mem_map, List.mem_filter, decide_eq_true_eq, Prod.mk.injEq]
  constructor
  · rintro ⟨c', hc', p', ⟨hp', hs⟩, rfl, rfl⟩
    exact ⟨hc', hp', hs⟩
  · rintro ⟨hc, hp, hs⟩
    exact ⟨c, hc, p, ⟨hp, hs⟩, rfl, rfl⟩

theorem LoadCoursesFromFile_eq (fileName : List Nat) (lines : List (List Nat)) (t0 : HashTable)
    (ht : Reachable t0) (hu : t0.bucketCount % 2 ^ 32 ≠ 0) :
    ∃ st, loadLines ⟨Clear t0, 0, true, []⟩ lines = some st ∧
      LoadCoursesFromFile fileName (some lines) t0
        = some ⟨!decide (GetAllCourses st.table = []), st.table,
            st.out ++ (unresolvedPairs st.table).map missingLine
              ++ (if GetAllCourses st.table = [] then [Out.noValidCourses] else [])⟩ := by
  obtain ⟨st, hst, hreach, _⟩ := loadLines_inv t0 ht hu lines
  refine ⟨st, hst, ?_⟩
  unfold LoadCoursesFromFile
  simp only [hst, ValidatePrerequisites_eq hreach.inv]
  by_cases hg : GetAllCourses st.table = []
  · simp [hg]
  · simp [hg]

theorem sourceLine_ParseLineToCourse (line : List Nat) (n : Int) (flag : Bool) :
    (ParseLineToCourse line n flag).outCourse.sourceLine = n := by
  unfold ParseLineToCourse
  simp only
  cases flag <;> (repeat' split) <;> rfl

/-- C4 (as amended): for every readable input and every key `k`, after
`LoadCoursesFromFile` the call `Search(k)` returns the record parsed from the last
line of the input that `ParseLineToCourse` accepts with id `k` (that line's title
and prerequisites, and, when that line is one of the first `2 ^ 31 - 1` lines of the
input, its 1-based line number, every line of the input being counted), and
`Search(k)` is not-found exactly when no accepted line has id `k`. -/
theorem C4_search_after_load (fileName : List Nat) (lines : List (List Nat)) (t0 : HashTable)
    (k : List Nat) (ht : Reachable t0) (hu : t0.bucketCount % 2 ^ 32 ≠ 0) :
    ∃ res, LoadCoursesFromFile fileName (some lines) t0 = some res ∧
      (∀ r, Search res.table k = some (some r)
        ↔ ∃ i, AcceptsAt lines i k ∧ (∀ j, i < j → ¬ AcceptsAt lines j k) ∧
            r = (parseAt lines i).outCourse ∧
            ((i : Int) + 1 < 2147483648 → r.sourceLine = (i : Int) + 1)) ∧
      (Search res.table k = some none ↔ ∀ i, ¬ AcceptsAt lines i k) ∧
      Search res.table k ≠ none := by
  obtain ⟨st, hst, hload⟩ := LoadCoursesFromFile_eq fileName lines t0 ht hu
  obtain ⟨st', hst', _, hbc, _, _, hsome, hnone, _⟩ := loadLines_inv t0 ht hu lines
  rw [hst] at hst'
  injection hst' with hst'
  subst hst'
  refine ⟨_, hload, ?_, hnone k, ?_⟩
  · intro r
    simp only
    rw [hsome k r]
    unfold LastAccepted
    constructor
    · rintro ⟨i, hacc, hr, hlast⟩
      refine ⟨i, hacc, hlast, hr.symm, ?_⟩
      intro hi
      rw [← hr]
      unfold parseAt
      rw [sourceLine_ParseLineToCourse]
      exact wrapInt_of_lt (by omega) hi
    · rintro ⟨i, hacc, hlast, hr, _⟩
      exact ⟨i, hacc, hr.symm, hlast⟩
  · simp only
    obtain ⟨o, ho⟩ := Search_isSome (t := st.table) (by rw [hbc]; exact hu) k
    rw [ho]
    simp

set_option maxRecDepth 20000 in
/-- C4 (witness): four lines into the 179-bucket table of `main`; the id `CSCI101`
is accepted on lines 1 and 4 with a blank and a malformed line in between, and
`Search` returns the record of line 4. -/
theorem C4_search_after_load_witness :
    (LoadCoursesFromFile [] (some [ascii "CSCI101,First", ascii "  ", ascii "oops",
          ascii "csci101 , Second ,math1"]) (HashTable.new 179)).bind
        (fun res => Search res.table (ascii "CSCI101"))
        = some (some ⟨ascii "CSCI101", ascii "Second", [ascii "MATH1"], 4⟩) ∧
      ∃ res, LoadCoursesFromFile [] (some [ascii "CSCI101,First", ascii "  ", ascii "oops",
          ascii "csci101 , Second ,math1"]) (HashTable.new 179) = some res ∧
        (∀ r, Search res.table (ascii "CSCI101") = some (some r)
          ↔ ∃ i, AcceptsAt [ascii "CSCI101,First", ascii "  ", ascii "oops",
                ascii "csci101 , Second ,math1"] i (ascii "CSCI101") ∧
              (∀ j, i < j → ¬ AcceptsAt [ascii "CSCI101,First", ascii "  ", ascii "oops",
                ascii "csci101 , Second ,math1"] j (ascii "CSCI101")) ∧
              r = (parseAt [ascii "CSCI101,First", ascii "  ", ascii "oops",
                ascii "csci101 , Second ,math1"] i).outCourse ∧
              ((i : Int) + 1 < 2147483648 → r.sourceLine = (i : Int) + 1)) ∧
        (Search res.table (ascii "CSCI101") = some none
          ↔ ∀ i, ¬ AcceptsAt [ascii "CSCI101,First", ascii "  ", ascii "oops",
                ascii "csci101 , Second ,math1"] i (ascii "CSCI101")) ∧
        Search res.table (ascii "CSCI101") ≠ none :=
  ⟨by decide,
    C4_search_after_load [] [ascii "CSCI101,First", ascii "  ", ascii "oops",
      ascii "csci101 , Second ,math1"] (HashTable.new 179) (ascii "CSCI101")
      (Reachable.new 179) (by decide)⟩

/-- The line number reaches the result of `ParseLineToCourse` only as the
`sourceLine` of the record. -/
theorem ParseLineToCourse_lineNumber (line : List Nat) (n m : Int) (flag : Bool) :
    ParseLineToCourse line m flag
      = ⟨(ParseLineToCourse line n flag).ok,
          { (ParseLineToCourse line n flag).outCourse with sourceLine := m },
          (ParseLineToCourse line n flag).err⟩ := by
  unfold ParseLineToCourse
  simp only
  cases flag <;> (repeat' split) <;> rfl

theorem all_blank_replicate (n : Nat) :
    (List.replicate n ([] : List Nat)).all (fun l => decide (Trim l = [])) = true := by
  rw [List.all_eq_true]
  intro x hx
  rw [List.eq_of_mem_replicate hx]
  rfl

theorem parseAt_after_blank (n : Nat) (l : List Nat) :
    parseAt (List.replicate n [] ++ [l]) n
      = ParseLineToCourse l (wrapInt ((n : Int) + 1)) true := by
  have h := parseAt_length (List.replicate n []) l
  rw [List.length_replicate, all_blank_replicate] at h
  exact h

/-- The load of `n` empty lines followed by the line `A,B`: the record found under
`A` carries the `int lineNumber` of the loop after `n + 1` increments. -/
theorem Search_after_blank_lines (n : Nat) (m : Int) (hm : wrapInt ((n : Int) + 1) = m) :
    (List.replicate n ([] : List Nat) ++ [ascii "A,B"]).length = n + 1 ∧
      AcceptsAt (List.replicate n [] ++ [ascii "A,B"]) n (ascii "A") ∧
      ∃ res, LoadCoursesFromFile [] (some (List.replicate n [] ++ [ascii "A,B"]))
          (HashTable.new 179) = some res ∧
        Search res.table (ascii "A") = some (some ⟨ascii "A", ascii "B", [], m⟩) := by
  have hp : parseAt (List.replicate n [] ++ [ascii "A,B"]) n
      = ⟨true, ⟨ascii "A", ascii "B", [], m⟩, ""⟩ := by
    rw [parseAt_after_blank, hm, ParseLineToCourse_lineNumber _ 0 m]
    have h0 : ParseLineToCourse (ascii "A,B") 0 true = ⟨true, ⟨ascii "A", ascii "B", [], 0⟩, ""⟩ := by
      decide
    rw [h0]
  have hacc : AcceptsAt (List.replicate n [] ++ [ascii "A,B"]) n (ascii "A") :=
    ⟨by simp, by rw [hp], by rw [hp]⟩
  refine ⟨by simp, hacc, ?_⟩
  have hu : (HashTable.new 179).bucketCount % 2 ^ 32 ≠ 0 := by decide
  obtain ⟨st, hst, hload⟩ := LoadCoursesFromFile_eq [] (List.replicate n [] ++ [ascii "A,B"])
    (HashTable.new 179) (Reachable.new 179) hu
  obtain ⟨st', hst', _, _, _, _, hsome, _, _⟩ :=
    loadLines_inv (HashTable.new 179) (Reachable.new 179) hu (List.replicate n [] ++ [ascii "A,B"])
  rw [hst] at hst'
  injection hst' with hst'
  subst hst'
  refine ⟨_, hload, ?_⟩
  simp only
  rw [hsome]
  refine ⟨n, hacc, by rw [hp], ?_⟩
  intro j hj hacc
  have := hacc.1
  simp only [List.length_append, List.length_replicate, List.length_singleton] at this
  omega

/-- C4 (as stated, refuted): an input of `2 ^ 31` lines, all empty but the last,
which is `A,B`. The last line is accepted with id `A` as line `2 ^ 31` of the input,
but the record that `Search` returns after the load carries the line number
`-2 ^ 31`: the `int lineNumber` of the read loop has wrapped. -/
theorem C4_line_number_wraps :
    (List.replicate 2147483647 ([] : List Nat) ++ [ascii "A,B"]).length = 2147483648 ∧
      AcceptsAt (List.replicate 2147483647 [] ++ [ascii "A,B"]) 2147483647 (ascii "A") ∧
      ∃ res, LoadCoursesFromFile [] (some (List.replicate 2147483647 [] ++ [ascii "A,B"]))
          (HashTable.new 179) = some res ∧
        Search res.table (ascii "A")
          = some (some ⟨ascii "A", ascii "B", [], -2147483648⟩) :=
  Search_after_blank_lines 2147483647 (-2147483648) (by decide)

/-- C6: every record that `ParseLineToCourse` accepts, and therefore every record
held by the store after a load, has a non-empty `courseNumber` that `NormalizeId`
leaves unchanged, a non-empty `courseTitle` that `Trim` leaves unchanged, and only
prerequisites that are non-empty and that `NormalizeId` leaves unchanged. -/
theorem C6_accepted_records_normalized (line : List Nat) (lineNumber : Int)
    (isFirstDataLine : Bool) (fileName : List Nat) (lines : List (List Nat)) (t0 : HashTable) :
    ((ParseLineToCourse line lineNumber isFirstDataLine).ok = true →
        WellFormedRecord (ParseLineToCourse line lineNumber isFirstDataLine).outCourse) ∧
      (Reachable t0 → t0.bucketCount % 2 ^ 32 ≠ 0 →
        ∃ res, LoadCoursesFromFile fileName (some lines) t0 = some res ∧
          ∀ c ∈ GetAllCourses res.table, WellFormedRecord c) := by
  refine ⟨ParseLineToCourse_wellFormed, ?_⟩
  intro ht hu
  obtain ⟨st, hst, hload⟩ := LoadCoursesFromFile_eq fileName lines t0 ht hu
  obtain ⟨st', hst', hreach, hbc, _, _, hsome, _, _⟩ := loadLines_inv t0 ht hu lines
  rw [hst] at hst'
  injection hst' with hst'
  subst hst'
  refine ⟨_, hload, ?_⟩
  intro c hc
  simp only at hc
  have hs : Search st.table c.courseNumber = some (some c) :=
    (Search_eq_some_iff hreach.inv (by rw [hbc]; exact hu) c.courseNumber c).mpr ⟨hc, rfl⟩
  obtain ⟨i, hacc, hr, _⟩ := (hsome _ _).mp hs
  rw [← hr]
  exact ParseLineToCourse_wellFormed hacc.2.1

/-- C6 (witness): the line ` cs1 , Title, cs1 ,, ma1` alone and as a one-line file. -/
theorem C6_accepted_records_normalized_witness :
    (ParseLineToCourse (ascii " cs1 , Title, cs1 ,, ma1") 1 true).ok = true ∧
      Reachable (HashTable.new 179) ∧ (HashTable.new 179).bucketCount % 2 ^ 32 ≠ 0 ∧
      WellFormedRecord (ParseLineToCourse (ascii " cs1 , Title, cs1 ,, ma1") 1 true).outCourse ∧
      ∃ res, LoadCoursesFromFile [] (some [ascii " cs1 , Title, cs1 ,, ma1"])
          (HashTable.new 179) = some res ∧
        ∀ c ∈ GetAllCourses res.table, WellFormedRecord c :=
  ⟨by decide, Reachable.new 179, by decide,
    (C6_accepted_records_normalized (ascii " cs1 , Title, cs1 ,, ma1") 1 true []
      [ascii " cs1 , Title, cs1 ,, ma1"] (HashTable.new 179)).1 (by decide),
    (C6_accepted_records_normalized (ascii " cs1 , Title, cs1 ,, ma1") 1 true []
      [ascii " cs1 , Title, cs1 ,, ma1"] (HashTable.new 179)).2 (Reachable.new 179) (by decide)⟩

/-- C9: for every readable input, the validation pass at the end of the load flags
a prerequisite `p` of a stored record exactly when no accepted line anywhere in the
input, before or after the referencing line, has id `p`. -/
theorem C9_forward_references (fileName : List Nat) (lines : List (List Nat)) (t0 : HashTable)
    (ht : Reachable t0) (hu : t0.bucketCount % 2 ^ 32 ≠ 0) :
    ∃ res, LoadCoursesFromFile fileName (some lines) t0 = some res ∧
      ∀ n id p, Out.missingPrerequisite n id p ∈ res.out
        ↔ (∃ c ∈ GetAllCourses res.table,
              c.sourceLine = n ∧ c.courseNumber = id ∧ p ∈ c.prerequisites)
          ∧ ∀ i, ¬ AcceptsAt lines i p := by
  obtain ⟨st, hst, hload⟩ := LoadCoursesFromFile_eq fileName lines t0 ht hu
  obtain ⟨st', hst', hreach, hbc, _, _, _, hnone, hout⟩ := loadLines_inv t0 ht hu lines
  rw [hst] at hst'
  injection hst' with hst'
  subst hst'
  refine ⟨_, hload, ?_⟩
  intro n id p
  simp only [List.mem_append, List.mem_map]
  constructor
  · rintro ((h | ⟨⟨c, p'⟩, hcp, he⟩) | h)
    · obtain ⟨n', e, he⟩ := hout _ h
      cases he
    · simp only [missingLine, Out.missingPrerequisite.injEq] at he
      obtain ⟨h1, h2, h3⟩ := he
      subst h3
      obtain ⟨hc, hp, hs⟩ := (mem_unresolvedPairs _ _ _).mp hcp
      exact ⟨⟨c, hc, h1, h2, hp⟩, (hnone p').mp hs⟩
    · split at h
      · simp at h
      · cases h
  · rintro ⟨⟨c, hc, h1, h2, hp⟩, hno⟩
    refine Or.inl (Or.inr ⟨(c, p), ?_, ?_⟩)
    · exact (mem_unresolvedPairs _ _ _).mpr ⟨hc, hp, (hnone p).mpr hno⟩
    · simp [missingLine, h1, h2]

set_option maxRecDepth 20000 in
/-- C9 (witness): the two-line input `CSCI101, Intro to CS,CSCI100` then
`CSCI100,  Pre-CS` loads two records into the 179-bucket table of `main`, and
validation reports zero violations although the prerequisite comes later. -/
theorem C9_forward_references_witness :
    LoadCoursesFromFile [] (some [ascii "CSCI101, Intro to CS,CSCI100", ascii "CSCI100,  Pre-CS"])
        (HashTable.new 179)
        = some ⟨true,
            ⟨179, ((List.replicate 179 []).set 63
                [⟨ascii "CSCI101", ascii "Intro to CS", [ascii "CSCI100"], 1⟩]).set 62
                [⟨ascii "CSCI100", ascii "Pre-CS", [], 2⟩]⟩, []⟩ ∧
      GetAllCourses ⟨179, ((List.replicate 179 []).set 63
                [⟨ascii "CSCI101", ascii "Intro to CS", [ascii "CSCI100"], 1⟩]).set 62
                [⟨ascii "CSCI100", ascii "Pre-CS", [], 2⟩]⟩
        = [⟨ascii "CSCI100", ascii "Pre-CS", [], 2⟩,
            ⟨ascii "CSCI101", ascii "Intro to CS", [ascii "CSCI100"], 1⟩] ∧
      ValidatePrerequisites ⟨179, ((List.replicate 179 []).set 63
                [⟨ascii "CSCI101", ascii "Intro to CS", [ascii "CSCI100"], 1⟩]).set 62
                [⟨ascii "CSCI100", ascii "Pre-CS", [], 2⟩]⟩ = some ([], 0) ∧
      ∃ res, LoadCoursesFromFile []
          (some [ascii "CSCI101, Intro to CS,CSCI100", ascii "CSCI100,  Pre-CS"])
          (HashTable.new 179) = some res ∧
        ∀ n id p, Out.missingPrerequisite n id p ∈ res.out
          ↔ (∃ c ∈ GetAllCourses res.table,
                c.sourceLine = n ∧ c.courseNumber = id ∧ p ∈ c.prerequisites)
            ∧ ∀ i, ¬ AcceptsAt [ascii "CSCI101, Intro to CS,CSCI100", ascii "CSCI100,  Pre-CS"]
                i p :=
  ⟨by decide, by decide, by decide,
    C9_forward_references [] [ascii "CSCI101, Intro to CS,CSCI100", ascii "CSCI100,  Pre-CS"]
      (HashTable.new 179) (Reachable.new 179) (by decide)⟩

/-! ## The sorted listing -/

/-- `operator<` on strings is the lexicographic order on byte sequences. -/
theorem stringLess_iff (a b : List Nat) :
    stringLess a b = true ↔ List.Lex (fun x y => x < y) a b := by
  induction a generalizing b with
  | nil =>
    cases b with
    | nil =>
      simp only [stringLess]
      constructor
      · intro h; cases h
      · intro h; cases h
    | cons y ys =>
      simp only [stringLess, true_iff]
      exact List.Lex.nil
  | cons x xs ih =>
    cases b with
    | nil =>
      simp only [stringLess]
      constructor
      · intro h; cases h
      · intro h; cases h
    | cons y ys =>
      simp only [stringLess]
      by_cases hxy : x < y
      · simp only [hxy, if_true, true_iff]
        exact List.Lex.rel hxy
      · by_cases hyx : y < x
        · simp only [hxy, hyx, if_true, if_false]
          constructor
          · intro h; cases h
          · intro h
            cases h with
            | cons h' => exact absurd hyx (Nat.lt_irrefl _)
            | rel h' => exact absurd h' hxy
        · have he : x = y := by omega
          subst he
          simp only [hxy, if_false]
          rw [ih ys]
          constructor
          · intro h; exact List.Lex.cons h
          · intro h
            cases h with
            | cons h' => exact h'
            | rel h' => exact absurd h' hxy

theorem courseLess_iff (a b : Course) :
    courseLess a b = true ↔ a.courseNumber < b.courseNumber :=
  stringLess_iff _ _

theorem perm_orderedInsert (comp : Course → Course → Bool) (x : Course) (l : List Course) :
    (orderedInsert comp x l).Perm (x :: l) := by
  induction l with
  | nil => exact List.Perm.refl _
  | cons y ys ih =>
    unfold orderedInsert
    split
    · exact List.Perm.refl _
    · exact (List.Perm.cons y ih).trans (List.Perm.swap x y ys)

theorem perm_stdSort (comp : Course → Course → Bool) (l : List Course) :
    (stdSort comp l).Perm l := by
  induction l with
  | nil => exact List.Perm.refl _
  | cons x xs ih =>
    unfold stdSort
    exact (perm_orderedInsert comp x _).trans (List.Perm.cons x ih)

theorem pairwise_orderedInsert (x : Course) (l : List Course)
    (h : l.Pairwise (fun a b => ¬ b.courseNumber < a.courseNumber)) :
    (orderedInsert courseLess x l).Pairwise (fun a b => ¬ b.courseNumber < a.courseNumber) := by
  induction l with
  | nil => simp [orderedInsert]
  | cons y ys ih =>
    have hy := List.pairwise_cons.mp h
    unfold orderedInsert
    by_cases hxy : courseLess x y = true
    · rw [if_pos hxy]
      have hlt : x.courseNumber < y.courseNumber := (courseLess_iff x y).mp hxy
      refine List.pairwise_cons.mpr ⟨?_, h⟩
      intro z hz
      rcases List.mem_cons.mp hz with e | hz'
      · subst e
        exact lt_asymm hlt
      · intro hzx
        exact hy.1 z hz' (lt_trans hzx hlt)
    · rw [if_neg hxy]
      have hnlt : ¬ x.courseNumber < y.courseNumber := fun e => hxy ((courseLess_iff x y).mpr e)
      refine List.pairwise_cons.mpr ⟨?_, ih hy.2⟩
      intro z hz
      rcases List.mem_cons.mp ((perm_orderedInsert courseLess x ys).subset hz) with e | hz'
      · subst e
        exact hnlt
      · exact hy.1 z hz'

theorem pairwise_stdSort (l : List Course) :
    (stdSort courseLess l).Pairwise (fun a b => ¬ b.courseNumber < a.courseNumber) := by
  induction l with
  | nil => simp [stdSort]
  | cons x xs ih =>
    unfold stdSort
    exact pairwise_orderedInsert x _ ih

/-- C10: for every store, the records that `PrintCourseListSorted` prints, one
`courseNumber, courseTitle` line each after the header, are a permutation of
`GetAllCourses` and are non-decreasing by `courseNumber` in the lexicographic order
on byte sequences: no record is followed by one with a smaller id. -/
theorem C10_listing_sorted_permutation (t : HashTable) :
    PrintCourseListSorted t
        = Out.scheduleHeader ::
            (sortedCourses t).map (fun c => Out.courseLine c.courseNumber c.courseTitle) ∧
      (sortedCourses t).Perm (GetAllCourses t) ∧
      (sortedCourses t).Pairwise
        (fun a b => ¬ List.Lex (fun x y => x < y) b.courseNumber a.courseNumber) :=
  ⟨rfl, perm_stdSort _ _, pairwise_stdSort _⟩

/-! ## Claims about normalization -/

/-- C12: `NormalizeId` is idempotent: for every byte string `x`,
`NormalizeId(NormalizeId(x)) = NormalizeId(x)`. -/
theorem C12_normalize_idempotent (x : List Nat) :
    NormalizeId (NormalizeId x) = NormalizeId x :=
  NormalizeId_idem x

theorem rdropWhile_append_of_pos {p : Nat → Bool} {l q : List Nat}
    (h : ∀ a ∈ q, p a = true) : List.rdropWhile p (l ++ q) = List.rdropWhile p l := by
  induction q using List.reverseRecOn with
  | nil => simp
  | append_singleton q x ih =>
    rw [← List.append_assoc, List.rdropWhile_concat_pos _ _ _ (h x (by simp))]
    exact ih (fun a ha => h a (by simp [ha]))

theorem Trim_append_whitespace {p q : List Nat} (t : List Nat)
    (hp : ∀ c ∈ p, c ∈ whitespace) (hq : ∀ c ∈ q, c ∈ whitespace) :
    Trim (p ++ t ++ q) = Trim t := by
  have hp' : ∀ c ∈ p, isWhitespace c = true := fun c hc => by simp [isWhitespace, hp c hc]
  have hq' : ∀ c ∈ q, isWhitespace c = true := fun c hc => by simp [isWhitespace, hq c hc]
  rw [List.append_assoc, Trim_eq, List.dropWhile_append_of_pos hp', ← Trim_eq, Trim_eq',
    rdropWhile_append_of_pos hq', ← Trim_eq']

theorem toupper_of_sameLetter {a b : Nat} (h : SameLetter a b) : toupper a = toupper b := by
  unfold SameLetter at h
  unfold toupper
  rcases h with h | ⟨h1, h2, h3⟩ | ⟨h1, h2, h3⟩
  · rw [h]
  · subst h3
    rw [if_neg (by omega), if_pos (by omega)]
    omega
  · subst h3
    rw [if_pos (by omega), if_neg (by omega)]
    omega

theorem ToUpper_of_sameUpToCase {t s : List Nat} (h : SameUpToCase t s) :
    ToUpper t = ToUpper s := by
  unfold SameUpToCase at h
  induction h with
  | nil => rfl
  | cons hab _ ih =>
    simp only [ToUpper, List.map_cons, List.cons.injEq] at ih ⊢
    exact ⟨toupper_of_sameLetter hab, ih⟩

/-- C13: `NormalizeId` is case- and whitespace-insensitive: for every string `s`,
all strings `p`, `q` made only of whitespace bytes (space, tab, newline, carriage
return) and every string `t` that differs from `s` only in the case of ASCII
letters, `NormalizeId(p ++ t ++ q) = NormalizeId(s)`. -/
theorem C13_normalize_insensitive (s t p q : List Nat)
    (hp : ∀ c ∈ p, c ∈ whitespace) (hq : ∀ c ∈ q, c ∈ whitespace)
    (hts : SameUpToCase t s) :
    NormalizeId (p ++ t ++ q) = NormalizeId s := by
  unfold NormalizeId
  rw [Trim_append_whitespace t hp hq, ← Trim_ToUpper, ← Trim_ToUpper,
    ToUpper_of_sameUpToCase hts]

/-- C13 (witness): `NormalizeId(" csci101 ") = NormalizeId("CSCI101") = "CSCI101"`. -/
theorem C13_normalize_insensitive_witness :
    (∀ c ∈ ascii " ", c ∈ whitespace) ∧ SameUpToCase (ascii "csci101") (ascii "CSCI101") ∧
      NormalizeId (ascii " csci101 ") = ascii "CSCI101" ∧
      NormalizeId (ascii "CSCI101") = ascii "CSCI101" ∧
      NormalizeId (ascii " " ++ ascii "csci101" ++ ascii " ") = NormalizeId (ascii "CSCI101") :=
  have hs : SameUpToCase (ascii "csci101") (ascii "CSCI101") := by
    unfold SameUpToCase
    simp [ascii, SameLetter]
  ⟨by decide, hs, by decide, by decide,
    C13_normalize_insensitive (ascii "CSCI101") (ascii "csci101") (ascii " ") (ascii " ")
      (by decide) (by decide) hs⟩

/-! ## Claims about clearing and reloading -/

/-- C17 (as amended): for every store state, after `HashTable::Clear` the store
equals a just-constructed store of the same bucket count: `GetAllCourses` is empty,
`Search` answers every key as on that just-constructed store, and, when the bucket
count converted to `unsigned int` is not zero, `Search` returns not-found for every
key, the keys stored before the clear included. -/
theorem C17_clear_restores_fresh (t : HashTable) (ht : Reachable t) :
    Clear t = HashTable.new t.bucketCount ∧ GetAllCourses (Clear t) = [] ∧
      (∀ k, Search (Clear t) k = Search (HashTable.new t.bucketCount) k) ∧
      (t.bucketCount % 2 ^ 32 ≠ 0 → ∀ k, Search (Clear t) k = some none) :=
  ⟨Clear_eq t ht.inv.size_eq, GetAllCourses_Clear ht.inv.size_eq,
    fun k => by rw [Clear_eq t ht.inv.size_eq],
    fun hu k => Search_Clear ht.inv.size_eq hu k⟩

/-- C17 (witness): a 3-bucket table holding `CS` and `M`; after `Clear` both keys
miss. -/
theorem C17_clear_restores_fresh_witness :
    Reachable ⟨3, [[⟨[67, 83], [68], [], 4⟩], [], [⟨[77], [69], [], 5⟩]]⟩ ∧
      Search ⟨3, [[⟨[67, 83], [68], [], 4⟩], [], [⟨[77], [69], [], 5⟩]]⟩ [67, 83]
        = some (some ⟨[67, 83], [68], [], 4⟩) ∧
      Clear ⟨3, [[⟨[67, 83], [68], [], 4⟩], [], [⟨[77], [69], [], 5⟩]]⟩ = HashTable.new 3 ∧
      GetAllCourses (Clear ⟨3, [[⟨[67, 83], [68], [], 4⟩], [], [⟨[77], [69], [], 5⟩]]⟩) = [] ∧
      (∀ k, Search (Clear ⟨3, [[⟨[67, 83], [68], [], 4⟩], [], [⟨[77], [69], [], 5⟩]]⟩) k
        = Search (HashTable.new 3) k) ∧
      ((3 : Nat) % 2 ^ 32 ≠ 0 →
        ∀ k, Search (Clear ⟨3, [[⟨[67, 83], [68], [], 4⟩], [], [⟨[77], [69], [], 5⟩]]⟩) k
          = some none) :=
  ⟨⟨3, [.insert ⟨[67, 83], [68], [], 4⟩, .insert ⟨[77], [69], [], 5⟩], by decide⟩, by decide,
    C17_clear_restores_fresh ⟨3, [[⟨[67, 83], [68], [], 4⟩], [], [⟨[77], [69], [], 5⟩]]⟩
      ⟨3, [.insert ⟨[67, 83], [68], [], 4⟩, .insert ⟨[77], [69], [], 5⟩], by decide⟩⟩

/-- C17 (as stated, refuted): a freshly constructed table without buckets is a
store state, and after `Clear` the call `Search` does not return not-found: it has
no defined result, because `IndexForKey` takes a remainder by zero. -/
theorem C17_no_search_without_buckets :
    Reachable (HashTable.new 0) ∧ Clear (HashTable.new 0) = HashTable.new 0 ∧
      Search (Clear (HashTable.new 0)) [67, 83] = none ∧
      Search (Clear (HashTable.new 0)) [67, 83] ≠ some none :=
  ⟨Reachable.new _, by decide, by decide, by decide⟩

/-! ## The loader: what is written and what is inserted -/

theorem err_of_rejected {line : List Nat} {n : Int} {flag : Bool} (hb : Trim line ≠ [])
    (h : (ParseLineToCourse line n flag).ok = false) :
    (ParseLineToCourse line n flag).err = "invalid course number or title" := by
  cases hs : Split (Trim line) 44 with
  | nil => rw [ParseLineToCourse_short hb (by rw [hs]; decide)]
  | cons f0 l =>
    cases l with
    | nil => rw [ParseLineToCourse_short hb (by rw [hs]; simp)]
    | cons f1 rest =>
      rw [ParseLineToCourse_fields hs] at h ⊢
      by_cases hc : NormalizeId (if flag then StripBOM f0 else f0) = [] ∨ Trim f1 = []
      · rw [if_pos hc]
      · rw [if_neg hc] at h
        cases h

theorem loadLine_rejected {st : LoadState} {line : List Nat}
    (h : (ParseLineToCourse line (wrapInt (st.lineNumber + 1)) st.isFirstNonEmptyLine).ok = false) :
    loadLine st line
      = some ⟨st.table, wrapInt (st.lineNumber + 1),
          st.isFirstNonEmptyLine && decide (Trim line = []),
          st.out ++ (if Trim line ≠ [] then
            [Out.formatError (wrapInt (st.lineNumber + 1))
              (ParseLineToCourse line (wrapInt (st.lineNumber + 1)) st.isFirstNonEmptyLine).err]
            else [])⟩ := by
  unfold loadLine
  by_cases hb : Trim line = []
  · simp [hb]
  · have he := err_of_rejected hb h
    simp only [hb, if_false, h, if_true, he]
    simp [hb]

theorem formatErrors_snoc (num : Nat → Int) (lines : List (List Nat)) (l : List Nat) :
    formatErrors num (lines ++ [l])
      = formatErrors num lines ++
          (if Trim l ≠ [] ∧ (parseAt (lines ++ [l]) lines.length).ok = false then
            [Out.formatError (num lines.length) (parseAt (lines ++ [l]) lines.length).err]
          else []) := by
  unfold formatErrors
  rw [List.length_append, List.length_singleton, List.range_succ, List.filterMap_append]
  congr 1
  · apply List.filterMap_congr
    intro i hi
    have hlt : i < lines.length := List.mem_range.mp hi
    rw [parseAt_append_lt hlt, List.getD_append _ _ _ _ hlt]
  · have hg : (lines ++ [l]).getD lines.length [] = l := by
      rw [List.getD_append_right _ _ _ _ (Nat.le_refl _)]
      simp
    simp only [List.filterMap_cons, List.filterMap_nil, hg]
    by_cases hc : Trim l ≠ [] ∧ (parseAt (lines ++ [l]) lines.length).ok = false
    · simp only [if_pos hc]
    · simp only [if_neg hc]

theorem acceptedRecords_snoc (lines : List (List Nat)) (l : List Nat) :
    acceptedRecords (lines ++ [l])
      = acceptedRecords lines ++
          (if (parseAt (lines ++ [l]) lines.length).ok = true then
            [(parseAt (lines ++ [l]) lines.length).outCourse]
          else []) := by
  unfold acceptedRecords
  rw [List.length_append, List.length_singleton, List.range_succ, List.filterMap_append]
  congr 1
  · apply List.filterMap_congr
    intro i hi
    have hlt : i < lines.length := List.mem_range.mp hi
    rw [parseAt_append_lt hlt]
  · simp only [List.filterMap_cons, List.filterMap_nil]
    by_cases hc : (parseAt (lines ++ [l]) lines.length).ok = true
    · simp only [if_pos hc]
    · simp only [if_neg hc]

/-- The read loop writes one format-error line per rejected line that is not blank
and leaves the table that inserting the accepted records in input order gives. -/
theorem loadLines_out (t0 : HashTable) (ht : Reachable t0) (hu : t0.bucketCount % 2 ^ 32 ≠ 0)
    (lines : List (List Nat)) :
    ∃ st, loadLines ⟨Clear t0, 0, true, []⟩ lines = some st ∧
      st.out = formatErrors (fun i => wrapInt ((i : Int) + 1)) lines ∧
      runOps (Clear t0) ((acceptedRecords lines).map StoreOp.insert) = some st.table := by
  induction lines using List.reverseRecOn with
  | nil => exact ⟨_, rfl, rfl, rfl⟩
  | append_singleton lines l ih =>
    obtain ⟨st, hst, hout, hrun⟩ := ih
    obtain ⟨st', hst', _, hbc, hln, hfirst, _⟩ := loadLines_inv t0 ht hu lines
    rw [hst] at hst'
    injection hst' with hst'
    subst hst'
    rw [loadLines_snoc, hst]
    simp only
    have hres : ParseLineToCourse l (wrapInt (st.lineNumber + 1)) st.isFirstNonEmptyLine
        = parseAt (lines ++ [l]) lines.length := by
      rw [parseAt_length, hln, hfirst, wrapInt_add_wrapInt]
    rw [formatErrors_snoc, acceptedRecords_snoc]
    cases hok : (parseAt (lines ++ [l]) lines.length).ok with
    | true =>
      have hok' : (ParseLineToCourse l (wrapInt (st.lineNumber + 1)) st.isFirstNonEmptyLine).ok = true := by
        rw [hres]; exact hok
      obtain ⟨t', hins⟩ := (Insert_isSome_iff st.table
        (ParseLineToCourse l (wrapInt (st.lineNumber + 1)) st.isFirstNonEmptyLine).outCourse).mpr
          (by rw [hbc]; exact hu)
      rw [loadLine_of_ok hok', hins]
      refine ⟨_, rfl, ?_, ?_⟩
      · simp [hout]
      · simp only [if_true, List.map_append, List.map_cons, List.map_nil]
        rw [runOps_append hrun, ← hres]
        simp [runOps, applyOp, hins]
    | false =>
      have hok' : (ParseLineToCourse l (wrapInt (st.lineNumber + 1)) st.isFirstNonEmptyLine).ok = false := by
        rw [hres]; exact hok
      rw [loadLine_rejected hok']
      refine ⟨_, rfl, ?_, ?_⟩
      · rw [hln, wrapInt_add_wrapInt] at hres
        simp only [hout, hln, and_true, hres, wrapInt_add_wrapInt]
      · simp [hrun]

theorem loadLines_unique {st0 st1 st2 : LoadState} {lines : List (List Nat)}
    (h1 : loadLines st0 lines = some st1) (h2 : loadLines st0 lines = some st2) : st1 = st2 := by
  rw [h1] at h2
  injection h2

/-- C14 (as amended): for every readable input, a malformed line never stops the
load. The table after the load is the one that inserting the records of all accepted
lines, in input order, into the cleared table gives, so every accepted line is
inserted whatever precedes it; the format-error lines written are one per rejected
line that is not blank, in input order, each with the 1-based number of its line
when that line is one of the first `2 ^ 31 - 1` lines of the input, and blank lines
give none. -/
theorem C14_malformed_lines_do_not_stop (fileName : List Nat) (lines : List (List Nat))
    (t0 : HashTable) (ht : Reachable t0) (hu : t0.bucketCount % 2 ^ 32 ≠ 0) :
    ∃ res, LoadCoursesFromFile fileName (some lines) t0 = some res ∧
      runOps (Clear t0) ((acceptedRecords lines).map StoreOp.insert) = some res.table ∧
      (∀ i k, AcceptsAt lines i k → ∃ r, Search res.table k = some (some r)) ∧
      ∃ num : Nat → Int, (∀ i : Nat, (i : Int) + 1 < 2147483648 → num i = (i : Int) + 1) ∧
        res.out = formatErrors num lines
          ++ (unresolvedPairs res.table).map
              (fun cp => Out.missingPrerequisite cp.1.sourceLine cp.1.courseNumber cp.2)
          ++ (if GetAllCourses res.table = [] then [Out.noValidCourses] else []) := by
  obtain ⟨st, hst, hload⟩ := LoadCoursesFromFile_eq fileName lines t0 ht hu
  obtain ⟨st1, hst1, hout, hrun⟩ := loadLines_out t0 ht hu lines
  obtain ⟨st2, hst2, _, hbc, _, _, _, hnone, _⟩ := loadLines_inv t0 ht hu lines
  have e1 := loadLines_unique hst hst1
  have e2 := loadLines_unique hst hst2
  subst e1
  subst e2
  refine ⟨_, hload, hrun, ?_, fun i => wrapInt ((i : Int) + 1), ?_, ?_⟩
  · intro i k hacc
    simp only
    obtain ⟨o, ho⟩ := Search_isSome (t := st.table) (by rw [hbc]; exact hu) k
    cases o with
    | none => exact absurd hacc ((hnone k).mp ho i)
    | some r => exact ⟨r, ho⟩
  · intro i hi
    exact wrapInt_of_lt (by omega) hi
  · simp only [hout]
    rfl

set_option maxRecDepth 20000 in
/-- C14 (witness): a 5-line input with four valid lines of distinct ids and the
malformed line `oops` in third place, loaded into the 179-bucket table of `main`:
4 stored records and exactly 1 format error, for line 3. -/
theorem C14_malformed_lines_do_not_stop_witness :
    (LoadCoursesFromFile [] (some [ascii "CSCI100,Intro", ascii "CSCI101,Second,CSCI100",
        ascii "oops", ascii "MATH1,Math", ascii "CSCI200,Algo,CSCI101"])
        (HashTable.new 179)).map (fun res => (res.ok, (GetAllCourses res.table).length, res.out))
        = some (true, 4, [Out.formatError 3 "invalid course number or title"]) ∧
      ∃ res, LoadCoursesFromFile [] (some [ascii "CSCI100,Intro", ascii "CSCI101,Second,CSCI100",
          ascii "oops", ascii "MATH1,Math", ascii "CSCI200,Algo,CSCI101"])
          (HashTable.new 179) = some res ∧
        runOps (Clear (HashTable.new 179))
          ((acceptedRecords [ascii "CSCI100,Intro", ascii "CSCI101,Second,CSCI100",
            ascii "oops", ascii "MATH1,Math", ascii "CSCI200,Algo,CSCI101"]).map
              StoreOp.insert) = some res.table ∧
        (∀ i k, AcceptsAt [ascii "CSCI100,Intro", ascii "CSCI101,Second,CSCI100",
            ascii "oops", ascii "MATH1,Math", ascii "CSCI200,Algo,CSCI101"] i k →
          ∃ r, Search res.table k = some (some r)) ∧
        ∃ num : Nat → Int, (∀ i : Nat, (i : Int) + 1 < 2147483648 → num i = (i : Int) + 1) ∧
          res.out = formatErrors num [ascii "CSCI100,Intro", ascii "CSCI101,Second,CSCI100",
              ascii "oops", ascii "MATH1,Math", ascii "CSCI200,Algo,CSCI101"]
            ++ (unresolvedPairs res.table).map
                (fun cp => Out.missingPrerequisite cp.1.sourceLine cp.1.courseNumber cp.2)
            ++ (if GetAllCourses res.table = [] then [Out.noValidCourses] else []) :=
  ⟨by decide,
    C14_malformed_lines_do_not_stop [] [ascii "CSCI100,Intro", ascii "CSCI101,Second,CSCI100",
      ascii "oops", ascii "MATH1,Math", ascii "CSCI200,Algo,CSCI101"] (HashTable.new 179)
      (Reachable.new 179) (by decide)⟩

theorem loadLines_blank (t : HashTable) (n : Nat) :
    loadLines ⟨t, 0, true, []⟩ (List.replicate n [])
      = some ⟨t, wrapInt (n : Int), true, []⟩ := by
  induction n with
  | zero => simp [loadLines, wrapInt_zero]
  | succ n ih =>
    rw [List.replicate_succ', loadLines_snoc, ih]
    simp only
    have hb : Trim ([] : List Nat) = [] := rfl
    unfold loadLine
    simp only [hb, if_true, wrapInt_add_wrapInt]
    push_cast
    rfl

/-- The load of `n` empty lines followed by the line `oops`: the format-error line
carries the `int lineNumber` of the loop after `n + 1` increments. -/
theorem LoadCoursesFromFile_blank_lines_oops (n : Nat) (m : Int)
    (hm : wrapInt ((n : Int) + 1) = m) :
    (List.replicate n ([] : List Nat) ++ [ascii "oops"]).length = n + 1 ∧
      LoadCoursesFromFile [] (some (List.replicate n [] ++ [ascii "oops"])) (HashTable.new 179)
        = some ⟨false, HashTable.new 179,
            [Out.formatError m "invalid course number or title", Out.noValidCourses]⟩ := by
  refine ⟨by simp, ?_⟩
  have hc : Clear (HashTable.new 179) = HashTable.new 179 := by
    have := Clear_eq (HashTable.new 179) (Inv_new _).size_eq
    simpa [HashTable.new] using this
  have hv : ValidatePrerequisites (HashTable.new 179) = some ([], 0) := by
    rw [ValidatePrerequisites_eq (Inv_new _)]
    simp [unresolvedPairs, GetAllCourses_new, wrapInt_zero]
  have hp : ∀ k : Int, ParseLineToCourse (ascii "oops") k true
      = ⟨false, ⟨[], [], [], k⟩, "invalid course number or title"⟩ := by
    intro k
    exact ParseLineToCourse_short (by decide) (by decide) k true
  have hl : loadLines ⟨HashTable.new 179, 0, true, []⟩ (List.replicate n [] ++ [ascii "oops"])
      = some ⟨HashTable.new 179, m, false,
          [Out.formatError m "invalid course number or title"]⟩ := by
    rw [loadLines_snoc, loadLines_blank]
    simp only
    have hok : (ParseLineToCourse (ascii "oops") (wrapInt ((⟨HashTable.new 179, wrapInt (n : Int),
        true, []⟩ : LoadState).lineNumber + 1))
        (⟨HashTable.new 179, wrapInt (n : Int), true, []⟩ : LoadState).isFirstNonEmptyLine).ok
        = false := by
      rw [hp]
    rw [loadLine_rejected hok]
    simp only [wrapInt_add_wrapInt, hm, hp]
    have hne : Trim (ascii "oops") ≠ [] := by decide
    simp [hne]
  unfold LoadCoursesFromFile
  simp only [hc, hl, hv, GetAllCourses_new, if_true]
  rfl

/-- C14 (as stated, refuted): an input of `2 ^ 31` lines, all empty but the last,
which is the malformed line `oops`. The one format-error line written for it, for
line `2 ^ 31` of the input, carries the line number `-2 ^ 31`: the `int lineNumber`
of the read loop has wrapped. -/
theorem C14_line_number_wraps :
    (List.replicate 2147483647 ([] : List Nat) ++ [ascii "oops"]).length = 2147483648 ∧
      LoadCoursesFromFile [] (some (List.replicate 2147483647 [] ++ [ascii "oops"]))
          (HashTable.new 179)
        = some ⟨false, HashTable.new 179,
            [Out.formatError (-2147483648) "invalid course number or title",
              Out.noValidCourses]⟩ :=
  LoadCoursesFromFile_blank_lines_oops 2147483647 (-2147483648) (by decide)

theorem not_acceptsAt_of_blank {lines : List (List Nat)} (h : ∀ l ∈ lines, Trim l = [])
    (i : Nat) (k : List Nat) : ¬ AcceptsAt lines i k := by
  rintro ⟨hi, hok, _⟩
  unfold parseAt at hok
  have hl : lines.getD i [] ∈ lines := by
    rw [List.getD_eq_getElem _ _ hi]
    exact List.getElem_mem hi
  exact ParseLineToCourse_ok_not_blank hok (h _ hl)

/-- C15: for every input whose source opens, `LoadCoursesFromFile` returns success
exactly when the store holds at least one record when the load finishes, that is,
exactly when at least one line of the input is accepted by `ParseLineToCourse`;
whether prerequisites are unresolved plays no part. An input without a non-blank
line makes the load report failure. -/
theorem C15_success_iff_some_record (fileName : List Nat) (lines : List (List Nat))
    (t0 : HashTable) (ht : Reachable t0) (hu : t0.bucketCount % 2 ^ 32 ≠ 0) :
    ∃ res, LoadCoursesFromFile fileName (some lines) t0 = some res ∧
      (res.ok = true ↔ GetAllCourses res.table ≠ []) ∧
      (res.ok = true ↔ ∃ i k, AcceptsAt lines i k) ∧
      ((∀ l ∈ lines, Trim l = []) → res.ok = false) := by
  obtain ⟨st, hst, hload⟩ := LoadCoursesFromFile_eq fileName lines t0 ht hu
  obtain ⟨st2, hst2, hreach, hbc, _, _, hsome, hnone, _⟩ := loadLines_inv t0 ht hu lines
  have e2 := loadLines_unique hst hst2
  subst e2
  have hu' : st.table.bucketCount % 2 ^ 32 ≠ 0 := by rw [hbc]; exact hu
  have hiff : GetAllCourses st.table ≠ [] ↔ ∃ i k, AcceptsAt lines i k := by
    constructor
    · intro hne
      obtain ⟨c, hc⟩ := List.exists_mem_of_ne_nil _ hne
      have hs := (Search_eq_some_iff hreach.inv hu' c.courseNumber c).mpr ⟨hc, rfl⟩
      obtain ⟨i, hacc, _⟩ := (hsome _ _).mp hs
      exact ⟨i, _, hacc⟩
    · rintro ⟨i, k, hacc⟩ he
      obtain ⟨o, ho⟩ := Search_isSome (t := st.table) hu' k
      cases o with
      | none => exact (hnone k).mp ho i hacc
      | some r =>
        have := ((Search_eq_some_iff hreach.inv hu' k r).mp ho).1
        rw [he] at this
        cases this
  have hok : (!decide (GetAllCourses st.table = [])) = true ↔ GetAllCourses st.table ≠ [] := by
    simp
  refine ⟨_, hload, hok, hok.trans hiff, ?_⟩
  intro hblank
  simp only
  have : GetAllCourses st.table = [] := by
    by_contra hne
    obtain ⟨i, k, hacc⟩ := hiff.mp hne
    exact not_acceptsAt_of_blank hblank i k hacc
  simp [this]

set_option maxRecDepth 20000 in
/-- C15 (witness): on the 179-bucket table of `main`, an input of two blank lines
reports failure and leaves the store empty, and the one-line input
`CSCI101,Intro,MATH999` reports success although its prerequisite is unresolved. -/
theorem C15_success_iff_some_record_witness :
    LoadCoursesFromFile [] (some [ascii "  ", []]) (HashTable.new 179)
        = some ⟨false, HashTable.new 179, [Out.noValidCourses]⟩ ∧
      LoadCoursesFromFile [] (some []) (HashTable.new 179)
        = some ⟨false, HashTable.new 179, [Out.noValidCourses]⟩ ∧
      (LoadCoursesFromFile [] (some [ascii "CSCI101,Intro,MATH999"]) (HashTable.new 179)).map
          (fun res => (res.ok, res.out))
        = some (true, [Out.missingPrerequisite 1 (ascii "CSCI101") (ascii "MATH999")]) ∧
      ∃ res, LoadCoursesFromFile [] (some [ascii "  ", []]) (HashTable.new 179) = some res ∧
        (res.ok = true ↔ GetAllCourses res.table ≠ []) ∧
        (res.ok = true ↔ ∃ i k, AcceptsAt [ascii "  ", []] i k) ∧
        ((∀ l ∈ [ascii "  ", []], Trim l = []) → res.ok = false) :=
  ⟨by decide, by decide, by decide,
    C15_success_iff_some_record [] [ascii "  ", []] (HashTable.new 179)
      (Reachable.new 179) (by decide)⟩

/-- C16: a load is a full replace. For every prior store state and every input
whose source opens, `LoadCoursesFromFile` gives the same result (returned flag,
table, hence the same `GetAllCourses` and the same `Search` on every key, and
lines written) as the load of the same input into a freshly constructed store of
the same bucket count; every record held afterwards comes from an accepted line
of the input, so no record from before the load survives, also when the load
ends with zero records. -/
theorem C16_load_is_full_replace (fileName : List Nat) (lines : List (List Nat))
    (t : HashTable) (ht : Reachable t) :
    LoadCoursesFromFile fileName (some lines) t
        = LoadCoursesFromFile fileName (some lines) (HashTable.new t.bucketCount) ∧
      (t.bucketCount % 2 ^ 32 ≠ 0 →
        ∃ res, LoadCoursesFromFile fileName (some lines) t = some res ∧
          ∀ c ∈ GetAllCourses res.table,
            ∃ i, AcceptsAt lines i c.courseNumber ∧ c = (parseAt lines i).outCourse) := by
  constructor
  · unfold LoadCoursesFromFile
    have h1 : Clear t = HashTable.new t.bucketCount := Clear_eq t ht.inv.size_eq
    have h2 : Clear (HashTable.new t.bucketCount) = HashTable.new t.bucketCount := by
      have := Clear_eq (HashTable.new t.bucketCount) (Inv_new _).size_eq
      simpa [HashTable.new] using this
    simp only [h1, h2]
  · intro hu
    obtain ⟨st, hst, hload⟩ := LoadCoursesFromFile_eq fileName lines t ht hu
    obtain ⟨st2, hst2, hreach, hbc, _, _, hsome, _, _⟩ := loadLines_inv t ht hu lines
    have e2 := loadLines_unique hst hst2
    subst e2
    refine ⟨_, hload, ?_⟩
    intro c hc
    simp only at hc
    have hs := (Search_eq_some_iff hreach.inv (by rw [hbc]; exact hu) c.courseNumber c).mpr
      ⟨hc, rfl⟩
    obtain ⟨i, hacc, hr, _⟩ := (hsome _ _).mp hs
    exact ⟨i, hacc, hr.symm⟩

set_option maxRecDepth 20000 in
/-- C16 (witness): a 3-bucket table that holds `CS` and `M` is reloaded, once with
the one-line input `MATH1,Math` and once with a blank input; neither old record
survives. -/
theorem C16_load_is_full_replace_witness :
    Reachable ⟨3, [[⟨[67, 83], [68], [], 4⟩], [], [⟨[77], [69], [], 5⟩]]⟩ ∧
      LoadCoursesFromFile [] (some [ascii "MATH1,Math"])
          ⟨3, [[⟨[67, 83], [68], [], 4⟩], [], [⟨[77], [69], [], 5⟩]]⟩
        = some ⟨true, ⟨3, [[], [], [⟨ascii "MATH1", ascii "Math", [], 1⟩]]⟩, []⟩ ∧
      LoadCoursesFromFile [] (some [ascii " "])
          ⟨3, [[⟨[67, 83], [68], [], 4⟩], [], [⟨[77], [69], [], 5⟩]]⟩
        = some ⟨false, HashTable.new 3, [Out.noValidCourses]⟩ ∧
      LoadCoursesFromFile [] (some [ascii "MATH1,Math"])
          ⟨3, [[⟨[67, 83], [68], [], 4⟩], [], [⟨[77], [69], [], 5⟩]]⟩
        = LoadCoursesFromFile [] (some [ascii "MATH1,Math"]) (HashTable.new 3) ∧
      ((3 : Nat) % 2 ^ 32 ≠ 0 →
        ∃ res, LoadCoursesFromFile [] (some [ascii "MATH1,Math"])
            ⟨3, [[⟨[67, 83], [68], [], 4⟩], [], [⟨[77], [69], [], 5⟩]]⟩ = some res ∧
          ∀ c ∈ GetAllCourses res.table,
            ∃ i, AcceptsAt [ascii "MATH1,Math"] i c.courseNumber ∧
              c = (parseAt [ascii "MATH1,Math"] i).outCourse) :=
  ⟨⟨3, [.insert ⟨[67, 83], [68], [], 4⟩, .insert ⟨[77], [69], [], 5⟩], by decide⟩,
    by decide, by decide,
    C16_load_is_full_replace [] [ascii "MATH1,Math"]
      ⟨3, [[⟨[67, 83], [68], [], 4⟩], [], [⟨[77], [69], [], 5⟩]]⟩
      ⟨3, [.insert ⟨[67, 83], [68], [], 4⟩, .insert ⟨[77], [69], [], 5⟩], by decide⟩⟩

/-! ## The single-course description -/

theorem foldl_printPrerequisites (ps : List (List Nat)) (n : Nat) (hn : n < ps.length) :
    (List.range n).foldl
        (fun listing i =>
          listing ++ ps.getD i [] ++ (if i + 1 < ps.length then [44, 32] else []))
        []
      = ((ps.take n).map (fun p => p ++ [44, 32])).flatten := by
  induction n with
  | zero => simp
  | succ k ih =>
    have hk : k < ps.length := by omega
    rw [List.range_succ, List.foldl_append, ih hk]
    simp only [List.foldl_cons, List.foldl_nil, if_pos hn, List.take_succ,
      List.getElem?_eq_getElem hk, Option.toList_some, List.map_append, List.map_cons,
      List.map_nil, List.flatten_append, List.getD_eq_getElem _ _ hk]
    simp

theorem printPrerequisites_snoc (init : List (List Nat)) (last : List Nat) :
    printPrerequisites (init ++ [last])
      = (init.map (fun p => p ++ [44, 32])).flatten ++ last := by
  unfold printPrerequisites
  rw [List.length_append, List.length_singleton, List.range_succ, List.foldl_append]
  have h := foldl_printPrerequisites (init ++ [last]) init.length (by simp)
  simp only [List.length_append, List.length_singleton] at h
  rw [h]
  simp

theorem intercalate_snoc (sep : List Nat) (init : List (List Nat)) (last : List Nat) :
    List.intercalate sep (init ++ [last]) = (init.map (fun p => p ++ sep)).flatten ++ last := by
  induction init with
  | nil => simp [List.intercalate]
  | cons a init ih =>
    cases init with
    | nil => simp [List.intercalate]
    | cons b rest =>
      simp only [List.intercalate, List.cons_append, List.intersperse, List.flatten_cons,
        List.map_cons, List.append_assoc] at ih ⊢
      exact congrArg (fun x => a ++ (sep ++ x)) ih

/-- The loop over the prerequisites writes them joined by `", "`. -/
theorem printPrerequisites_eq (ps : List (List Nat)) :
    printPrerequisites ps = List.intercalate [44, 32] ps := by
  induction ps using List.reverseRecOn with
  | nil => rfl
  | append_singleton init last _ =>
    rw [printPrerequisites_snoc, intercalate_snoc]

/-- C11 (as amended): for every store whose bucket count, converted to
`unsigned int`, is not zero, and every raw id, `PrintSingleCourse` gives the not-found
line exactly when no stored record has `courseNumber = NormalizeId(rawId)`;
otherwise it writes the number and title of that record and then the prerequisite
line, which is the marker `None` exactly when the record has no prerequisites and
otherwise lists them joined by `", "` in stored order, as they are. -/
theorem C11_describe (t : HashTable) (rawId : List Nat) (ht : Reachable t)
    (hu : t.bucketCount % 2 ^ 32 ≠ 0) :
    ∃ out, PrintSingleCourse t rawId = some out ∧
      (out = [Out.courseNotFound (NormalizeId rawId)]
        ↔ ∀ c ∈ GetAllCourses t, c.courseNumber ≠ NormalizeId rawId) ∧
      (∀ c ∈ GetAllCourses t, c.courseNumber = NormalizeId rawId →
        out = [Out.courseLine c.courseNumber c.courseTitle,
          if c.prerequisites = [] then Out.prerequisitesNone
          else Out.prerequisites (List.intercalate [44, 32] c.prerequisites)]) := by
  unfold PrintSingleCourse
  obtain ⟨o, ho⟩ := Search_isSome hu (NormalizeId rawId)
  rw [ho]
  cases o with
  | none =>
    have hno := (Search_eq_none_iff ht.inv hu _).mp ho
    refine ⟨_, rfl, ⟨fun _ => hno, fun _ => rfl⟩, ?_⟩
    intro c hc hk
    exact absurd hk (hno c hc)
  | some r =>
    have hr := (Search_eq_some_iff ht.inv hu _ r).mp ho
    have huniq : ∀ c ∈ GetAllCourses t, c.courseNumber = NormalizeId rawId → c = r := by
      intro c hc hk
      have hs := (Search_eq_some_iff ht.inv hu _ c).mpr ⟨hc, hk⟩
      rw [ho] at hs
      injection hs with hs
      injection hs with hs
      exact hs.symm
    by_cases hp : r.prerequisites = []
    · simp only [hp, if_true]
      refine ⟨_, rfl, ?_, ?_⟩
      · constructor
        · intro h; cases h
        · intro h; exact absurd hr.2 (h r hr.1)
      · intro c hc hk
        rw [huniq c hc hk]
        simp [hp]
    · simp only [hp, if_false]
      refine ⟨_, rfl, ?_, ?_⟩
      · constructor
        · intro h; cases h
        · intro h; exact absurd hr.2 (h r hr.1)
      · intro c hc hk
        rw [huniq c hc hk, printPrerequisites_eq]
        simp [hp]

set_option maxRecDepth 20000 in
/-- C11 (witness): after loading `CSCI101, Intro to CS,CSCI100` and
`CSCI100,  Pre-CS` into the 179-bucket table of `main`, describing `csci101` gives
the title `Intro to CS` and the prerequisites `CSCI100`; `CSCI100` has the marker
`None`, and `csci999` is not found. -/
theorem C11_describe_witness :
    Reachable ⟨179, ((List.replicate 179 []).set 63
        [⟨ascii "CSCI101", ascii "Intro to CS", [ascii "CSCI100"], 1⟩]).set 62
        [⟨ascii "CSCI100", ascii "Pre-CS", [], 2⟩]⟩ ∧
      PrintSingleCourse ⟨179, ((List.replicate 179 []).set 63
          [⟨ascii "CSCI101", ascii "Intro to CS", [ascii "CSCI100"], 1⟩]).set 62
          [⟨ascii "CSCI100", ascii "Pre-CS", [], 2⟩]⟩ (ascii "csci101")
        = some [Out.courseLine (ascii "CSCI101") (ascii "Intro to CS"),
            Out.prerequisites (ascii "CSCI100")] ∧
      PrintSingleCourse ⟨179, ((List.replicate 179 []).set 63
          [⟨ascii "CSCI101", ascii "Intro to CS", [ascii "CSCI100"], 1⟩]).set 62
          [⟨ascii "CSCI100", ascii "Pre-CS", [], 2⟩]⟩ (ascii " csci100")
        = some [Out.courseLine (ascii "CSCI100") (ascii "Pre-CS"), Out.prerequisitesNone] ∧
      PrintSingleCourse ⟨179, ((List.replicate 179 []).set 63
          [⟨ascii "CSCI101", ascii "Intro to CS", [ascii "CSCI100"], 1⟩]).set 62
          [⟨ascii "CSCI100", ascii "Pre-CS", [], 2⟩]⟩ (ascii "csci999")
        = some [Out.courseNotFound (ascii "CSCI999")] ∧
      printPrerequisites [ascii "B", ascii "A", ascii "B"] = ascii "B, A, B" ∧
      ∃ out, PrintSingleCourse ⟨179, ((List.replicate 179 []).set 63
          [⟨ascii "CSCI101", ascii "Intro to CS", [ascii "CSCI100"], 1⟩]).set 62
          [⟨ascii "CSCI100", ascii "Pre-CS", [], 2⟩]⟩ (ascii "csci101") = some out ∧
        (out = [Out.courseNotFound (NormalizeId (ascii "csci101"))]
          ↔ ∀ c ∈ GetAllCourses ⟨179, ((List.replicate 179 []).set 63
              [⟨ascii "CSCI101", ascii "Intro to CS", [ascii "CSCI100"], 1⟩]).set 62
              [⟨ascii "CSCI100", ascii "Pre-CS", [], 2⟩]⟩,
            c.courseNumber ≠ NormalizeId (ascii "csci101")) ∧
        (∀ c ∈ GetAllCourses ⟨179, ((List.replicate 179 []).set 63
              [⟨ascii "CSCI101", ascii "Intro to CS", [ascii "CSCI100"], 1⟩]).set 62
              [⟨ascii "CSCI100", ascii "Pre-CS", [], 2⟩]⟩,
          c.courseNumber = NormalizeId (ascii "csci101") →
          out = [Out.courseLine c.courseNumber c.courseTitle,
            if c.prerequisites = [] then Out.prerequisitesNone
            else Out.prerequisites (List.intercalate [44, 32] c.prerequisites)]) :=
  ⟨⟨179, [.insert ⟨ascii "CSCI101", ascii "Intro to CS", [ascii "CSCI100"], 1⟩,
      .insert ⟨ascii "CSCI100", ascii "Pre-CS", [], 2⟩], by decide⟩,
    by decide, by decide, by decide, by decide,
    C11_describe _ (ascii "csci101")
      ⟨179, [.insert ⟨ascii "CSCI101", ascii "Intro to CS", [ascii "CSCI100"], 1⟩,
        .insert ⟨ascii "CSCI100", ascii "Pre-CS", [], 2⟩], by decide⟩ (by decide)⟩

/-- C11 (as stated, refuted): a freshly constructed table without buckets is a
store and holds no record with the id `CSCI101`, yet `PrintSingleCourse` does not
give the not-found line for `csci101`: it has no defined result, because `Search`
takes a remainder by zero. -/
theorem C11_no_answer_without_buckets :
    Reachable (HashTable.new 0) ∧
      (∀ c ∈ GetAllCourses (HashTable.new 0), c.courseNumber ≠ NormalizeId (ascii "csci101")) ∧
      PrintSingleCourse (HashTable.new 0) (ascii "csci101") = none ∧
      PrintSingleCourse (HashTable.new 0) (ascii "csci101")
        ≠ some [Out.courseNotFound (NormalizeId (ascii "csci101"))] :=
  ⟨Reachable.new _, by decide, by decide, by decide⟩

/-! ## The byte-order mark -/

theorem splitLoop_append_of_no_delimiter (d : Nat) (pre s token : List Nat)
    (h : ∀ c ∈ pre, c ≠ d) :
    splitLoop d (pre ++ s) token = splitLoop d s (token ++ pre) := by
  induction pre generalizing token with
  | nil => simp
  | cons c pre ih =>
    have hc : c ≠ d := h c (List.mem_cons_self _ _)
    rw [List.cons_append]
    conv_lhs => unfold splitLoop
    rw [if_neg hc, ih _ (fun x hx => h x (List.mem_cons_of_mem _ hx))]
    simp

theorem splitLoop_token (d : Nat) {s : List Nat} (hs : s ≠ []) :
    ∃ f0 rest, ∀ token, splitLoop d s token = (token ++ f0) :: rest := by
  induction s with
  | nil => exact absurd rfl hs
  | cons c s ih =>
    by_cases hc : c = d
    · refine ⟨[], splitLoop d s [], ?_⟩
      intro token
      conv_lhs => unfold splitLoop
      simp [hc]
    · by_cases hs' : s = []
      · subst hs'
        refine ⟨[c], [], ?_⟩
        intro token
        simp [splitLoop, hc]
      · obtain ⟨f0, rest, h⟩ := ih hs'
        refine ⟨c :: f0, rest, ?_⟩
        intro token
        conv_lhs => unfold splitLoop
        rw [if_neg hc, h]
        simp

theorem Trim_bom_append (l : List Nat) :
    Trim (239 :: 187 :: 191 :: l) = 239 :: 187 :: 191 :: List.rdropWhile isWhitespace l := by
  rw [Trim_cons_of_not_whitespace (by decide), rdropWhile_cons_of_neg (by decide),
    rdropWhile_cons_of_neg (by decide)]

theorem not_whitespace_comma : isWhitespace 44 = false := by decide

/-- C18: when the first-data-line flag is set, a UTF-8 byte-order mark (bytes
EF BB BF) at the start of the line is stripped and never becomes part of the
parsed id: for every line `l` that is not blank after trimming and every line
number `n`, `ParseLineToCourse(BOM ++ l, n, true)` gives the same result, record
and failure reason included, as `ParseLineToCourse(l, n, false)`. -/
theorem C18_bom_is_stripped (l : List Nat) (n : Int) (hl : Trim l ≠ []) :
    ParseLineToCourse ([0xEF, 0xBB, 0xBF] ++ l) n true = ParseLineToCourse l n false := by
  have hT : Trim ([0xEF, 0xBB, 0xBF] ++ l)
      = 239 :: 187 :: 191 :: List.rdropWhile isWhitespace l := Trim_bom_append l
  have hbody : Trim l = List.dropWhile isWhitespace (List.rdropWhile isWhitespace l) :=
    Trim_eq' l
  have hsplit := List.takeWhile_append_dropWhile isWhitespace (List.rdropWhile isWhitespace l)
  rw [← hbody] at hsplit
  have hw : ∀ c ∈ List.takeWhile isWhitespace (List.rdropWhile isWhitespace l),
      isWhitespace c = true := fun c hc => List.mem_takeWhile_imp hc
  obtain ⟨f0, rest, htok⟩ := splitLoop_token 44 hl
  have hS1 : Split (Trim l) 44 = f0 :: rest := by
    unfold Split
    rw [htok]
    rfl
  have hS2 : Split (Trim ([0xEF, 0xBB, 0xBF] ++ l)) 44
      = (239 :: 187 :: 191 ::
          (List.takeWhile isWhitespace (List.rdropWhile isWhitespace l) ++ f0)) :: rest := by
    rw [hT]
    unfold Split
    conv_lhs => rw [← hsplit]
    have := splitLoop_append_of_no_delimiter 44
      (239 :: 187 :: 191 :: List.takeWhile isWhitespace (List.rdropWhile isWhitespace l))
      (Trim l) [] (by
        intro c hc
        simp only [List.mem_cons] at hc
        rcases hc with h | h | h | h
        · omega
        · omega
        · omega
        · intro e
          have := hw c h
          rw [e, not_whitespace_comma] at this
          cases this)
    simp only [List.cons_append] at this ⊢
    rw [this, htok]
    rfl
  have hne : Trim ([0xEF, 0xBB, 0xBF] ++ l) ≠ [] := by rw [hT]; simp
  cases rest with
  | nil =>
    rw [ParseLineToCourse_short hne (by rw [hS2]; simp),
      ParseLineToCourse_short hl (by rw [hS1]; simp)]
  | cons f1 rest' =>
    rw [ParseLineToCourse_fields hS2, ParseLineToCourse_fields hS1]
    simp only [if_true, Bool.false_eq_true, if_false, StripBOM_bom]
    have hcn : NormalizeId
        (List.takeWhile isWhitespace (List.rdropWhile isWhitespace l) ++ f0)
        = NormalizeId f0 := by
      unfold NormalizeId
      have := Trim_append_whitespace (q := []) f0
        (fun c hc => by
          have := hw c hc
          simpa [isWhitespace] using this)
        (fun c hc => by cases hc)
      rw [List.append_nil] at this
      rw [this]
    rw [hcn]

/-- C18 (witness): the line `  csci101 , Intro,x` with and without the mark. -/
theorem C18_bom_is_stripped_witness :
    Trim (ascii "  csci101 , Intro,x") ≠ [] ∧
      ParseLineToCourse ([0xEF, 0xBB, 0xBF] ++ ascii "  csci101 , Intro,x") 1 true
        = ⟨true, ⟨ascii "CSCI101", ascii "Intro", [ascii "X"], 1⟩, ""⟩ ∧
      ParseLineToCourse ([0xEF, 0xBB, 0xBF] ++ ascii "  csci101 , Intro,x") 1 true
        = ParseLineToCourse (ascii "  csci101 , Intro,x") 1 false :=
  ⟨by decide, by decide, C18_bom_is_stripped (ascii "  csci101 , Intro,x") 1 (by decide)⟩

/-! ## Independence of the bucket layout -/

theorem applyOp_bucketCount {t t' : HashTable} {op : StoreOp} (h : applyOp t op = some t') :
    t'.bucketCount = t.bucketCount := by
  cases op with
  | insert c => exact Insert_bucketCount h
  | clear =>
    simp only [applyOp, Option.some.injEq] at h
    rw [← h]
    rfl

theorem runOps_isSome {t : HashTable} (hu : t.bucketCount % 2 ^ 32 ≠ 0) (ops : List StoreOp) :
    ∃ t', runOps t ops = some t' := by
  induction ops generalizing t with
  | nil => exact ⟨t, rfl⟩
  | cons op ops ih =>
    unfold runOps
    have hop : ∃ t1, applyOp t op = some t1 := by
      cases op with
      | insert c => exact (Insert_isSome_iff t c).mpr hu
      | clear => exact ⟨_, rfl⟩
    obtain ⟨t1, h1⟩ := hop
    rw [h1]
    exact ih (by rw [applyOp_bucketCount h1]; exact hu)

theorem runOps_bucketCount {t t' : HashTable} {ops : List StoreOp}
    (h : runOps t ops = some t') : t'.bucketCount = t.bucketCount := by
  induction ops generalizing t with
  | nil =>
    simp only [runOps, Option.some.injEq] at h
    rw [h]
  | cons op ops ih =>
    unfold runOps at h
    cases ha : applyOp t op with
    | none => rw [ha] at h; cases h
    | some t1 =>
      rw [ha] at h
      rw [ih h, applyOp_bucketCount ha]

theorem Search_applyOp_congr {t1 t2 t1' t2' : HashTable} {op : StoreOp}
    (hi1 : Inv t1) (hi2 : Inv t2)
    (hu1 : t1.bucketCount % 2 ^ 32 ≠ 0) (hu2 : t2.bucketCount % 2 ^ 32 ≠ 0)
    (hs : ∀ k, Search t1 k = Search t2 k)
    (h1 : applyOp t1 op = some t1') (h2 : applyOp t2 op = some t2') (k : List Nat) :
    Search t1' k = Search t2' k := by
  cases op with
  | insert c =>
    rw [Search_Insert hi1.size_eq h1, Search_Insert hi2.size_eq h2, hs k]
  | clear =>
    simp only [applyOp, Option.some.injEq] at h1 h2
    rw [← h1, ← h2, Search_Clear hi1.size_eq hu1, Search_Clear hi2.size_eq hu2]

theorem Search_runOps_congr {t1 t2 t1' t2' : HashTable} {ops : List StoreOp}
    (hi1 : Inv t1) (hi2 : Inv t2)
    (hu1 : t1.bucketCount % 2 ^ 32 ≠ 0) (hu2 : t2.bucketCount % 2 ^ 32 ≠ 0)
    (hs : ∀ k, Search t1 k = Search t2 k)
    (h1 : runOps t1 ops = some t1') (h2 : runOps t2 ops = some t2') (k : List Nat) :
    Search t1' k = Search t2' k := by
  induction ops generalizing t1 t2 with
  | nil =>
    simp only [runOps, Option.some.injEq] at h1 h2
    rw [← h1, ← h2]
    exact hs k
  | cons op ops ih =>
    unfold runOps at h1 h2
    cases ha1 : applyOp t1 op with
    | none => rw [ha1] at h1; cases h1
    | some u1 =>
      cases ha2 : applyOp t2 op with
      | none => rw [ha2] at h2; cases h2
      | some u2 =>
        rw [ha1] at h1
        rw [ha2] at h2
        exact ih (Inv_applyOp hi1 ha1) (Inv_applyOp hi2 ha2)
          (by rw [applyOp_bucketCount ha1]; exact hu1)
          (by rw [applyOp_bucketCount ha2]; exact hu2)
          (Search_applyOp_congr hi1 hi2 hu1 hu2 hs ha1 ha2) h1 h2

theorem GetAllCourses_perm_of_Search {t1 t2 : HashTable} (hi1 : Inv t1) (hi2 : Inv t2)
    (hu1 : t1.bucketCount % 2 ^ 32 ≠ 0) (hu2 : t2.bucketCount % 2 ^ 32 ≠ 0)
    (hs : ∀ k, Search t1 k = Search t2 k) :
    (GetAllCourses t1).Perm (GetAllCourses t2) := by
  rw [List.perm_ext_iff_of_nodup (List.Nodup.of_map _ (nodup_keys hi1))
    (List.Nodup.of_map _ (nodup_keys hi2))]
  intro x
  have h1 := Search_eq_some_iff hi1 hu1 x.courseNumber x
  have h2 := Search_eq_some_iff hi2 hu2 x.courseNumber x
  simp only [and_true] at h1 h2
  rw [← h1, ← h2, hs]

theorem stdSort_eq_of_perm {l1 l2 : List Course} (hp : l1.Perm l2)
    (hnd : (l1.map Course.courseNumber).Nodup) :
    stdSort courseLess l1 = stdSort courseLess l2 := by
  have hperm : (stdSort courseLess l1).Perm (stdSort courseLess l2) :=
    (perm_stdSort _ l1).trans (hp.trans (perm_stdSort _ l2).symm)
  have key : ∀ l : List Course, l.Perm l1 →
      (stdSort courseLess l).Pairwise (fun a b => a.courseNumber < b.courseNumber) := by
    intro l hl
    have hn : ((stdSort courseLess l).map Course.courseNumber).Nodup :=
      ((((perm_stdSort courseLess l).trans hl).map Course.courseNumber).nodup_iff).mpr hnd
    have hn' : (stdSort courseLess l).Pairwise
        (fun a b => a.courseNumber ≠ b.courseNumber) := List.pairwise_map.mp hn
    exact ((pairwise_stdSort l).and hn').imp
      (fun h => lt_of_le_of_ne (not_lt.mp h.1) h.2)
  haveI : IsAntisymm Course (fun a b => a.courseNumber < b.courseNumber) :=
    ⟨fun a b h1 h2 => absurd h2 (lt_asymm h1)⟩
  exact List.eq_of_perm_of_sorted hperm (key l1 (List.Perm.refl _)) (key l2 hp.symm)

theorem unresolvedPairs_length_congr {t1 t2 : HashTable}
    (hp : (GetAllCourses t1).Perm (GetAllCourses t2)) (hs : ∀ k, Search t1 k = Search t2 k) :
    (unresolvedPairs t1).length = (unresolvedPairs t2).length := by
  unfold unresolvedPairs
  have hf : (fun p => decide (Search t1 p = some none))
      = (fun p => decide (Search t2 p = some none)) := by
    funext p
    rw [hs p]
  rw [hf]
  exact (List.Perm.flatMap_right _ hp).length_eq

/-- C19: observable behaviour does not depend on the bucket layout. For every two
bucket counts `b1`, `b2` with `0 < b1, b2 < 2 ^ 32` and every sequence of `Insert`
and `Clear` operations applied to a fresh `HashTable(b1)` and a fresh
`HashTable(b2)`, both runs are defined, `Search` returns the same result for
every key in both stores, `PrintCourseListSorted` prints the same sequence in
both, and `ValidatePrerequisites` returns the same violation count in both. -/
theorem C19_bucket_layout_unobservable (b1 b2 : Nat) (ops : List StoreOp)
    (h1 : 0 < b1 ∧ b1 < 2 ^ 32) (h2 : 0 < b2 ∧ b2 < 2 ^ 32) :
    ∃ t1 t2 v1 v2, runOps (HashTable.new b1) ops = some t1 ∧
      runOps (HashTable.new b2) ops = some t2 ∧
      (∀ k, Search t1 k = Search t2 k) ∧
      sortedCourses t1 = sortedCourses t2 ∧
      PrintCourseListSorted t1 = PrintCourseListSorted t2 ∧
      ValidatePrerequisites t1 = some v1 ∧ ValidatePrerequisites t2 = some v2 ∧
      v1.2 = v2.2 := by
  have hu1 : (HashTable.new b1).bucketCount % 2 ^ 32 ≠ 0 := by
    show b1 % 2 ^ 32 ≠ 0
    rw [Nat.mod_eq_of_lt h1.2]; omega
  have hu2 : (HashTable.new b2).bucketCount % 2 ^ 32 ≠ 0 := by
    show b2 % 2 ^ 32 ≠ 0
    rw [Nat.mod_eq_of_lt h2.2]; omega
  obtain ⟨t1, hr1⟩ := runOps_isSome hu1 ops
  obtain ⟨t2, hr2⟩ := runOps_isSome hu2 ops
  have hi1 := Inv_runOps (Inv_new b1) hr1
  have hi2 := Inv_runOps (Inv_new b2) hr2
  have hu1' : t1.bucketCount % 2 ^ 32 ≠ 0 := by rw [runOps_bucketCount hr1]; exact hu1
  have hu2' : t2.bucketCount % 2 ^ 32 ≠ 0 := by rw [runOps_bucketCount hr2]; exact hu2
  have hs0 : ∀ k, Search (HashTable.new b1) k = Search (HashTable.new b2) k := by
    intro k
    rw [(Search_eq_none_iff (Inv_new b1) hu1 k).mpr (by simp [GetAllCourses_new]),
      (Search_eq_none_iff (Inv_new b2) hu2 k).mpr (by simp [GetAllCourses_new])]
  have hs := Search_runOps_congr (Inv_new b1) (Inv_new b2) hu1 hu2 hs0 hr1 hr2
  have hp := GetAllCourses_perm_of_Search hi1 hi2 hu1' hu2' hs
  have hsorted : sortedCourses t1 = sortedCourses t2 :=
    stdSort_eq_of_perm hp (nodup_keys hi1)
  refine ⟨t1, t2, _, _, hr1, hr2, hs, hsorted, ?_, ValidatePrerequisites_eq hi1,
    ValidatePrerequisites_eq hi2, ?_⟩
  · unfold PrintCourseListSorted
    rw [hsorted]
  · simp only
    rw [unresolvedPairs_length_congr hp hs]

/-- C19 (witness): the same four operations on a 3-bucket and on a 179-bucket
table: the chains differ, the listing and the lookups do not. -/
theorem C19_bucket_layout_unobservable_witness :
    (0 < 3 ∧ 3 < 2 ^ 32) ∧ (0 < 179 ∧ 179 < 2 ^ 32) ∧
      ∃ t1 t2 v1 v2, runOps (HashTable.new 3)
          [.insert ⟨[77], [67], [[67, 83]], 1⟩, .insert ⟨[67, 83], [68], [[88]], 2⟩,
            .insert ⟨[77], [69], [[90], [90]], 3⟩, .insert ⟨[65], [70], [], 4⟩] = some t1 ∧
        runOps (HashTable.new 179)
          [.insert ⟨[77], [67], [[67, 83]], 1⟩, .insert ⟨[67, 83], [68], [[88]], 2⟩,
            .insert ⟨[77], [69], [[90], [90]], 3⟩, .insert ⟨[65], [70], [], 4⟩] = some t2 ∧
        (∀ k, Search t1 k = Search t2 k) ∧
        sortedCourses t1 = sortedCourses t2 ∧
        PrintCourseListSorted t1 = PrintCourseListSorted t2 ∧
        ValidatePrerequisites t1 = some v1 ∧ ValidatePrerequisites t2 = some v2 ∧
        v1.2 = v2.2 :=
  ⟨by decide, by decide,
    C19_bucket_layout_unobservable 3 179
      [.insert ⟨[77], [67], [[67, 83]], 1⟩, .insert ⟨[67, 83], [68], [[88]], 2⟩,
        .insert ⟨[77], [69], [[90], [90]], 3⟩, .insert ⟨[65], [70], [], 4⟩]
      (by decide) (by decide)⟩

/-! ## The command loop -/

theorem PrintSingleCourse_isSome {t : HashTable} (hu : t.bucketCount % 2 ^ 32 ≠ 0)
    (rawId : List Nat) :
    ∃ printed, PrintSingleCourse t rawId = some printed ∧ Out.pleaseLoadFirst ∉ printed := by
  unfold PrintSingleCourse
  obtain ⟨o, ho⟩ := Search_isSome hu (NormalizeId rawId)
  rw [ho]
  cases o with
  | none => exact ⟨_, rfl, by simp⟩
  | some c =>
    simp only
    split
    · exact ⟨_, rfl, by simp⟩
    · exact ⟨_, rfl, by simp⟩

theorem pleaseLoadFirst_not_mem_listing (t : HashTable) :
    Out.pleaseLoadFirst ∉ PrintCourseListSorted t := by
  unfold PrintCourseListSorted
  simp

theorem mainTurn_load {s : Session} {turn : Turn} (h : turn.isLoad) :
    mainTurn s turn
      = match LoadCoursesFromFile (Trim turn.line) turn.file s.table with
        | none => none
        | some res =>
          some ⟨⟨res.table, res.ok⟩,
            [Out.menu, Out.prompt "What would you like to do? ",
              Out.prompt "Enter the file name: "] ++ res.out, true⟩ := by
  unfold Turn.isLoad at h
  unfold mainTurn
  exact if_pos h

/-- A print command is answered with "Please load data first." exactly when the
flag `loaded` is `false`. -/
theorem mainTurn_print {s : Session} {turn : Turn} (h : turn.isPrint)
    (hu : s.table.bucketCount % 2 ^ 32 ≠ 0) :
    ∃ r, mainTurn s turn = some r ∧ r.session = s ∧ r.continues = true ∧
      (Out.pleaseLoadFirst ∈ r.out ↔ s.loaded = false) := by
  obtain ⟨hp, hc⟩ := h
  have h1 : ¬ (turn.mi.parsed = true ∧ turn.mi.choice = 1) := by
    rintro ⟨_, h1⟩
    rcases hc with hc | hc <;> rw [h1] at hc <;> cases hc
  unfold mainTurn
  rw [if_neg h1]
  rcases hc with hc | hc
  · rw [if_pos ⟨hp, hc⟩]
    cases hl : s.loaded with
    | false => exact ⟨_, rfl, rfl, rfl, by simp⟩
    | true =>
      refine ⟨_, rfl, rfl, rfl, ?_⟩
      have := pleaseLoadFirst_not_mem_listing s.table
      simp only [Bool.true_eq_false, if_false, List.mem_append, List.mem_cons,
        List.mem_singleton, List.not_mem_nil, this, or_false, iff_false]
      simp
  · have h2 : ¬ (turn.mi.parsed = true ∧ turn.mi.choice = 2) := by
      rintro ⟨_, h2⟩
      rw [h2] at hc
      cases hc
    rw [if_neg h2, if_pos ⟨hp, hc⟩]
    cases hl : s.loaded with
    | false => exact ⟨_, rfl, rfl, rfl, by simp⟩
    | true =>
      obtain ⟨printed, hpr, hno⟩ := PrintSingleCourse_isSome hu turn.line
      simp only [Bool.true_eq_false, if_false, hpr]
      refine ⟨_, rfl, rfl, rfl, ?_⟩
      simp [hno]

theorem mainTurn_keeps_session {s : Session} {turn : Turn} (hl : ¬ turn.isLoad)
    (he : ¬ turn.isExit) (hu : s.table.bucketCount % 2 ^ 32 ≠ 0) :
    ∃ r, mainTurn s turn = some r ∧ r.session = s ∧ r.continues = true := by
  by_cases hp : turn.isPrint
  · obtain ⟨r, h1, h2, h3, _⟩ := mainTurn_print (s := s) hp hu
    exact ⟨r, h1, h2, h3⟩
  · unfold Turn.isLoad at hl
    unfold Turn.isExit at he
    unfold Turn.isPrint at hp
    have h2 : ¬ (turn.mi.parsed = true ∧ turn.mi.choice = 2) :=
      fun h => hp ⟨h.1, Or.inl h.2⟩
    have h3 : ¬ (turn.mi.parsed = true ∧ turn.mi.choice = 3) :=
      fun h => hp ⟨h.1, Or.inr h.2⟩
    unfold mainTurn
    rw [if_neg hl, if_neg h2, if_neg h3, if_neg he]
    split
    · exact ⟨_, rfl, rfl, rfl⟩
    · exact ⟨_, rfl, rfl, rfl⟩

theorem mainLoop_keeps_session {s : Session} (mid : List Turn)
    (hmid : ∀ m ∈ mid, ¬ m.isLoad ∧ ¬ m.isExit) (hu : s.table.bucketCount % 2 ^ 32 ≠ 0)
    (out : List Out) : ∃ out', mainLoop s out mid = some (s, out') := by
  induction mid generalizing out with
  | nil => exact ⟨out, rfl⟩
  | cons m mid ih =>
    obtain ⟨r, h1, h2, h3⟩ := mainTurn_keeps_session (s := s)
      (hmid m (List.mem_cons_self _ _)).1 (hmid m (List.mem_cons_self _ _)).2 hu
    unfold mainLoop
    rw [h1]
    simp only [h3, if_true, h2]
    exact ih (fun x hx => hmid x (List.mem_cons_of_mem _ hx)) _

/-- C20 (as amended): the command layer gates list and describe on the flag
`loaded`, which every load whose source opens sets to its own result. After such a
load command, and whatever the flag was before it, a print-all or print-one
command that follows with no other load or exit command in between is served
exactly when that load returned success, and is answered with "Please load data
first." exactly when it returned failure, that is, when no line was accepted. -/
theorem C20_gate_follows_latest_load (s : Session) (load : Turn) (lines : List (List Nat))
    (mid : List Turn) (print : Turn)
    (hs : Reachable s.table) (hu : s.table.bucketCount % 2 ^ 32 ≠ 0)
    (hL : load.isLoad) (hf : load.file = some lines)
    (hmid : ∀ m ∈ mid, ¬ m.isLoad ∧ ¬ m.isExit) (hP : print.isPrint) :
    ∃ res s' out r, LoadCoursesFromFile (Trim load.line) (some lines) s.table = some res ∧
      mainLoop s [] (load :: mid) = some (s', out) ∧ s'.loaded = res.ok ∧
      mainTurn s' print = some r ∧
      (Out.pleaseLoadFirst ∈ r.out ↔ res.ok = false) ∧
      (res.ok = false ↔ ∀ i k, ¬ AcceptsAt lines i k) := by
  obtain ⟨st, hst, hload⟩ := LoadCoursesFromFile_eq (Trim load.line) lines s.table hs hu
  obtain ⟨st2, hst2, hreach, hbc, _, _, hsome, hnone, _⟩ := loadLines_inv s.table hs hu lines
  have e2 : st = st2 := by
    rw [hst] at hst2
    injection hst2
  subst e2
  have hu' : st.table.bucketCount % 2 ^ 32 ≠ 0 := by rw [hbc]; exact hu
  obtain ⟨out', hloop⟩ := mainLoop_keeps_session
    (s := ⟨st.table, !decide (GetAllCourses st.table = [])⟩) mid hmid hu'
    ([] ++ ([Out.menu, Out.prompt "What would you like to do? ",
      Out.prompt "Enter the file name: "] ++ (st.out ++ (unresolvedPairs st.table).map missingLine
        ++ (if GetAllCourses st.table = [] then [Out.noValidCourses] else []))))
  obtain ⟨r, hr1, _, _, hr4⟩ := mainTurn_print
    (s := ⟨st.table, !decide (GetAllCourses st.table = [])⟩) hP hu'
  refine ⟨_, _, out', r, hload, ?_, rfl, hr1, hr4, ?_⟩
  · unfold mainLoop
    rw [mainTurn_load hL, hf, hload]
    simp only [if_true]
    exact hloop
  · simp only [Bool.not_eq_false', decide_eq_true_eq]
    constructor
    · intro he i k hacc
      obtain ⟨o, ho⟩ := Search_isSome (t := st.table) hu' k
      cases o with
      | none => exact (hnone k).mp ho i hacc
      | some c =>
        have := ((Search_eq_some_iff hreach.inv hu' k c).mp ho).1
        rw [he] at this
        cases this
    · intro hno
      by_contra hne
      obtain ⟨c, hc⟩ := List.exists_mem_of_ne_nil _ hne
      have hsr := (Search_eq_some_iff hreach.inv hu' c.courseNumber c).mpr ⟨hc, rfl⟩
      obtain ⟨i, hacc, _⟩ := (hsome _ _).mp hsr
      exact hno i _ hacc

set_option maxRecDepth 20000 in
/-- C20 (witness): from the start state of `main`, a load of the one-line file
`CSCI100,Pre-CS`, an invalid menu entry, then print-all: the load succeeds and the
listing is served. -/
theorem C20_gate_follows_latest_load_witness :
    (main [⟨⟨true, 1, ascii "1"⟩, ascii "a.csv", some [ascii "CSCI100,Pre-CS"]⟩,
        ⟨⟨false, -1, ascii "x"⟩, [], none⟩, ⟨⟨true, 2, ascii "2"⟩, [], none⟩]).map
        (fun r => (r.1.loaded, r.2.drop 7))
        = some (true, [Out.menu, Out.prompt "What would you like to do? ", Out.scheduleHeader,
            Out.courseLine (ascii "CSCI100") (ascii "Pre-CS")]) ∧
      ∃ res s' out r,
        LoadCoursesFromFile (Trim (ascii "a.csv")) (some [ascii "CSCI100,Pre-CS"])
          (HashTable.new 179) = some res ∧
        mainLoop ⟨HashTable.new 179, false⟩ []
          [⟨⟨true, 1, ascii "1"⟩, ascii "a.csv", some [ascii "CSCI100,Pre-CS"]⟩,
            ⟨⟨false, -1, ascii "x"⟩, [], none⟩] = some (s', out) ∧
        s'.loaded = res.ok ∧
        mainTurn s' ⟨⟨true, 2, ascii "2"⟩, [], none⟩ = some r ∧
        (Out.pleaseLoadFirst ∈ r.out ↔ res.ok = false) ∧
        (res.ok = false ↔ ∀ i k, ¬ AcceptsAt [ascii "CSCI100,Pre-CS"] i k) :=
  ⟨by decide,
    C20_gate_follows_latest_load ⟨HashTable.new 179, false⟩
      ⟨⟨true, 1, ascii "1"⟩, ascii "a.csv", some [ascii "CSCI100,Pre-CS"]⟩
      [ascii "CSCI100,Pre-CS"] [⟨⟨false, -1, ascii "x"⟩, [], none⟩]
      ⟨⟨true, 2, ascii "2"⟩, [], none⟩ (Reachable.new 179) (by decide)
      ⟨rfl, rfl⟩ rfl
      (by
        intro m hm
        rw [List.mem_singleton.mp hm]
        exact ⟨fun h => absurd h.1 (by decide), fun h => absurd h.1 (by decide)⟩)
      ⟨rfl, Or.inl rfl⟩⟩

set_option maxRecDepth 20000 in
/-- C20 (as stated, refuted): in `main`, the load of the one-line file
`CSCI100,Pre-CS` returns success; a later load of a file without lines returns
failure and resets `loaded`, and the print-all and print-one commands that follow
are answered with "Please load data first."; the same happens when the later file
cannot be opened. -/
theorem C20_failed_load_closes_the_gate :
    (main [⟨⟨true, 1, ascii "1"⟩, ascii "a.csv", some [ascii "CSCI100,Pre-CS"]⟩]).map
        (fun r => r.1.loaded) = some true ∧
      (main [⟨⟨true, 1, ascii "1"⟩, ascii "a.csv", some [ascii "CSCI100,Pre-CS"]⟩,
          ⟨⟨true, 1, ascii "1"⟩, ascii "b.csv", some []⟩,
          ⟨⟨true, 2, ascii "2"⟩, [], none⟩]).map (fun r => (r.1.loaded, r.2.getLast?))
        = some (false, some Out.pleaseLoadFirst) ∧
      (main [⟨⟨true, 1, ascii "1"⟩, ascii "a.csv", some [ascii "CSCI100,Pre-CS"]⟩,
          ⟨⟨true, 1, ascii "1"⟩, ascii "b.csv", some []⟩,
          ⟨⟨true, 3, ascii "3"⟩, ascii "CSCI100", none⟩]).map
            (fun r => (r.1.loaded, r.2.getLast?))
        = some (false, some Out.pleaseLoadFirst) ∧
      (main [⟨⟨true, 1, ascii "1"⟩, ascii "a.csv", some [ascii "CSCI100,Pre-CS"]⟩,
          ⟨⟨true, 1, ascii "1"⟩, ascii "c.csv", none⟩,
          ⟨⟨true, 2, ascii "2"⟩, [], none⟩]).map (fun r => (r.1.loaded, r.2.getLast?))
        = some (false, some Out.pleaseLoadFirst) := by
  refine ⟨by decide, by decide, by decide, by decide⟩

end CoursePlanner
